import Mathlib

/-!
Verification development for the Dex improvements backlog server
(`core/mcp/dex_improvements_server.py`).

The Python module manipulates a Markdown backlog document with regular
expressions and scores/deduplicates text with `difflib.SequenceMatcher`.
We embed the relevant functions shallowly:

* strings are `List Char` (named `Str` below); `String` wrappers with the
  source names are provided where convenient;
* Python floats are modelled as exact rationals (`ℚ`); the claims under
  study are threshold comparisons, never float-rounding facts;
* every regular expression of the source is embedded as a bespoke,
  deterministic matcher function reproducing Python `re` semantics
  (leftmost search, ordered alternation, greedy/lazy backtracking) for
  that particular pattern; the correspondence is documented at each
  definition;
* `Python \s` is modelled as the six ASCII whitespace characters and
  `\d`/`\w` as their ASCII classes (the documents involved are ASCII
  plus a handful of emoji, none of which are whitespace or digits);
* file-system state (the backlog file, the changelog file, the synthesis
  state file) is passed explicitly, a missing file being `Option.none`.
-/

namespace Dex

/-- Strings of the embedding: lists of characters. -/
abbrev Str := List Char

/-! ## Python string primitives -/

/-- Python `\s` / `str.strip` whitespace, restricted to ASCII:
space, tab, newline, carriage return, form feed, vertical tab. -/
def isPyWS (c : Char) : Bool :=
  c = ' ' || c = '\t' || c = '\n' || c = '\r' || c = '\x0c' || c = '\x0b'

/-- Python `\d` (ASCII). -/
def isPyDigit (c : Char) : Bool := '0' ≤ c && c ≤ '9'

/-- Python `\w` (ASCII): letters, digits, underscore. -/
def isPyWord (c : Char) : Bool :=
  ('a' ≤ c && c ≤ 'z') || ('A' ≤ c && c ≤ 'Z') || isPyDigit c || c = '_'

/-- Python `needle in hay` (substring containment). -/
def strContains (hay needle : Str) : Bool :=
  if needle.isPrefixOf hay then true
  else match hay with
    | [] => false
    | _ :: t => strContains t needle

/-- Python `str.lower`, character-wise (the texts involved are ASCII). -/
def lowerStr (s : Str) : Str := s.map Char.toLower

/-- Python `str.strip()`: drop whitespace from both ends. -/
def pyStrip (s : Str) : Str :=
  ((s.dropWhile isPyWS).reverse.dropWhile isPyWS).reverse

theorem dropWhile_length_le {α : Type} (p : α → Bool) (l : List α) :
    (l.dropWhile p).length ≤ l.length := by
  induction l with
  | nil => simp [List.dropWhile]
  | cons c t ih =>
    simp only [List.dropWhile]
    split
    · exact Nat.le_succ_of_le ih
    · exact Nat.le_refl _

/-- Python `str.split()`: split on whitespace runs, dropping empty parts. -/
def pySplitWS : Str → List Str
  | [] => []
  | c :: t =>
    if isPyWS c then pySplitWS t
    else (c :: t.takeWhile (fun d => !isPyWS d)) ::
      pySplitWS (t.dropWhile (fun d => !isPyWS d))
termination_by s => s.length
decreasing_by
  · simp
  · have h1 := dropWhile_length_le (fun d => !isPyWS d) t
    simp
    omega

/-- Length of the leading whitespace run (how far a greedy `\s*` reaches). -/
def leadingWS (s : Str) : Nat := (s.takeWhile isPyWS).length

/-- Value of a list of ASCII digits (Python `int` on a digit string). -/
def digitsVal (ds : Str) : Nat :=
  ds.foldl (fun a c => a * 10 + (c.toNat - '0'.toNat)) 0

/-- Little-endian decimal digits of `n`; `fuel = n + 1` always
suffices since the argument shrinks at every step. -/
def natDigitsRev : Nat → Nat → Str
  | 0, _ => []
  | fuel + 1, n =>
    if n < 10 then [Nat.digitChar n]
    else Nat.digitChar (n % 10) :: natDigitsRev fuel (n / 10)

/-- Decimal digit string of `n` (no padding), as produced by Python `str`. -/
def natDigits (n : Nat) : Str :=
  (natDigitsRev (n + 1) n).reverse

/-- Python `f"{n:03d}"`: decimal digits left-padded with `'0'` to width 3. -/
def pad3 (n : Nat) : Str :=
  let ds := natDigits n
  List.replicate (3 - ds.length) '0' ++ ds

/-! ## `difflib.SequenceMatcher` (stdlib, used by `calculate_similarity`)

`SequenceMatcher(None, a, b).ratio()` with `isjunk = None` and the default
`autojunk = True`.  Since `isjunk` is `None`, the `bjunk` set is empty and
the two junk-extension loops of `find_longest_match` never run; only the
`autojunk` "popular element" purge of `b2j` is active.  The model below was
differentially tested against CPython's `difflib` (thousands of random
pairs, both below and above the autojunk length threshold of 200). -/

/-- Append index `j` to the entry of `c` in the association map
(Python `b2j.setdefault(elt, []).append(i)`). -/
def b2jAdd (m : List (Char × List Nat)) (c : Char) (j : Nat) :
    List (Char × List Nat) :=
  match m with
  | [] => [(c, [j])]
  | (c', js) :: rest =>
    if c' = c then (c', js ++ [j]) :: rest else (c', js) :: b2jAdd rest c j

/-- First pass of `SequenceMatcher.__chain_b`: map each element of `b` to
its ascending list of indices. -/
def b2jRaw (b : Str) : List (Char × List Nat) :=
  let rec go (m : List (Char × List Nat)) (j : Nat) : Str → List (Char × List Nat)
    | [] => m
    | c :: t => go (b2jAdd m c j) (j + 1) t
  go [] 0 b

/-- `__chain_b` with the autojunk purge: when `len(b) ≥ 200`, elements with
more than `len(b) // 100 + 1` occurrences are removed (`isjunk` is `None`,
so the `bjunk` purge is vacuous). -/
def b2jMap (b : Str) : List (Char × List Nat) :=
  let m := b2jRaw b
  if b.length ≥ 200 then
    let ntest := b.length / 100 + 1
    m.filter (fun p => decide (p.2.length ≤ ntest))
  else m

/-- `b2j.get(c, [])`. -/
def b2jGet (m : List (Char × List Nat)) (c : Char) : List Nat :=
  match m.find? (fun p => p.1 = c) with
  | some p => p.2
  | none => []

/-- `j2len.get(j, 0)` on the association list used for the DP row. -/
def alGet (m : List (Nat × Nat)) (j : Nat) : Nat :=
  match m.find? (fun p => p.1 = j) with
  | some p => p.2
  | none => 0

/-- `a[i]`, total with a junk default; all accesses are guarded in range. -/
def charAt (s : Str) (i : Nat) : Char := (s.get? i).getD '\x00'

/-- One row (`for j in b2j.get(a[i], [])`) of `find_longest_match`'s DP.
`js` is ascending, so Python's `continue` on `j < blo` is a skip and its
`break` on `j >= bhi` stops the row.  Returns the new `j2len` row and the
updated best triple `(besti, bestj, bestsize)`. -/
def flmRow (i blo bhi : Nat) (js : List Nat) (j2len : List (Nat × Nat))
    (acc : List (Nat × Nat)) (best : Nat × Nat × Nat) :
    List (Nat × Nat) × (Nat × Nat × Nat) :=
  match js with
  | [] => (acc, best)
  | j :: rest =>
    if j < blo then flmRow i blo bhi rest j2len acc best
    else if bhi ≤ j then (acc, best)
    else
      -- Python computes `j2len.get(j-1, 0)`; when `j = 0` the key `-1`
      -- is never present, hence the explicit guard under Nat subtraction.
      let k := (if j = 0 then 0 else alGet j2len (j - 1)) + 1
      let best' := if best.2.2 < k then (i + 1 - k, j + 1 - k, k) else best
      flmRow i blo bhi rest j2len ((j, k) :: acc) best'

/-- The row loop (`for i in range(alo, ahi)`) of `find_longest_match`,
threading the `j2len` row.  `is` is the ascending list of row indices. -/
def flmRows (a : Str) (m : List (Char × List Nat)) (blo bhi : Nat)
    (is : List Nat) (j2len : List (Nat × Nat)) (best : Nat × Nat × Nat) :
    Nat × Nat × Nat :=
  match is with
  | [] => best
  | i :: rest =>
    let (row, best') := flmRow i blo bhi (b2jGet m (charAt a i)) j2len [] best
    flmRows a m blo bhi rest row best'

/-- First (non-junk) extension loop of `find_longest_match`, leftward.
The `isbjunk` condition is identically false (empty `bjunk`). -/
def extLeft (a b : Str) (alo blo : Nat) : Nat → Nat → Nat → Nat × Nat × Nat
  | 0, bestj, size => (0, bestj, size)
  | besti + 1, bestj, size =>
    if alo < besti + 1 ∧ blo < bestj ∧
        charAt a besti = charAt b (bestj - 1) then
      extLeft a b alo blo besti (bestj - 1) (size + 1)
    else (besti + 1, bestj, size)

/-- Iteration core of the rightward extension loop; `rem` counts the
remaining room `ahi - (besti + size)`, making the recursion structural. -/
def extRightGo (a b : Str) (bhi besti bestj : Nat) : Nat → Nat → Nat
  | 0, size => size
  | rem + 1, size =>
    if bestj + size < bhi ∧ charAt a (besti + size) = charAt b (bestj + size)
    then extRightGo a b bhi besti bestj rem (size + 1)
    else size

/-- Second (non-junk) extension loop of `find_longest_match`, rightward:
extends while `besti+size < ahi ∧ bestj+size < bhi` and the characters
agree (`besti+size < ahi` is exactly `0 < ahi - (besti+size)`). -/
def extRight (a b : Str) (ahi bhi besti bestj size : Nat) : Nat :=
  extRightGo a b bhi besti bestj (ahi - (besti + size)) size

/-- The pair of extension loops applied to the best block of the DP. -/
def flmExt (a b : Str) (alo ahi blo bhi : Nat) (best : Nat × Nat × Nat) :
    Nat × Nat × Nat :=
  ((extLeft a b alo blo best.1 best.2.1 best.2.2).1,
   (extLeft a b alo blo best.1 best.2.1 best.2.2).2.1,
   extRight a b ahi bhi (extLeft a b alo blo best.1 best.2.1 best.2.2).1
     (extLeft a b alo blo best.1 best.2.1 best.2.2).2.1
     (extLeft a b alo blo best.1 best.2.1 best.2.2).2.2)

/-- `find_longest_match(alo, ahi, blo, bhi)`.  The two junk-extension
loops of the source never execute (`bjunk` is empty) and are omitted. -/
def flm (a b : Str) (m : List (Char × List Nat)) (alo ahi blo bhi : Nat) :
    Nat × Nat × Nat :=
  flmExt a b alo ahi blo bhi
    (flmRows a m blo bhi (List.range' alo (ahi - alo)) [] (alo, blo, 0))

/-! ### Bounds invariant of `find_longest_match`

The returned block `(i, j, k)` satisfies `alo ≤ i`, `blo ≤ j`,
`i + k ≤ ahi`, `j + k ≤ bhi`; this is what makes the matching-blocks
recursion well founded and bounds the total match count. -/

/-- Invariant of the running best triple: in range, with end row ≤ `B`. -/
def BestInv (alo blo bhi B : Nat) (best : Nat × Nat × Nat) : Prop :=
  alo ≤ best.1 ∧ blo ≤ best.2.1 ∧ best.1 + best.2.2 ≤ B ∧
    best.2.1 + best.2.2 ≤ bhi

/-- Invariant of a `j2len` association row: every chain value `k` at
column `j` satisfies `k + alo ≤ B` and `k + blo ≤ j + 1`.  The row
produced while processing row `i` satisfies the bound `B = i + 1`. -/
def RowInv (alo blo B : Nat) (m : List (Nat × Nat)) : Prop :=
  ∀ p ∈ m, p.2 + alo ≤ B ∧ p.2 + blo ≤ p.1 + 1

theorem alGet_bound {alo blo B : Nat} {m : List (Nat × Nat)}
    (h : RowInv alo blo B m) (j : Nat) (hpos : 0 < alGet m j) :
    alGet m j + alo ≤ B ∧ alGet m j + blo ≤ j + 1 := by
  unfold alGet at hpos ⊢
  cases hf : m.find? (fun p => p.1 = j) with
  | none => rw [hf] at hpos; simp at hpos
  | some p =>
    rw [hf] at hpos
    dsimp only at hpos ⊢
    have hm := List.mem_of_find?_eq_some hf
    have hp := List.find?_some hf
    have hj : p.1 = j := by simpa using hp
    have := h p hm
    omega

theorem flmRow_inv {alo blo bhi : Nat} (i : Nat) (hi : alo ≤ i)
    (js : List Nat) (j2len : List (Nat × Nat)) (acc : List (Nat × Nat))
    (best : Nat × Nat × Nat)
    (hj : RowInv alo blo i j2len) (hacc : RowInv alo blo (i + 1) acc)
    (hb : BestInv alo blo bhi (i + 1) best) :
    RowInv alo blo (i + 1) (flmRow i blo bhi js j2len acc best).1 ∧
      BestInv alo blo bhi (i + 1) (flmRow i blo bhi js j2len acc best).2 := by
  induction js generalizing acc best with
  | nil => exact ⟨hacc, hb⟩
  | cons j rest ih =>
    simp only [flmRow]
    split
    · exact ih acc best hacc hb
    next hjlo =>
    split
    · exact ⟨hacc, hb⟩
    next hjhi =>
    have hjblo : blo ≤ j := Nat.le_of_not_lt hjlo
    have hjbhi : j < bhi := Nat.lt_of_not_le hjhi
    have hka : ((if j = 0 then 0 else alGet j2len (j - 1)) + 1) + alo ≤ i + 1 ∧
        ((if j = 0 then 0 else alGet j2len (j - 1)) + 1) + blo ≤ j + 1 := by
      by_cases hj0 : j = 0
      · subst hj0
        rw [if_pos rfl]
        exact ⟨by omega, by omega⟩
      · rw [if_neg hj0]
        rcases Nat.eq_zero_or_pos (alGet j2len (j - 1)) with h0 | h0
        · rw [h0]
          exact ⟨by omega, by omega⟩
        · have hbd := alGet_bound hj (j - 1) h0
          exact ⟨by omega, by omega⟩
    apply ih
    · intro p hp
      rcases List.mem_cons.mp hp with rfl | hp2
      · exact ⟨by dsimp only; omega, by dsimp only; omega⟩
      · exact hacc p hp2
    · by_cases hbk :
        best.2.2 < (if j = 0 then 0 else alGet j2len (j - 1)) + 1
      · rw [if_pos hbk]
        refine ⟨?_, ?_, ?_, ?_⟩ <;> dsimp only <;> omega
      · rw [if_neg hbk]
        exact hb

theorem flmRows_inv (a : Str) (m : List (Char × List Nat))
    (alo blo bhi : Nat) (n : Nat) :
    ∀ (i : Nat), alo ≤ i →
    ∀ (j2len : List (Nat × Nat)) (best : Nat × Nat × Nat),
    RowInv alo blo i j2len → BestInv alo blo bhi i best →
    BestInv alo blo bhi (i + n)
      (flmRows a m blo bhi (List.range' i n) j2len best) := by
  induction n with
  | zero => intro i _ j2len best _ hb; simpa using hb
  | succ n ih =>
    intro i hi j2len best hj hb
    have hrange : List.range' i (n + 1) = i :: List.range' (i + 1) n := rfl
    rw [hrange]
    simp only [flmRows]
    have hrow := flmRow_inv i hi (b2jGet m (charAt a i)) j2len [] best hj
      (by intro p hp; simp at hp)
      ⟨hb.1, hb.2.1, Nat.le_succ_of_le hb.2.2.1, hb.2.2.2⟩
    have hnext := ih (i + 1) (Nat.le_succ_of_le hi)
      (flmRow i blo bhi (b2jGet m (charAt a i)) j2len [] best).1
      (flmRow i blo bhi (b2jGet m (charAt a i)) j2len [] best).2
      hrow.1 hrow.2
    have harith : i + 1 + n = i + (n + 1) := by omega
    rw [harith] at hnext
    exact hnext

theorem extLeft_inv (a b : Str) (alo blo ahi bhi : Nat) :
    ∀ besti bestj size,
    (alo ≤ besti ∧ blo ≤ bestj ∧ besti + size ≤ ahi ∧ bestj + size ≤ bhi) →
    alo ≤ (extLeft a b alo blo besti bestj size).1 ∧
    blo ≤ (extLeft a b alo blo besti bestj size).2.1 ∧
    (extLeft a b alo blo besti bestj size).1 +
      (extLeft a b alo blo besti bestj size).2.2 ≤ ahi ∧
    (extLeft a b alo blo besti bestj size).2.1 +
      (extLeft a b alo blo besti bestj size).2.2 ≤ bhi := by
  intro besti
  induction besti with
  | zero =>
    intro bestj size h
    rw [extLeft]
    refine ⟨?_, ?_, ?_, ?_⟩ <;> dsimp only <;> omega
  | succ besti ih =>
    intro bestj size h
    rw [extLeft]
    split
    next hg =>
      exact ih (bestj - 1) (size + 1) ⟨by omega, by omega, by omega, by omega⟩
    next hg =>
      refine ⟨?_, ?_, ?_, ?_⟩ <;> dsimp only <;> omega

theorem extRightGo_le (a b : Str) (bhi besti bestj : Nat) :
    ∀ rem size,
    extRightGo a b bhi besti bestj rem size ≤ size + rem ∧
    (bestj + size ≤ bhi →
      bestj + extRightGo a b bhi besti bestj rem size ≤ bhi) := by
  intro rem
  induction rem with
  | zero =>
    intro size
    rw [extRightGo]
    exact ⟨by omega, fun h => by omega⟩
  | succ rem ih =>
    intro size
    rw [extRightGo]
    split
    next hg =>
      have := ih (size + 1)
      exact ⟨by omega, fun _ => this.2 (by omega)⟩
    next hg =>
      exact ⟨by omega, fun h => by omega⟩

theorem extRight_inv (a b : Str) (ahi bhi besti bestj : Nat) :
    ∀ size,
    (besti + size ≤ ahi ∧ bestj + size ≤ bhi) →
    besti + extRight a b ahi bhi besti bestj size ≤ ahi ∧
      bestj + extRight a b ahi bhi besti bestj size ≤ bhi := by
  intro size h
  unfold extRight
  have hle := extRightGo_le a b bhi besti bestj (ahi - (besti + size)) size
  exact ⟨by omega, hle.2 h.2⟩

theorem flm_bounds (a b : Str) (m : List (Char × List Nat))
    (alo ahi blo bhi : Nat) (ha : alo ≤ ahi) (hb : blo ≤ bhi) :
    alo ≤ (flm a b m alo ahi blo bhi).1 ∧
    blo ≤ (flm a b m alo ahi blo bhi).2.1 ∧
    (flm a b m alo ahi blo bhi).1 + (flm a b m alo ahi blo bhi).2.2 ≤ ahi ∧
    (flm a b m alo ahi blo bhi).2.1 + (flm a b m alo ahi blo bhi).2.2 ≤ bhi := by
  unfold flm flmExt
  have h0 : BestInv alo blo bhi alo (alo, blo, 0) := by
    unfold BestInv
    refine ⟨le_rfl, le_rfl, ?_, ?_⟩ <;> dsimp only <;> omega
  have hrows := flmRows_inv a m alo blo bhi (ahi - alo) alo le_rfl []
    (alo, blo, 0) (by intro p hp; simp at hp) h0
  have harith : alo + (ahi - alo) = ahi := by omega
  rw [harith] at hrows
  set best := flmRows a m blo bhi (List.range' alo (ahi - alo)) [] (alo, blo, 0)
    with hbest
  have hext := extLeft_inv a b alo blo ahi bhi best.1 best.2.1 best.2.2
    ⟨hrows.1, hrows.2.1, hrows.2.2.1, hrows.2.2.2⟩
  set best2 := extLeft a b alo blo best.1 best.2.1 best.2.2 with hbest2
  have hr := extRight_inv a b ahi bhi best2.1 best2.2.1 best2.2.2
    ⟨hext.2.2.1, hext.2.2.2⟩
  exact ⟨hext.1, hext.2.1, hr.1, hr.2⟩

/-! ### Characterization of `b2j`

`b2jGet (b2jRaw b) c` is exactly the ascending list of positions of `c`
in `b`; the autojunk purge either keeps such a list whole or drops it. -/

/-- Ascending positions of `c` in a string, offset by `j`. -/
def posOf (c : Char) : Str → Nat → List Nat
  | [], _ => []
  | d :: t, j => if d = c then j :: posOf c t (j + 1) else posOf c t (j + 1)

theorem b2jGet_nil (c : Char) : b2jGet [] c = [] := by
  simp [b2jGet, List.find?]

theorem b2jGet_cons (c0 : Char) (js : List Nat)
    (rest : List (Char × List Nat)) (c : Char) :
    b2jGet ((c0, js) :: rest) c = if c0 = c then js else b2jGet rest c := by
  unfold b2jGet
  rw [List.find?_cons]
  by_cases h : c0 = c
  · simp [h]
  · simp [h]

theorem b2jGet_add (m : List (Char × List Nat)) (c : Char) (j : Nat)
    (c' : Char) :
    b2jGet (b2jAdd m c j) c' =
      if c = c' then b2jGet m c' ++ [j] else b2jGet m c' := by
  induction m with
  | nil =>
    simp only [b2jAdd, b2jGet_cons, b2jGet_nil]
    by_cases h : c = c'
    · rw [if_pos h, if_pos h]; simp
    · rw [if_neg h, if_neg h]
  | cons p rest ih =>
    obtain ⟨c0, js⟩ := p
    simp only [b2jAdd]
    by_cases h0 : c0 = c
    · rw [if_pos h0, b2jGet_cons, b2jGet_cons]
      subst h0
      by_cases h : c0 = c'
      · rw [if_pos h, if_pos h, if_pos h]
      · rw [if_neg h, if_neg h, if_neg h]
    · rw [if_neg h0, b2jGet_cons, b2jGet_cons, ih]
      by_cases h : c0 = c'
      · rw [if_pos h, if_pos h]
        rw [if_neg (fun hh => h0 (h.trans hh.symm))]
      · rw [if_neg h, if_neg h]

theorem b2jRaw_go_get (rest : Str) :
    ∀ (m : List (Char × List Nat)) (j : Nat) (c : Char),
    b2jGet (b2jRaw.go m j rest) c = b2jGet m c ++ posOf c rest j := by
  induction rest with
  | nil => intro m j c; simp [b2jRaw.go, posOf]
  | cons d t ih =>
    intro m j c
    simp only [b2jRaw.go, posOf]
    rw [ih, b2jGet_add]
    by_cases h : d = c
    · rw [if_pos h, if_pos h]; simp
    · rw [if_neg h, if_neg h]

theorem b2jRaw_get (b : Str) (c : Char) :
    b2jGet (b2jRaw b) c = posOf c b 0 := by
  have h := b2jRaw_go_get b [] 0 c
  unfold b2jRaw
  rw [h, b2jGet_nil]
  simp

theorem posOf_mem (c : Char) (s : Str) :
    ∀ (j j' : Nat), j' ∈ posOf c s j ↔
      ∃ o, o < s.length ∧ j' = j + o ∧ charAt s o = c := by
  induction s with
  | nil => intro j j'; simp [posOf]
  | cons d t ih =>
    intro j j'
    simp only [posOf]
    constructor
    · intro h
      by_cases hd : d = c
      · rw [if_pos hd] at h
        rcases List.mem_cons.mp h with rfl | h2
        · exact ⟨0, by simp, by omega, by simpa [charAt] using hd⟩
        · obtain ⟨o, ho, rfl, hc⟩ := (ih (j + 1) j').mp h2
          exact ⟨o + 1, by simp; omega, by omega, by simpa [charAt] using hc⟩
      · rw [if_neg hd] at h
        obtain ⟨o, ho, rfl, hc⟩ := (ih (j + 1) j').mp h
        exact ⟨o + 1, by simp; omega, by omega, by simpa [charAt] using hc⟩
    · rintro ⟨o, ho, rfl, hc⟩
      cases o with
      | zero =>
        have hd : d = c := by simpa [charAt] using hc
        rw [if_pos hd]
        simp
      | succ o2 =>
        have hmem : j + (o2 + 1) ∈ posOf c t (j + 1) := by
          apply (ih (j + 1) (j + (o2 + 1))).mpr
          exact ⟨o2, by simp at ho; omega, by omega, by simpa [charAt] using hc⟩
        by_cases hd : d = c
        · rw [if_pos hd]; exact List.mem_cons_of_mem _ hmem
        · rw [if_neg hd]; exact hmem

theorem posOf_sorted (c : Char) (s : Str) :
    ∀ j, (posOf c s j).Sorted (· < ·) := by
  induction s with
  | nil => intro j; simp [posOf]
  | cons d t ih =>
    intro j
    simp only [posOf]
    by_cases hd : d = c
    · rw [if_pos hd]
      refine List.sorted_cons.mpr ⟨?_, ih (j + 1)⟩
      intro b hb
      obtain ⟨o, _, rfl, _⟩ := (posOf_mem c t (j + 1) b).mp hb
      omega
    · rw [if_neg hd]; exact ih (j + 1)

theorem b2jGet_not_mem (m : List (Char × List Nat)) (c : Char)
    (h : c ∉ m.map Prod.fst) : b2jGet m c = [] := by
  unfold b2jGet
  rw [List.find?_eq_none.mpr]
  intro p hp hpc
  exact h (List.mem_map.mpr ⟨p, hp, by simpa using hpc⟩)

theorem b2jAdd_keys (m : List (Char × List Nat)) (c : Char) (j : Nat) :
    (b2jAdd m c j).map Prod.fst = m.map Prod.fst ∨
      (b2jAdd m c j).map Prod.fst = m.map Prod.fst ++ [c] := by
  induction m with
  | nil => right; simp [b2jAdd]
  | cons p rest ih =>
    obtain ⟨c0, js⟩ := p
    by_cases h0 : c0 = c
    · left; simp [b2jAdd, h0]
    · simp only [b2jAdd, if_neg h0]
      rcases ih with h | h
      · left; simpa using h
      · right; simpa using h

theorem b2jAdd_keys_nodup (m : List (Char × List Nat)) (c : Char) (j : Nat)
    (h : (m.map Prod.fst).Nodup) : ((b2jAdd m c j).map Prod.fst).Nodup := by
  induction m with
  | nil => simp [b2jAdd]
  | cons p rest ih =>
    obtain ⟨c0, js⟩ := p
    simp only [List.map_cons, List.nodup_cons] at h
    by_cases h0 : c0 = c
    · simp only [b2jAdd, if_pos h0, List.map_cons, List.nodup_cons]
      exact h
    · simp only [b2jAdd, if_neg h0, List.map_cons, List.nodup_cons]
      refine ⟨?_, ih h.2⟩
      intro hmem
      rcases b2jAdd_keys rest c j with hk | hk
      · rw [hk] at hmem; exact h.1 hmem
      · rw [hk] at hmem
        rcases List.mem_append.mp hmem with hm | hm
        · exact h.1 hm
        · simp at hm; exact h0 hm

theorem b2jRaw_go_keys_nodup (rest : Str) :
    ∀ (m : List (Char × List Nat)) (j : Nat),
    (m.map Prod.fst).Nodup → ((b2jRaw.go m j rest).map Prod.fst).Nodup := by
  induction rest with
  | nil => intro m j h; simpa [b2jRaw.go] using h
  | cons d t ih =>
    intro m j h
    simp only [b2jRaw.go]
    exact ih _ _ (b2jAdd_keys_nodup m d j h)

theorem b2jRaw_keys_nodup (b : Str) : ((b2jRaw b).map Prod.fst).Nodup := by
  have := b2jRaw_go_keys_nodup b [] 0 (by simp)
  simpa [b2jRaw] using this

theorem b2jGet_filter (q : Char × List Nat → Bool) :
    ∀ (m : List (Char × List Nat)) (c : Char),
    (m.map Prod.fst).Nodup →
    b2jGet (m.filter q) c = b2jGet m c ∨ b2jGet (m.filter q) c = [] := by
  intro m
  induction m with
  | nil => intro c _; right; simp [List.filter, b2jGet_nil]
  | cons p rest ih =>
    intro c hnd
    obtain ⟨c0, js⟩ := p
    simp only [List.map_cons, List.nodup_cons] at hnd
    by_cases hq : q (c0, js)
    · rw [List.filter_cons_of_pos hq, b2jGet_cons, b2jGet_cons]
      by_cases hc : c0 = c
      · rw [if_pos hc, if_pos hc]; left; rfl
      · rw [if_neg hc, if_neg hc]; exact ih c hnd.2
    · rw [List.filter_cons_of_neg hq, b2jGet_cons]
      by_cases hc : c0 = c
      · rw [if_pos hc]
        right
        apply b2jGet_not_mem
        intro hmem
        have hsub : ((rest.filter q).map Prod.fst).Sublist
            (rest.map Prod.fst) := (List.filter_sublist rest).map Prod.fst
        rw [← hc] at hmem
        exact hnd.1 (hsub.mem hmem)
      · rw [if_neg hc]
        exact ih c hnd.2

/-- The `b2j` map of `SequenceMatcher`: each lookup is either the full
ascending position list of the character or empty (autojunk purge). -/
theorem b2jMap_get (b : Str) (c : Char) :
    b2jGet (b2jMap b) c = posOf c b 0 ∨ b2jGet (b2jMap b) c = [] := by
  unfold b2jMap
  by_cases h : b.length ≥ 200
  · rw [if_pos h]
    rcases b2jGet_filter _ (b2jRaw b) c (b2jRaw_keys_nodup b) with h2 | h2
    · left; rw [h2]; exact b2jRaw_get b c
    · right; exact h2
  · rw [if_neg h]
    left
    exact b2jRaw_get b c

/-! ### Reflexivity of `ratio`

For `a = b`, the DP of `find_longest_match` can only ever install a
best block sitting on the diagonal: any off-diagonal chain of length `k`
ending at row `i` forces a diagonal chain of length ≥ `k` at a row
scanned no later, and the scan updates only on strictly greater sizes.
The diagonal best then extends to the full string, so `ratio(x, x) = 1`
— including in the autojunk regime, because the extension loops compare
characters directly, bypassing `b2j`. -/

/-- `alGet` on a freshly consed entry. -/
theorem alGet_cons (j k : Nat) (acc : List (Nat × Nat)) (j' : Nat) :
    alGet ((j, k) :: acc) j' = if j = j' then k else alGet acc j' := by
  unfold alGet
  rw [List.find?_cons]
  by_cases h : j = j'
  · simp [h]
  · simp [h]

/-- A position is "rare" when its character survived the `b2j` purge. -/
def rareAt (a : Str) (m : List (Char × List Nat)) (i : Nat) : Prop :=
  i ∈ b2jGet m (charAt a i)

instance (a : Str) (m : List (Char × List Nat)) (i : Nat) :
    Decidable (rareAt a m i) := by
  unfold rareAt
  infer_instance

/-- Length of the run of rare positions ending at `i` (the diagonal chain
value of the DP at row `i` for `a = b`). -/
def diagRun (a : Str) (m : List (Char × List Nat)) : Nat → Nat
  | 0 => if rareAt a m 0 then 1 else 0
  | i + 1 => if rareAt a m (i + 1) then diagRun a m i + 1 else 0

/-- Maximum of `diagRun` over the rows strictly before `i`. -/
def maxRun (a : Str) (m : List (Char × List Nat)) : Nat → Nat
  | 0 => 0
  | i + 1 => max (maxRun a m i) (diagRun a m i)

theorem diagRun_le_maxRun (a : Str) (m : List (Char × List Nat))
    {j i : Nat} (h : j < i) : diagRun a m j ≤ maxRun a m i := by
  induction i with
  | zero => omega
  | succ i ih =>
    rcases Nat.lt_succ_iff_lt_or_eq.mp h with h2 | rfl
    · exact le_trans (ih h2) (le_max_left _ _)
    · exact le_max_right _ _

theorem diagRun_pos (a : Str) (m : List (Char × List Nat)) {i : Nat}
    (h : rareAt a m i) : 1 ≤ diagRun a m i := by
  cases i with
  | zero => rw [diagRun, if_pos h]
  | succ i => rw [diagRun, if_pos h]; omega

theorem diagRun_zero (a : Str) (m : List (Char × List Nat)) {i : Nat}
    (h : ¬rareAt a m i) : diagRun a m i = 0 := by
  cases i with
  | zero => rw [diagRun, if_neg h]
  | succ i => rw [diagRun, if_neg h]

theorem diagRun_succ (a : Str) (m : List (Char × List Nat)) {i : Nat}
    (h : rareAt a m i) :
    diagRun a m i = (if i = 0 then 0 else diagRun a m (i - 1)) + 1 := by
  cases i with
  | zero => rw [diagRun, if_pos h, if_pos rfl]
  | succ i => rw [diagRun, if_pos h, if_neg (by omega)]; simp

/-- State invariant of the previous DP row entering row `i` (for `a = b`):
values bounded by columns' diagonal runs, bounded by the previous row's
run, and exact on the diagonal. -/
def PrevInv (a : Str) (m : List (Char × List Nat)) (i : Nat)
    (prev : List (Nat × Nat)) : Prop :=
  (∀ j, alGet prev j ≤ diagRun a m j) ∧
  (∀ j, alGet prev j ≤ (if i = 0 then 0 else diagRun a m (i - 1))) ∧
  (0 < i → alGet prev (i - 1) = diagRun a m (i - 1))

/-- State invariant of the best triple entering row `i` (for `a = b`):
on the diagonal, with size the maximum diagonal run so far. -/
def DiagBest (a : Str) (m : List (Char × List Nat)) (i : Nat)
    (best : Nat × Nat × Nat) : Prop :=
  best.1 = best.2.1 ∧ best.2.2 = maxRun a m i

theorem rowDiag_aux (a : Str) (m : List (Char × List Nat))
    (Hsound : ∀ c j, j ∈ b2jGet m c → j < a.length ∧ charAt a j = c)
    (i : Nat) (hin : i < a.length) (hri : rareAt a m i)
    (prev : List (Nat × Nat)) (hprev : PrevInv a m i prev) :
    ∀ (rest : List Nat) (acc : List (Nat × Nat)) (best : Nat × Nat × Nat),
    (∀ j ∈ rest, j ∈ b2jGet m (charAt a i)) →
    rest.Sorted (· < ·) →
    (∀ j, alGet acc j ≤ diagRun a m j) →
    (∀ j, alGet acc j ≤ diagRun a m i) →
    ((i ∈ rest ∧ alGet acc i = 0 ∧ best.1 = best.2.1 ∧
        best.2.2 = maxRun a m i) ∨
     (i ∉ rest ∧ (∀ j ∈ rest, i < j) ∧ alGet acc i = diagRun a m i ∧
        best.1 = best.2.1 ∧ best.2.2 = maxRun a m (i + 1))) →
    (∀ j, alGet (flmRow i 0 a.length rest prev acc best).1 j ≤
        diagRun a m j) ∧
    (∀ j, alGet (flmRow i 0 a.length rest prev acc best).1 j ≤
        diagRun a m i) ∧
    alGet (flmRow i 0 a.length rest prev acc best).1 i = diagRun a m i ∧
    DiagBest a m (i + 1) (flmRow i 0 a.length rest prev acc best).2 := by
  intro rest
  induction rest with
  | nil =>
    intro acc best hmem hsort hI1 hI2 hstate
    rcases hstate with ⟨habs, _⟩ | ⟨_, _, hdiag, hb1, hb2⟩
    · simp at habs
    · exact ⟨hI1, hI2, hdiag, hb1, hb2⟩
  | cons j rest2 ih =>
    intro acc best hmem hsort hI1 hI2 hstate
    have hjmem : j ∈ b2jGet m (charAt a i) := hmem j (by simp)
    have hjn : j < a.length := (Hsound _ j hjmem).1
    have hjchar : charAt a j = charAt a i := (Hsound _ j hjmem).2
    have hrj : rareAt a m j := by
      unfold rareAt
      rw [hjchar]
      exact hjmem
    simp only [flmRow]
    rw [if_neg (by omega), if_neg (by omega)]
    -- chain value bounds
    have hkj : (if j = 0 then 0 else alGet prev (j - 1)) + 1 ≤
        diagRun a m j := by
      by_cases hj0 : j = 0
      · rw [if_pos hj0, hj0]
        exact diagRun_pos a m (hj0 ▸ hrj)
      · rw [if_neg hj0]
        have h1 := hprev.1 (j - 1)
        have h2 := diagRun_succ a m hrj
        rw [h2, if_neg hj0]
        omega
    have hki : (if j = 0 then 0 else alGet prev (j - 1)) + 1 ≤
        diagRun a m i := by
      by_cases hj0 : j = 0
      · rw [if_pos hj0]
        exact diagRun_pos a m hri
      · rw [if_neg hj0]
        have h1 := hprev.2.1 (j - 1)
        have h2 := diagRun_succ a m hri
        by_cases hi0 : i = 0
        · rw [if_pos hi0] at h1
          rw [h2, if_pos hi0]
          omega
        · rw [if_neg hi0] at h1
          rw [h2, if_neg hi0]
          omega
    rcases hstate with ⟨hiin, hacc0, hb1, hb2⟩ | ⟨hiout, hgt, hdiag, hb1, hb2⟩
    · -- the diagonal has not been processed yet
      rcases List.mem_cons.mp hiin with rfl | hi2
      · -- j = i: the diagonal step; the chain value is exactly diagRun i
        have hkeq : (if i = 0 then 0 else alGet prev (i - 1)) + 1 =
            diagRun a m i := by
          by_cases hi0 : i = 0
          · rw [if_pos hi0, diagRun_succ a m hri, if_pos hi0]
          · rw [if_neg hi0, diagRun_succ a m hri, if_neg hi0]
            have h3 := hprev.2.2 (by omega)
            by_cases hr2 : rareAt a m (i - 1)
            · rw [h3]
            · have h4 := hprev.1 (i - 1)
              have h5 := diagRun_zero a m hr2
              omega
        have hrest2 : ∀ j2 ∈ rest2, i < j2 := by
          intro j2 hj2
          exact (List.sorted_cons.mp hsort).1 j2 hj2
        apply ih
        · intro j2 hj2; exact hmem j2 (List.mem_cons_of_mem _ hj2)
        · exact (List.sorted_cons.mp hsort).2
        · intro j2
          rw [alGet_cons]
          by_cases h : i = j2
          · rw [if_pos h, ← h, hkeq]
          · rw [if_neg h]; exact hI1 j2
        · intro j2
          rw [alGet_cons]
          by_cases h : i = j2
          · rw [if_pos h, hkeq]
          · rw [if_neg h]; exact hI2 j2
        · right
          refine ⟨fun hc => by have := hrest2 i hc; omega, hrest2, ?_, ?_, ?_⟩
          · rw [alGet_cons, if_pos rfl, hkeq]
          · by_cases hlt : best.2.2 < (if i = 0 then 0 else alGet prev (i - 1)) + 1
            · rw [if_pos hlt]
            · rw [if_neg hlt]; exact hb1
          · by_cases hlt : best.2.2 < (if i = 0 then 0 else alGet prev (i - 1)) + 1
            · rw [if_pos hlt]
              show (if i = 0 then 0 else alGet prev (i - 1)) + 1 =
                maxRun a m (i + 1)
              rw [hkeq]
              show diagRun a m i = max (maxRun a m i) (diagRun a m i)
              rw [hkeq] at hlt
              rw [hb2] at hlt
              omega
            · rw [if_neg hlt]
              rw [hkeq] at hlt
              rw [hb2] at hlt
              show best.2.2 = maxRun a m (i + 1)
              rw [hb2]
              show maxRun a m i = max (maxRun a m i) (diagRun a m i)
              omega
      · -- j < i: cannot beat the running maximum
        have hji : j < i := (List.sorted_cons.mp hsort).1 i hi2
        have hnolt : ¬ best.2.2 < (if j = 0 then 0 else alGet prev (j - 1)) + 1 := by
          have hm2 := diagRun_le_maxRun a m hji
          rw [hb2]
          omega
        rw [if_neg hnolt]
        apply ih
        · intro j2 hj2; exact hmem j2 (List.mem_cons_of_mem _ hj2)
        · exact (List.sorted_cons.mp hsort).2
        · intro j2
          rw [alGet_cons]
          by_cases h : j = j2
          · rw [if_pos h, ← h]; exact hkj
          · rw [if_neg h]; exact hI1 j2
        · intro j2
          rw [alGet_cons]
          by_cases h : j = j2
          · rw [if_pos h]; exact hki
          · rw [if_neg h]; exact hI2 j2
        · left
          refine ⟨hi2, ?_, hb1, hb2⟩
          rw [alGet_cons, if_neg (by omega)]
          exact hacc0
    · -- the diagonal is behind us: remaining columns are all > i
      have hji : i < j := hgt j (by simp)
      have hnolt : ¬ best.2.2 < (if j = 0 then 0 else alGet prev (j - 1)) + 1 := by
        rw [hb2]
        show ¬ max (maxRun a m i) (diagRun a m i) < _
        omega
      rw [if_neg hnolt]
      apply ih
      · intro j2 hj2; exact hmem j2 (List.mem_cons_of_mem _ hj2)
      · exact (List.sorted_cons.mp hsort).2
      · intro j2
        rw [alGet_cons]
        by_cases h : j = j2
        · rw [if_pos h, ← h]; exact hkj
        · rw [if_neg h]; exact hI1 j2
      · intro j2
        rw [alGet_cons]
        by_cases h : j = j2
        · rw [if_pos h]; exact hki
        · rw [if_neg h]; exact hI2 j2
      · right
        refine ⟨?_, ?_, ?_, hb1, hb2⟩
        · intro hc
          have := hgt i (List.mem_cons_of_mem _ hc)
          omega
        · intro j2 hj2; exact hgt j2 (List.mem_cons_of_mem _ hj2)
        · rw [alGet_cons, if_neg (by omega)]
          exact hdiag

theorem rowDiag (a : Str) (m : List (Char × List Nat))
    (Hsound : ∀ c j, j ∈ b2jGet m c → j < a.length ∧ charAt a j = c)
    (Hcomp : ∀ i, i < a.length →
      b2jGet m (charAt a i) = [] ∨ i ∈ b2jGet m (charAt a i))
    (Hsort : ∀ c, (b2jGet m c).Sorted (· < ·))
    (i : Nat) (hin : i < a.length)
    (prev : List (Nat × Nat)) (hprev : PrevInv a m i prev)
    (best : Nat × Nat × Nat) (hbest : DiagBest a m i best) :
    PrevInv a m (i + 1)
      (flmRow i 0 a.length (b2jGet m (charAt a i)) prev [] best).1 ∧
    DiagBest a m (i + 1)
      (flmRow i 0 a.length (b2jGet m (charAt a i)) prev [] best).2 := by
  by_cases hri : rareAt a m i
  · have hrow := rowDiag_aux a m Hsound i hin hri prev hprev
      (b2jGet m (charAt a i)) [] best (fun j hj => hj)
      (Hsort (charAt a i))
      (fun j => by rw [show alGet [] j = 0 from rfl]; omega)
      (fun j => by rw [show alGet [] j = 0 from rfl]; omega)
      (Or.inl ⟨hri, rfl, hbest.1, hbest.2⟩)
    refine ⟨⟨hrow.1, ?_, ?_⟩, hrow.2.2.2⟩
    · intro j
      rw [if_neg (by omega)]
      have := hrow.2.1 j
      simpa using this
    · intro _
      have := hrow.2.2.1
      simpa using this
  · have hempty : b2jGet m (charAt a i) = [] := by
      rcases Hcomp i hin with h | h
      · exact h
      · exact absurd h hri
    rw [hempty]
    simp only [flmRow]
    have hdz := diagRun_zero a m hri
    refine ⟨⟨?_, ?_, ?_⟩, hbest.1, ?_⟩
    · intro j; rw [show alGet [] j = 0 from rfl]; omega
    · intro j; rw [show alGet [] j = 0 from rfl]; omega
    · intro _
      rw [show alGet [] (i + 1 - 1) = 0 from rfl]
      simp only [Nat.add_sub_cancel]
      omega
    · rw [hbest.2]
      show maxRun a m i = max (maxRun a m i) (diagRun a m i)
      omega

theorem rowsDiag (a : Str) (m : List (Char × List Nat))
    (Hsound : ∀ c j, j ∈ b2jGet m c → j < a.length ∧ charAt a j = c)
    (Hcomp : ∀ i, i < a.length →
      b2jGet m (charAt a i) = [] ∨ i ∈ b2jGet m (charAt a i))
    (Hsort : ∀ c, (b2jGet m c).Sorted (· < ·)) :
    ∀ (nrows i0 : Nat), i0 + nrows ≤ a.length →
    ∀ (prev : List (Nat × Nat)) (best : Nat × Nat × Nat),
    PrevInv a m i0 prev → DiagBest a m i0 best →
    DiagBest a m (i0 + nrows)
      (flmRows a m 0 a.length (List.range' i0 nrows) prev best) := by
  intro nrows
  induction nrows with
  | zero => intro i0 _ prev best _ hb; simpa [flmRows] using hb
  | succ nn ih =>
    intro i0 hle prev best hprev hbest
    have hrange : List.range' i0 (nn + 1) = i0 :: List.range' (i0 + 1) nn := rfl
    rw [hrange]
    simp only [flmRows]
    have hrow := rowDiag a m Hsound Hcomp Hsort i0 (by omega) prev hprev
      best hbest
    have hnext := ih (i0 + 1) (by omega) _ _ hrow.1 hrow.2
    have harith : i0 + 1 + nn = i0 + (nn + 1) := by omega
    rw [harith] at hnext
    exact hnext

theorem extLeft_diag (a : Str) :
    ∀ d s, extLeft a a 0 0 d d s = (0, 0, d + s) := by
  intro d
  induction d with
  | zero => intro s; rw [extLeft]; simp
  | succ d ih =>
    intro s
    rw [extLeft, if_pos ⟨by omega, by omega, by simp⟩]
    rw [Nat.add_sub_cancel, ih (s + 1)]
    refine congrArg _ (congrArg _ ?_)
    omega

theorem extRightGo_diag (a : Str) :
    ∀ rem s, s + rem = a.length →
    extRightGo a a a.length 0 0 rem s = a.length := by
  intro rem
  induction rem with
  | zero => intro s h; rw [extRightGo]; omega
  | succ rem ih =>
    intro s h
    rw [extRightGo, if_pos ⟨by omega, rfl⟩]
    exact ih (s + 1) (by omega)

theorem extRight_diag (a : Str) :
    ∀ s, s ≤ a.length → extRight a a a.length a.length 0 0 s = a.length := by
  intro s hs
  unfold extRight
  exact extRightGo_diag a _ s (by omega)

theorem flm_self (a : Str) (m : List (Char × List Nat))
    (Hsound : ∀ c j, j ∈ b2jGet m c → j < a.length ∧ charAt a j = c)
    (Hcomp : ∀ i, i < a.length →
      b2jGet m (charAt a i) = [] ∨ i ∈ b2jGet m (charAt a i))
    (Hsort : ∀ c, (b2jGet m c).Sorted (· < ·)) :
    flm a a m 0 a.length 0 a.length = (0, 0, a.length) := by
  unfold flm flmExt
  rw [Nat.sub_zero]
  have hdiag := rowsDiag a m Hsound Hcomp Hsort a.length 0 (by omega) []
    (0, 0, 0)
    ⟨fun j => by rw [show alGet [] j = 0 from rfl]; omega,
     fun j => by rw [show alGet [] j = 0 from rfl]; simp,
     fun h => by omega⟩
    ⟨rfl, rfl⟩
  have hbd : BestInv 0 0 a.length a.length
      (flmRows a m 0 a.length (List.range' 0 a.length) [] (0, 0, 0)) := by
    have h := flmRows_inv a m 0 0 a.length a.length 0 (by omega) [] (0, 0, 0)
      (by intro p hp; simp at hp)
      (by unfold BestInv; refine ⟨le_rfl, le_rfl, ?_, ?_⟩ <;>
        dsimp only <;> omega)
    simpa using h
  set best := flmRows a m 0 a.length (List.range' 0 a.length) [] (0, 0, 0)
    with hbestdef
  simp only [Nat.zero_add] at hdiag
  obtain ⟨hd1, hd2⟩ := hdiag
  have hs : best.1 + best.2.2 ≤ a.length := hbd.2.2.1
  rw [← hd1]
  rw [extLeft_diag a best.1 best.2.2]
  dsimp only
  rw [extRight_diag a _ hs]

theorem flm_empty_region (a b : Str) (m : List (Char × List Nat))
    (x y1 y2 : Nat) : flm a b m x x y1 y2 = (x, y1, 0) := by
  unfold flm flmExt
  rw [Nat.sub_self]
  have h0 : List.range' x 0 = [] := rfl
  rw [h0]
  simp only [flmRows]
  have hL : extLeft a b x y1 x y1 0 = (x, y1, 0) := by
    cases x with
    | zero => rw [extLeft]
    | succ x => rw [extLeft, if_neg (by omega)]
  rw [hL]
  dsimp only
  unfold extRight
  rw [Nat.add_zero, Nat.sub_self]
  rw [extRightGo]

/-- `get_matching_blocks`, reduced to the total number of matched
elements (the only datum `ratio` consumes).  The source collects blocks
via a queue, sorts them and merges adjacent ones; both the exploration
order and the merge step preserve the sum of the block sizes, so the sum
equals this direct recursion over the two sub-regions of each found
block.  `fuel` bounds the recursion depth, making the recursion
structural; any `fuel ≥ (ahi - alo) + (bhi - blo)` computes the true
total, and `ratio` passes `len(a) + len(b)`. -/
def matchTotal (a b : Str) (m : List (Char × List Nat)) :
    Nat → Nat → Nat → Nat → Nat → Nat
  | 0, _, _, _, _ => 0
  | fuel + 1, alo, ahi, blo, bhi =>
    if (flm a b m alo ahi blo bhi).2.2 = 0 then 0
    else
      matchTotal a b m fuel alo (flm a b m alo ahi blo bhi).1 blo
          (flm a b m alo ahi blo bhi).2.1 +
        (flm a b m alo ahi blo bhi).2.2 +
        matchTotal a b m fuel
          ((flm a b m alo ahi blo bhi).1 + (flm a b m alo ahi blo bhi).2.2) ahi
          ((flm a b m alo ahi blo bhi).2.1 + (flm a b m alo ahi blo bhi).2.2) bhi

/-- The total never exceeds the smaller region size (under-fuelled runs
only undercount). -/
theorem matchTotal_le (a b : Str) (m : List (Char × List Nat)) :
    ∀ (fuel alo ahi blo bhi : Nat), alo ≤ ahi → blo ≤ bhi →
    matchTotal a b m fuel alo ahi blo bhi ≤ min (ahi - alo) (bhi - blo) := by
  intro fuel
  induction fuel with
  | zero => intro alo ahi blo bhi _ _; rw [matchTotal]; omega
  | succ fuel ih =>
    intro alo ahi blo bhi ha hb
    rw [matchTotal]
    split
    · omega
    next hk =>
      have hbd := flm_bounds a b m alo ahi blo bhi ha hb
      have h1 := ih alo (flm a b m alo ahi blo bhi).1 blo
        (flm a b m alo ahi blo bhi).2.1 hbd.1 hbd.2.1
      have h2 := ih ((flm a b m alo ahi blo bhi).1 +
          (flm a b m alo ahi blo bhi).2.2) ahi
        ((flm a b m alo ahi blo bhi).2.1 +
          (flm a b m alo ahi blo bhi).2.2) bhi hbd.2.2.1 hbd.2.2.2
      omega

theorem matchTotal_empty (a b : Str) (m : List (Char × List Nat)) :
    ∀ (fuel x y1 y2 : Nat), matchTotal a b m fuel x x y1 y2 = 0 := by
  intro fuel x y1 y2
  cases fuel with
  | zero => rw [matchTotal]
  | succ fuel =>
    rw [matchTotal, if_pos]
    rw [flm_empty_region]

theorem matchTotal_self (a : Str) (m : List (Char × List Nat))
    (Hsound : ∀ c j, j ∈ b2jGet m c → j < a.length ∧ charAt a j = c)
    (Hcomp : ∀ i, i < a.length →
      b2jGet m (charAt a i) = [] ∨ i ∈ b2jGet m (charAt a i))
    (Hsort : ∀ c, (b2jGet m c).Sorted (· < ·)) :
    ∀ fuel, a.length ≤ fuel →
    matchTotal a a m fuel 0 a.length 0 a.length = a.length := by
  intro fuel hf
  have hflm := flm_self a m Hsound Hcomp Hsort
  cases fuel with
  | zero =>
    rw [matchTotal]
    omega
  | succ fuel =>
    rw [matchTotal]
    by_cases hn : a.length = 0
    · rw [if_pos (by rw [hflm, hn])]
      omega
    · rw [if_neg (by rw [hflm]; exact hn)]
      rw [hflm]
      dsimp only
      simp only [Nat.zero_add]
      rw [matchTotal_empty, matchTotal_empty]
      omega

/-- `SequenceMatcher.ratio()`: `2·M / (len(a)+len(b))`, or `1.0` when both
strings are empty (`difflib._calculate_ratio`). -/
def ratioOf (a b : Str) : ℚ :=
  if a.length + b.length = 0 then 1
  else (2 * (matchTotal a b (b2jMap b) (a.length + b.length)
    0 a.length 0 b.length) : ℚ) / ((a.length + b.length : Nat) : ℚ)

/-- `calculate_similarity(text1, text2)`:
`SequenceMatcher(None, text1.lower(), text2.lower()).ratio()`. -/
def calculate_similarity (text1 text2 : Str) : ℚ :=
  ratioOf (lowerStr text1) (lowerStr text2)

/-! ### Properties of `ratio` and `calculate_similarity` -/

theorem b2jMap_sound (a : Str) :
    ∀ c j, j ∈ b2jGet (b2jMap a) c → j < a.length ∧ charAt a j = c := by
  intro c j hj
  rcases b2jMap_get a c with h | h
  · rw [h] at hj
    obtain ⟨o, ho, rfl, hc⟩ := (posOf_mem c a 0 j).mp hj
    simpa using ⟨ho, hc⟩
  · rw [h] at hj
    simp at hj

theorem b2jMap_comp (a : Str) :
    ∀ i, i < a.length → b2jGet (b2jMap a) (charAt a i) = [] ∨
      i ∈ b2jGet (b2jMap a) (charAt a i) := by
  intro i hi
  rcases b2jMap_get a (charAt a i) with h | h
  · right
    rw [h]
    exact (posOf_mem _ a 0 i).mpr ⟨i, hi, by omega, rfl⟩
  · left
    exact h

theorem b2jMap_sorted (a : Str) :
    ∀ c, (b2jGet (b2jMap a) c).Sorted (· < ·) := by
  intro c
  rcases b2jMap_get a c with h | h
  · rw [h]; exact posOf_sorted c a 0
  · rw [h]; simp

/-- `ratio` is never negative. -/
theorem ratioOf_nonneg (a b : Str) : 0 ≤ ratioOf a b := by
  unfold ratioOf
  split
  · norm_num
  · positivity

/-- `ratio` never exceeds 1 (the matched total is at most the shorter
length). -/
theorem ratioOf_le_one (a b : Str) : ratioOf a b ≤ 1 := by
  unfold ratioOf
  split
  · norm_num
  next h =>
    rw [div_le_one (by positivity)]
    have hM := matchTotal_le a b (b2jMap b) (a.length + b.length)
      0 a.length 0 b.length (Nat.zero_le _) (Nat.zero_le _)
    have : 2 * matchTotal a b (b2jMap b) (a.length + b.length)
        0 a.length 0 b.length ≤ a.length + b.length := by omega
    exact_mod_cast this

/-- Reflexivity: `SequenceMatcher(None, x, x).ratio() == 1.0`, for every
string — also in the autojunk regime, where the `b2j` purge is rescued by
the extension loops. -/
theorem ratioOf_self (a : Str) : ratioOf a a = 1 := by
  unfold ratioOf
  split
  · rfl
  next h =>
    have hM := matchTotal_self a (b2jMap a) (b2jMap_sound a) (b2jMap_comp a)
      (b2jMap_sorted a) (a.length + a.length) (by omega)
    rw [hM]
    rw [div_eq_one_iff_eq (by positivity)]
    push_cast
    ring

/-- `calculate_similarity` lies in `[0, 1]`. -/
theorem calculate_similarity_mem_unit (text1 text2 : Str) :
    0 ≤ calculate_similarity text1 text2 ∧
      calculate_similarity text1 text2 ≤ 1 :=
  ⟨ratioOf_nonneg _ _, ratioOf_le_one _ _⟩

/-- `calculate_similarity(x, x) = 1.0` for every string. -/
theorem calculate_similarity_self (x : Str) :
    calculate_similarity x x = 1 :=
  ratioOf_self _

/-- `calculate_similarity` is determined by the lowercased texts: any
change of letter case in either argument leaves the result unchanged. -/
theorem calculate_similarity_lower_congr (a a2 b b2 : Str)
    (ha : lowerStr a = lowerStr a2) (hb : lowerStr b = lowerStr b2) :
    calculate_similarity a b = calculate_similarity a2 b2 := by
  unfold calculate_similarity
  rw [ha, hb]

/-! ## Changelog relevance scoring -/

/-- The fixed domain-relevance keyword list `DEX_RELEVANCE_KEYWORDS`. -/
def DEX_RELEVANCE_KEYWORDS : List Str :=
  [String.toList "memory", String.toList "memories", String.toList "recall",
   String.toList "remember",
   String.toList "hook", String.toList "hooks", String.toList "session",
   String.toList "agent", String.toList "agents", String.toList "sub-agent",
   String.toList "teammate", String.toList "multi-agent",
   String.toList "mcp", String.toList "tool", String.toList "tools",
   String.toList "server",
   String.toList "task", String.toList "tasks", String.toList "todo",
   String.toList "skill", String.toList "skills", String.toList "command",
   String.toList "commands", String.toList "slash",
   String.toList "context", String.toList "compact", String.toList "summariz",
   String.toList "claude.md", String.toList "additional director",
   String.toList "keybind", String.toList "keyboard", String.toList "shortcut",
   String.toList "oauth", String.toList "credential",
   String.toList "authentication",
   String.toList "pdf", String.toList "document",
   String.toList "webhook", String.toList "notification"]

/-- `score_changelog_relevance(feature_text)`: +15 per domain keyword
contained in the lowercased text (each keyword counted once), +10 for an
added/new/support-for phrase, +5 for fixed/improved, −20 for an
out-of-domain keyword; finally `min(score, 100)`.  The result is an
integer that can be negative — the source clamps only from above. -/
def score_changelog_relevance (feature_text : Str) : Int :=
  let text_lower := lowerStr feature_text
  let base : Int := 15 * (DEX_RELEVANCE_KEYWORDS.countP
    (fun kw => strContains text_lower kw) : Int)
  let s1 : Int := base +
    (if [String.toList "added", String.toList "new",
         String.toList "support for"].any
        (fun w => strContains text_lower w) then 10 else 0)
  let s2 : Int := s1 +
    (if [String.toList "fixed", String.toList "improved"].any
        (fun w => strContains text_lower w) then 5 else 0)
  let s3 : Int := s2 -
    (if [String.toList "vscode", String.toList "ide", String.toList "windows",
         String.toList "thai", String.toList "lao",
         String.toList "japanese ime", String.toList "zenkaku"].any
        (fun w => strContains text_lower w) then 20 else 0)
  min s3 100

/-! ## Claim C2 -/

/-- Claim C2 (code_bug evaluation): the relevance score of the feature
text "Improved Windows IME support" is −15, not a value in [0, 100]: the
source applies `min(score, 100)` but no lower clamp, contradicting its
own docstring "(0-100)" and the spec's "clamped to [0,100]". -/
theorem claim_C2_code_eval :
    score_changelog_relevance (String.toList "Improved Windows IME support")
      = -15 := by
  decide

/-! ## Claim C3 -/

/-- Claim C3 counterexample: `calculate_similarity` is not symmetric —
`similarity("ab", "bacb") = 2/3` but `similarity("bacb", "ab") = 1/3`
(the longest-match tie-breaking of `SequenceMatcher` depends on the
argument order), refuting the claimed symmetry. -/
theorem claim_C3_counterexample :
    ¬ (calculate_similarity (String.toList "ab") (String.toList "bacb") =
       calculate_similarity (String.toList "bacb") (String.toList "ab")) := by
  have h1 : calculate_similarity (String.toList "ab")
      (String.toList "bacb") = 2/3 := by
    have hM : matchTotal (lowerStr (String.toList "ab"))
        (lowerStr (String.toList "bacb"))
        (b2jMap (lowerStr (String.toList "bacb")))
        ((lowerStr (String.toList "ab")).length +
          (lowerStr (String.toList "bacb")).length)
        0 (lowerStr (String.toList "ab")).length
        0 (lowerStr (String.toList "bacb")).length = 2 := by rfl
    unfold calculate_similarity ratioOf
    rw [if_neg (by decide), hM]
    rw [show (lowerStr (String.toList "ab")).length +
        (lowerStr (String.toList "bacb")).length = 6 from rfl]
    norm_num
  have h2 : calculate_similarity (String.toList "bacb")
      (String.toList "ab") = 1/3 := by
    have hM : matchTotal (lowerStr (String.toList "bacb"))
        (lowerStr (String.toList "ab"))
        (b2jMap (lowerStr (String.toList "ab")))
        ((lowerStr (String.toList "bacb")).length +
          (lowerStr (String.toList "ab")).length)
        0 (lowerStr (String.toList "bacb")).length
        0 (lowerStr (String.toList "ab")).length = 1 := by rfl
    unfold calculate_similarity ratioOf
    rw [if_neg (by decide), hM]
    rw [show (lowerStr (String.toList "bacb")).length +
        (lowerStr (String.toList "ab")).length = 6 from rfl]
    norm_num
  rw [h1, h2]
  norm_num

/-- Claim C3 (amended): for all strings `a`, `b`,
`calculate_similarity(a, b)` lies in [0, 1]; it is reflexive
(`calculate_similarity(x, x) = 1.0` for every `x`); and it is
case-insensitive (determined by the lowercased arguments, so changing
the letter case of either argument leaves the result unchanged).  It is
not symmetric in general (see the counterexample). -/
theorem claim_C3_similarity :
    (∀ a b : Str, 0 ≤ calculate_similarity a b ∧
      calculate_similarity a b ≤ 1) ∧
    (∀ x : Str, calculate_similarity x x = 1) ∧
    (∀ a a2 b b2 : Str, lowerStr a = lowerStr a2 → lowerStr b = lowerStr b2 →
      calculate_similarity a b = calculate_similarity a2 b2) :=
  ⟨calculate_similarity_mem_unit, calculate_similarity_self,
   calculate_similarity_lower_congr⟩

/-- Claim C3 witness: the amended claim applied at concrete inputs,
discharging the case-insensitivity hypotheses at "Apple"/"APPLE". -/
theorem claim_C3_witness :
    (0 ≤ calculate_similarity (String.toList "apple")
        (String.toList "zebra") ∧
      calculate_similarity (String.toList "apple") (String.toList "zebra")
        ≤ 1) ∧
    calculate_similarity (String.toList "Auto-suggest meeting prep")
      (String.toList "Auto-suggest meeting prep") = 1 ∧
    calculate_similarity (String.toList "Apple") (String.toList "pie") =
      calculate_similarity (String.toList "APPLE") (String.toList "PIE") :=
  ⟨claim_C3_similarity.1 _ _, claim_C3_similarity.2.1 _,
   claim_C3_similarity.2.2 (String.toList "Apple") (String.toList "APPLE")
     (String.toList "pie") (String.toList "PIE") (by decide) (by decide)⟩

/-! ## Regex scanning primitives

Python's `re.search` tries each start position from the left and, at
each position, matches the pattern with ordered alternation and
greedy/lazy backtracking.  Each pattern of the source is embedded as a
"match here" function; `scanFirst` supplies the leftmost-search. -/

/-- Leftmost match: first position (0-based) where `f` matches, with the
match data.  Position `s.length` (empty suffix) is tried as well, as
`re.search` does. -/
def scanFirst (f : Str → Option α) : Str → Option (Nat × α)
  | [] => (f []).map (fun x => (0, x))
  | c :: t =>
    match f (c :: t) with
    | some x => some (0, x)
    | none => (scanFirst f t).map (fun p => (p.1 + 1, p.2))

/-- `f` matches at no position strictly inside `pre` (in the string
`pre ++ rest`). -/
def noHitB (f : Str → Option α) : Str → Str → Bool
  | [], _ => true
  | c :: t, rest => (f ((c :: t) ++ rest)).isNone && noHitB f t rest

theorem scanFirst_cons_none {α : Type} (f : Str → Option α) (c : Char)
    (t : Str) (h : f (c :: t) = none) :
    scanFirst f (c :: t) = (scanFirst f t).map (fun p => (p.1 + 1, p.2)) := by
  simp only [scanFirst, h]

theorem scanFirst_cons_some {α : Type} (f : Str → Option α) (c : Char)
    (t : Str) (x : α) (h : f (c :: t) = some x) :
    scanFirst f (c :: t) = some (0, x) := by
  simp only [scanFirst, h]

/-- The leftmost search skips a hit-free prefix. -/
theorem scanFirst_append {α : Type} (f : Str → Option α) :
    ∀ (pre rest : Str), noHitB f pre rest = true →
    scanFirst f (pre ++ rest) =
      (scanFirst f rest).map (fun p => (p.1 + pre.length, p.2)) := by
  intro pre
  induction pre with
  | nil =>
    intro rest _
    simp only [List.nil_append, List.length_nil]
    cases h : scanFirst f rest with
    | none => rfl
    | some p => simp
  | cons c t ih =>
    intro rest hnh
    simp only [noHitB, Bool.and_eq_true, Option.isNone_iff_eq_none] at hnh
    rw [List.cons_append, scanFirst_cons_none f c (t ++ rest) hnh.1,
      ih rest hnh.2]
    cases h : scanFirst f rest with
    | none => rfl
    | some p =>
      simp [Prod.ext_iff]
      omega

/-- Python `hay.rfind(needle)`: last start of an occurrence. -/
def rfindSub (hay needle : Str) : Option Nat :=
  (((List.range (hay.length + 1)).filter
    (fun p => needle.isPrefixOf (hay.drop p)))).getLast?

/-- Python `hay.find(c, start)` for a single character. -/
def findCharFrom (hay : Str) (c : Char) (start : Nat) : Option Nat :=
  ((List.range hay.length).filter
    (fun p => decide (start ≤ p) && decide (hay.get? p = some c))).head?

/-! ## The backlog document model -/

/-- Whitespace-flexible idea marker `-\s*\*\*\[ID\]\*\*` matched at the
start of `s`; returns the consumed length.  The greedy `\s*` is
deterministic here: a shorter whitespace run would leave a whitespace
character where `\*` is required. -/
def markerAt (id : Str) (s : Str) : Option Nat :=
  match s with
  | [] => none
  | c :: t =>
    if c = '-' then
      let w := leadingWS t
      let lit := String.toList "**[" ++ id ++ String.toList "]**"
      if lit.isPrefixOf (t.drop w) then some (1 + w + lit.length) else none
    else none

/-- The four boundary alternatives of the enrich pattern
`(\n\n|- \*\*\[idea-|\n###|\n##)`, tried in the source's order; returns
the token length. -/
def boundaryTok (s : Str) : Option Nat :=
  if (String.toList "\n\n").isPrefixOf s then some 2
  else if (String.toList "- **[idea-").isPrefixOf s then some 10
  else if (String.toList "\n###").isPrefixOf s then some 4
  else if (String.toList "\n##").isPrefixOf s then some 3
  else none

/-- The enrich pattern
`(-\s*\*\*\[ID\]\*\*.*?)(\n\n|- \*\*\[idea-|\n###|\n##)` (DOTALL) matched
at the start of `s`: the lazy `.*?` runs to the earliest boundary.
Returns (group-1 length, group-2 length). -/
def enrichAt (id : Str) (s : Str) : Option (Nat × Nat) :=
  match markerAt id s with
  | none => none
  | some mlen =>
    match scanFirst boundaryTok (s.drop mlen) with
    | none => none
    | some (q, blen) => some (mlen + q, blen)

/-- `re.search` of the enrich pattern: returns
(match start, start of group 2, match end). -/
def enrichSearch (id : Str) (content : Str) : Option (Nat × Nat × Nat) :=
  (scanFirst (enrichAt id) content).map
    (fun p => (p.1, p.1 + p.2.1, p.1 + p.2.1 + p.2.2))

/-- Result records of the mutating operations: the `success` flag and
`error` string of the returned payload (advisory fields of the payloads
— messages, next-step hints, echoes of the input — are omitted). -/
structure OpResult where
  success : Bool
  error : Str
deriving Repr, DecidableEq

/-- `enrich_idea_in_backlog(idea_id, evidence, source)`; the backlog
file content is passed in and the possibly rewritten content is
returned alongside the result payload.  `today` stands for
`datetime.now().strftime('%Y-%m-%d')`. -/
def enrich_idea_in_backlog (file : Option Str)
    (idea_id evidence source today : Str) : OpResult × Option Str :=
  match file with
  | none => (⟨false, String.toList "Backlog file not found"⟩, none)
  | some content =>
    let enrichment_line :=
      String.toList "\n  - **🔔 Why Now? (AI-enriched " ++ today ++
      String.toList "):** " ++ evidence ++
      String.toList " *(Source: " ++ source ++ String.toList ")*"
    match enrichSearch idea_id content with
    | none =>
      (⟨false, String.toList "Idea " ++ idea_id ++
        String.toList " not found in backlog"⟩, some content)
    | some (s, p, e) =>
      let idea_block := (content.drop s).take (p - s)
      let boundary := (content.drop p).take (e - p)
      let new_block :=
        if strContains idea_block (String.toList "🔔 Why Now?") then
          match rfindSub idea_block (String.toList "\n  - **🔔") with
          | none => idea_block ++ enrichment_line
          | some lastPos =>
            let eol := (findCharFrom idea_block '\n' (lastPos + 1)).getD
              idea_block.length
            idea_block.take eol ++ enrichment_line
        else idea_block ++ enrichment_line
      let new_content := content.take s ++ new_block ++ boundary ++
        content.drop e
      (⟨true, []⟩, some new_content)

/-! ## `parse_backlog_file` -/

/-- The title part `\s*(.+?)(?:\n|$)` of the idea pattern, matched right
after `]\*\*`: greedy `\s*` (which may cross newlines), then a lazy
non-empty run of non-newline characters up to a newline or the end;
when everything remaining is whitespace, the greedy `\s*` backtracks to
the last non-newline position.  Returns (title group, consumed). -/
def titleMatch (rest : Str) : Option (Str × Nat) :=
  let w := leadingWS rest
  if w < rest.length then
    let tl := (rest.drop w).takeWhile (fun c => !(c = '\n'))
    some (tl, w + tl.length + (if w + tl.length < rest.length then 1 else 0))
  else
    match ((List.range w).filter
        (fun p => !(rest.get? p = some '\n'))).getLast? with
    | none => none
    | some wp =>
      let tl := (rest.drop wp).takeWhile (fun c => !(c = '\n'))
      some (tl, wp + tl.length +
        (if wp + tl.length < rest.length then 1 else 0))

/-- The idea pattern `-\s*\*\*\[(idea-\d{3})\]\*\*\s*(.+?)(?:\n|$)`
matched at the start of `s`: returns (idea id, raw title, consumed). -/
def ideaMatchAt (s : Str) : Option (Str × Str × Nat) :=
  match s with
  | [] => none
  | c :: t =>
    if c = '-' then
      let w := leadingWS t
      let r := t.drop w
      if (String.toList "**[idea-").isPrefixOf r then
        let ds := (r.drop 8).take 3
        if ds.length = 3 && ds.all isPyDigit &&
            (String.toList "]**").isPrefixOf (r.drop 11) then
          match titleMatch (r.drop 14) with
          | none => none
          | some (tl, consumed2) =>
            some (String.toList "idea-" ++ ds, tl, 1 + w + 14 + consumed2)
        else none
      else none
    else none

/-- The entry-block boundary `(?:\n-\s*\*\*\[idea-|\n###|\n##)` used by
`parse_backlog_file` and the block patterns. -/
def nextIdeaTok (s : Str) : Bool :=
  match s with
  | '\n' :: '-' :: r =>
    (String.toList "**[idea-").isPrefixOf (r.drop (leadingWS r))
  | _ => false

def parseBndB (s : Str) : Bool :=
  nextIdeaTok s || (String.toList "\n###").isPrefixOf s ||
    (String.toList "\n##").isPrefixOf s

def parseBndAt (s : Str) : Option Unit :=
  if parseBndB s then some () else none

/-- A labelled field `LABEL\s*(CLS+)` matched at the start of `s`
(greedy character class, at least one character). -/
def labelValAt (label : Str) (cls : Char → Bool) (s : Str) : Option Str :=
  if label.isPrefixOf s then
    let r := s.drop label.length
    let v := (r.drop (leadingWS r)).takeWhile cls
    if v.isEmpty then none else some v
  else none

/-- `re.search` for a labelled field, returning the captured group. -/
def searchLabel (label : Str) (cls : Char → Bool) (content : Str) :
    Option Str :=
  (scanFirst (labelValAt label cls) content).map (·.2)

/-- Terminator `(?:\n\s*-|\n\s*\*\*|$)` of the description pattern
(`$` also matches just before a final newline). -/
def descTermB (s : Str) : Bool :=
  (match s with
   | '\n' :: r =>
     ((r.drop (leadingWS r)).head? = some '-') ||
       (String.toList "**").isPrefixOf (r.drop (leadingWS r))
   | _ => false) || s.isEmpty || s = ['\n']

/-- First lazy stop of the description value: the least `j ≥ lo` at
which the terminator matches (`j = r.length` always qualifies). -/
def descStop (r : Str) (lo : Nat) : Nat :=
  (((List.range (r.length + 1)).filter
    (fun j => decide (lo ≤ j) && descTermB (r.drop j))).head?).getD r.length

/-- `\*\*Description:\*\*\s*(.+?)(?:\n\s*-|\n\s*\*\*|$)` (DOTALL)
matched at the start of `s`: greedy `\s*`, then a lazy non-empty run of
arbitrary characters up to the terminator; when everything remaining is
whitespace the greedy `\s*` backtracks by one character. -/
def descValAt (s : Str) : Option Str :=
  if (String.toList "**Description:**").isPrefixOf s then
    let r := s.drop 16
    let w := leadingWS r
    if w < r.length then
      some ((r.drop w).take (descStop r (w + 1) - w))
    else if 0 < w then
      some ((r.drop (w - 1)).take (descStop r w - (w - 1)))
    else none
  else none

/-- An idea record as produced by `parse_backlog_file`. -/
structure Idea where
  id : Str
  title : Str
  score : Nat
  category : Str
  captured : Str
  description : Str
  status : Str
deriving Repr, DecidableEq

/-- One step of the `finditer` walk of `parse_backlog_file`: find the
next idea marker from `pos`, extract its metadata block (up to the next
entry/section boundary), classify its status by whether the Archive
heading text occurs before the match.  `fuel` makes the recursion
structural; `content.length + 1` steps always suffice since every match
consumes at least one character. -/
def parseLoop (content today : Str) : Nat → Nat → List Idea
  | 0, _ => []
  | fuel + 1, pos =>
    match scanFirst ideaMatchAt (content.drop pos) with
    | none => []
    | some (rel, iid, rawTitle, consumed) =>
      let astart := pos + rel
      let aend := astart + consumed
      let blk :=
        match scanFirst parseBndAt (content.drop aend) with
        | some (q, _) => (content.drop aend).take q
        | none => content.drop aend
      { id := iid
        title := pyStrip rawTitle
        score := (searchLabel (String.toList "**Score:**") isPyDigit
          blk).elim 0 digitsVal
        category := (searchLabel (String.toList "**Category:**") isPyWord
          blk).getD (String.toList "system")
        captured := (searchLabel (String.toList "**Captured:**")
          (fun c => isPyDigit c || c = '-') blk).getD today
        description := ((scanFirst descValAt blk).map (·.2)).elim [] pyStrip
        status := if strContains (content.take astart)
            (String.toList "Archive (Implemented)")
          then String.toList "implemented" else String.toList "active" } ::
      parseLoop content today fuel aend

/-- `parse_backlog_file()`; `today` stands for `datetime.now()`'s date
(the default of a missing `Captured:` field). -/
def parse_backlog_file (file : Option Str) (today : Str) : List Idea :=
  match file with
  | none => []
  | some content => parseLoop content today (content.length + 1) 0

/-! ## `generate_idea_id` -/

/-- `re.findall(r'\[idea-(\d{3})\]', content)`: the 3-digit groups of
all (non-overlapping, leftmost) matches; a match consumes its 10
characters, a failed position advances by one.  `fuel = s.length`
suffices since every step consumes at least one character. -/
def findIdeaDigitsGo : Nat → Str → List Str
  | 0, _ => []
  | _, [] => []
  | fuel + 1, c :: t =>
    let s := c :: t
    let ds := (s.drop 6).take 3
    if (String.toList "[idea-").isPrefixOf s && ds.length = 3 &&
        ds.all isPyDigit && s.get? 9 = some ']' then
      ds :: findIdeaDigitsGo fuel (s.drop 10)
    else findIdeaDigitsGo fuel t

def findIdeaDigits (s : Str) : List Str :=
  findIdeaDigitsGo s.length s

/-- `generate_idea_id()`: "idea-001" for a missing or id-free backlog,
else the maximal numeric suffix plus one, `%03d`-padded. -/
def generate_idea_id (file : Option Str) : Str :=
  match file with
  | none => String.toList "idea-001"
  | some content =>
    let ds := findIdeaDigits content
    if ds.isEmpty then String.toList "idea-001"
    else
      -- `max(int(m) for m in matches) + 1`; fold with 0 agrees with the
      -- maximum on a nonempty list of naturals
      String.toList "idea-" ++
        pad3 ((ds.map digitsVal).foldl max 0 + 1)

/-! ## `find_similar_ideas` -/

/-- A result record of `find_similar_ideas`. -/
structure SimilarEntry where
  id : Str
  title : Str
  similarity : ℚ
  semantic_match : Bool
deriving Repr, DecidableEq

/-- Python `round(x, 2)`: round to two decimal places, half to even
(the tie rule for an exactly representable tie; the claims under study
never hinge on tie behaviour). -/
def round2 (x : ℚ) : ℚ :=
  let y := x * 100
  let f : ℤ := Int.floor y
  let r := y - (f : ℚ)
  let n : ℤ :=
    if r < 1/2 then f
    else if (1 : ℚ)/2 < r then f + 1
    else if f % 2 = 0 then f else f + 1
  (n : ℚ) / 100

/-- The QMD semantic boost for one idea title: `0.15` when some retained
snippet contains the lowered idea title, or contains one of its
whitespace-split words longer than four characters, as a substring. -/
def qmdBoost (qmd_title_matches : List Str) (ideaTitle : Str) : ℚ :=
  if qmd_title_matches.isEmpty then 0
  else if qmd_title_matches.any (fun sn =>
      strContains sn (lowerStr ideaTitle) ||
      (pySplitWS (lowerStr ideaTitle)).any
        (fun w => decide (4 < w.length) && strContains sn w)) then 0.15
  else 0

theorem qmdBoost_cases (qmd : List Str) (t : Str) :
    qmdBoost qmd t = 0.15 ∨ qmdBoost qmd t = 0 := by
  unfold qmdBoost
  split_ifs <;> simp

/-- `find_similar_ideas(title, description)`.  The QMD vault-search
results are external input, modelled by the list `qmd_title_matches` of
retained lowered snippets (empty when QMD is unavailable, errors out or
retains nothing). -/
def find_similar_ideas (title description : Str) (file : Option Str)
    (today : Str) (qmd_title_matches : List Str) : List SimilarEntry :=
  match file with
  | none => []
  | some content =>
    let ideas := parse_backlog_file (some content) today
    let similar := ideas.filterMap (fun idea =>
      let title_similarity := calculate_similarity title idea.title
      let desc_similarity := calculate_similarity description idea.description
      let qmd_boost := qmdBoost qmd_title_matches idea.title
      let similarity_score :=
        title_similarity * 0.6 + desc_similarity * 0.25 + qmd_boost
      if (0.5 : ℚ) ≤ similarity_score then
        some { id := idea.id, title := idea.title,
               similarity := round2 similarity_score,
               semantic_match := decide (0 < qmd_boost) }
      else none)
    (similar.mergeSort
      (fun x y => decide (y.similarity ≤ x.similarity))).take 3

/-- Claim C9: `find_similar_ideas` returns at most 3 results; every
returned result arises from a parsed idea whose combined score
`titleSim·0.6 + descSim·0.25 + boost`, with a boost of `0.15` or `0`,
is at least `0.5` (the stored similarity being that score rounded to
two decimals); and the returned list is sorted in descending order of
similarity. -/
theorem claim_C9_find_similar (title description today : Str)
    (file : Option Str) (qmd : List Str) :
    (find_similar_ideas title description file today qmd).length ≤ 3 ∧
    List.Chain' (fun x y => y.similarity ≤ x.similarity)
      (find_similar_ideas title description file today qmd) ∧
    ∀ e ∈ find_similar_ideas title description file today qmd,
      ∃ idea ∈ parse_backlog_file file today,
        e.id = idea.id ∧ e.title = idea.title ∧
        (qmdBoost qmd idea.title = 0.15 ∨ qmdBoost qmd idea.title = 0) ∧
        (0.5 : ℚ) ≤ calculate_similarity title idea.title * 0.6 +
          calculate_similarity description idea.description * 0.25 +
          qmdBoost qmd idea.title ∧
        e.similarity = round2
          (calculate_similarity title idea.title * 0.6 +
           calculate_similarity description idea.description * 0.25 +
           qmdBoost qmd idea.title) := by
  cases file with
  | none =>
    refine ⟨by simp [find_similar_ideas], by simp [find_similar_ideas], ?_⟩
    intro e he
    simp [find_similar_ideas] at he
  | some content =>
    have hsub :
        (find_similar_ideas title description (some content) today qmd).Sublist
          (((parse_backlog_file (some content) today).filterMap (fun idea =>
            let similarity_score :=
              calculate_similarity title idea.title * 0.6 +
              calculate_similarity description idea.description * 0.25 +
              qmdBoost qmd idea.title
            if (0.5 : ℚ) ≤ similarity_score then
              some { id := idea.id, title := idea.title,
                     similarity := round2 similarity_score,
                     semantic_match :=
                       decide (0 < qmdBoost qmd idea.title) }
            else none)).mergeSort
            (fun x y => decide (y.similarity ≤ x.similarity))) := by
      exact List.take_sublist 3 _
    refine ⟨?_, ?_, ?_⟩
    · show (List.take 3 _).length ≤ 3
      rw [List.length_take]
      exact Nat.min_le_left _ _
    · have hpw := @List.sorted_mergeSort SimilarEntry
        (fun x y : SimilarEntry => decide (y.similarity ≤ x.similarity))
        (fun a b c hab hbc => by
          simp only [decide_eq_true_eq] at hab hbc ⊢
          exact le_trans hbc hab)
        (fun a b => by
          simp only [Bool.or_eq_true, decide_eq_true_eq]
          exact le_total b.similarity a.similarity)
        ((parse_backlog_file (some content) today).filterMap (fun idea =>
          let similarity_score :=
            calculate_similarity title idea.title * 0.6 +
            calculate_similarity description idea.description * 0.25 +
            qmdBoost qmd idea.title
          if (0.5 : ℚ) ≤ similarity_score then
            some { id := idea.id, title := idea.title,
                   similarity := round2 similarity_score,
                   semantic_match := decide (0 < qmdBoost qmd idea.title) }
          else none))
      have hpw2 := (hpw.sublist hsub).imp
        (fun h => by simpa using of_decide_eq_true h)
      exact hpw2.chain'
    · intro e he
      have he2 := hsub.subset he
      rw [List.mem_mergeSort, List.mem_filterMap] at he2
      obtain ⟨idea, hmem, hsome⟩ := he2
      refine ⟨idea, hmem, ?_⟩
      simp only at hsome
      by_cases hc : (0.5 : ℚ) ≤
          calculate_similarity title idea.title * 0.6 +
          calculate_similarity description idea.description * 0.25 +
          qmdBoost qmd idea.title
      · rw [if_pos hc] at hsome
        obtain rfl := Option.some_injective _ hsome
        exact ⟨rfl, rfl, qmdBoost_cases qmd idea.title, hc, rfl⟩
      · rw [if_neg hc] at hsome
        exact absurd hsome (by simp)

/-- Claim C9 witness: the bound applied at concrete input. -/
theorem claim_C9_witness :
    (find_similar_ideas [] [] none [] []).length ≤ 3 :=
  (claim_C9_find_similar [] [] [] none []).1

/-! ## Claim C6: id generation -/

theorem dval_digitChar (d : Nat) (hd : d < 10) :
    (Nat.digitChar d).toNat - Char.toNat '0' = d := by
  interval_cases d <;> rfl

theorem dval_digitChar48 (d : Nat) (hd : d < 10) :
    (Nat.digitChar d).toNat - 48 = d := by
  interval_cases d <;> rfl

theorem natDigitsRev_val :
    ∀ (fuel n : Nat), n < fuel →
      (natDigitsRev fuel n).foldr
        (fun c a => a * 10 + (c.toNat - Char.toNat '0')) 0 = n := by
  intro fuel
  induction fuel with
  | zero => intro n hn; omega
  | succ f ih =>
    intro n hn
    by_cases h : n < 10
    · rw [natDigitsRev, if_pos h]
      simp only [List.foldr_cons, List.foldr_nil]
      rw [dval_digitChar n h]
      omega
    · rw [natDigitsRev, if_neg h]
      simp only [List.foldr_cons]
      rw [ih (n / 10) (by omega)]
      rw [dval_digitChar (n % 10) (by omega)]
      omega

theorem digitsVal_natDigits (n : Nat) : digitsVal (natDigits n) = n := by
  unfold digitsVal natDigits
  rw [List.foldl_reverse]
  exact natDigitsRev_val (n + 1) n (Nat.lt_succ_self n)

theorem digitsVal_zero_pad (k : Nat) (ds : Str) :
    digitsVal (List.replicate k '0' ++ ds) = digitsVal ds := by
  unfold digitsVal
  rw [List.foldl_append]
  have h0 : List.foldl (fun a c => a * 10 + (c.toNat - Char.toNat '0')) 0
      (List.replicate k '0') = 0 := by
    induction k with
    | zero => rfl
    | succ m ih => rw [List.replicate_succ, List.foldl_cons]; simpa using ih
  rw [h0]

theorem digitsVal_pad3 (n : Nat) : digitsVal (pad3 n) = n := by
  unfold pad3
  rw [digitsVal_zero_pad, digitsVal_natDigits]

/-- Every group returned by the id pattern is a 3-character digit
string. -/
theorem findIdeaDigitsGo_shape :
    ∀ (fuel : Nat) (s : Str), ∀ d ∈ findIdeaDigitsGo fuel s,
      d.length = 3 ∧ d.all isPyDigit = true := by
  intro fuel
  induction fuel with
  | zero => intro s d hd; simp [findIdeaDigitsGo] at hd
  | succ f ih =>
    intro s d hd
    match s with
    | [] => simp [findIdeaDigitsGo] at hd
    | c :: t =>
      simp only [findIdeaDigitsGo] at hd
      split at hd
      · rename_i hg
        simp only [Bool.and_eq_true, decide_eq_true_eq] at hg
        rcases List.mem_cons.mp hd with h | h
        · subst h
          exact ⟨hg.1.1.2, hg.1.2⟩
        · exact ih _ d h
      · exact ih t d hd

theorem foldl_max_self_or_mem :
    ∀ (l : List Nat) (a : Nat), l.foldl max a = a ∨ l.foldl max a ∈ l := by
  intro l
  induction l with
  | nil => intro a; exact Or.inl rfl
  | cons x xs ih =>
    intro a
    rw [List.foldl_cons]
    rcases ih (max a x) with h | h
    · rcases max_choice a x with hm | hm
      · exact Or.inl (by rw [h, hm])
      · exact Or.inr (by rw [h, hm]; exact List.mem_cons_self x xs)
    · exact Or.inr (List.mem_cons_of_mem x h)

theorem foldl_max_le_init : ∀ (l : List Nat) (a : Nat), a ≤ l.foldl max a := by
  intro l
  induction l with
  | nil => intro a; exact Nat.le_refl a
  | cons y ys ih =>
    intro a
    rw [List.foldl_cons]
    exact (Nat.le_max_left a y).trans (ih (max a y))

theorem le_foldl_max :
    ∀ (l : List Nat) (a x : Nat), x ∈ l → x ≤ l.foldl max a := by
  intro l
  induction l with
  | nil => intro a x hx; simp at hx
  | cons y ys ih =>
    intro a x hx
    rw [List.foldl_cons]
    rcases List.mem_cons.mp hx with h | h
    · subst h
      calc x ≤ max a x := Nat.le_max_right a x
        _ ≤ ys.foldl max (max a x) := foldl_max_le_init ys (max a x)
    · exact ih (max a y) x h

theorem generate_idea_id_some (content : Str) :
    generate_idea_id (some content) =
      if (findIdeaDigits content).isEmpty then String.toList "idea-001"
      else String.toList "idea-" ++
        pad3 (((findIdeaDigits content).map digitsVal).foldl max 0 + 1) := rfl

/-- Claim C6: `generate_idea_id` yields "idea-001" for a missing file or
an id-free document; otherwise "idea-" followed by the maximal existing
numeric suffix plus one, `%03d`-padded; and the result never equals an
id already present in the document. -/
theorem claim_C6_generate_id (content : Str) :
    generate_idea_id none = String.toList "idea-001" ∧
    (findIdeaDigits content = [] →
      generate_idea_id (some content) = String.toList "idea-001") ∧
    (findIdeaDigits content ≠ [] →
      ∃ M, M ∈ (findIdeaDigits content).map digitsVal ∧
        (∀ d ∈ findIdeaDigits content, digitsVal d ≤ M) ∧
        generate_idea_id (some content) =
          String.toList "idea-" ++ pad3 (M + 1)) ∧
    ∀ d ∈ findIdeaDigits content,
      generate_idea_id (some content) ≠ String.toList "idea-" ++ d := by
  refine ⟨rfl, ?_, ?_, ?_⟩
  · intro h
    simp [generate_idea_id, h]
  · intro h
    refine ⟨((findIdeaDigits content).map digitsVal).foldl max 0, ?_, ?_, ?_⟩
    · rcases foldl_max_self_or_mem ((findIdeaDigits content).map digitsVal) 0
        with hz | hm
      · rcases List.exists_mem_of_ne_nil _ h with ⟨d, hd⟩
        have h1 : digitsVal d ≤
            ((findIdeaDigits content).map digitsVal).foldl max 0 :=
          le_foldl_max _ 0 (digitsVal d) (List.mem_map_of_mem digitsVal hd)
        have h2 : digitsVal d = 0 := by rw [hz] at h1; omega
        rw [hz, ← h2]
        exact List.mem_map_of_mem digitsVal hd
      · exact hm
    · intro d hd
      exact le_foldl_max _ 0 (digitsVal d) (List.mem_map_of_mem digitsVal hd)
    · rw [generate_idea_id_some,
        if_neg (by simpa [List.isEmpty_iff] using h)]
  · intro d hd heq
    have hne : findIdeaDigits content ≠ [] := List.ne_nil_of_mem hd
    have hle : digitsVal d ≤
        ((findIdeaDigits content).map digitsVal).foldl max 0 :=
      le_foldl_max _ 0 (digitsVal d) (List.mem_map_of_mem digitsVal hd)
    have hgen : generate_idea_id (some content) = String.toList "idea-" ++
        pad3 (((findIdeaDigits content).map digitsVal).foldl max 0 + 1) := by
      rw [generate_idea_id_some,
        if_neg (by simpa [List.isEmpty_iff] using hne)]
    rw [hgen] at heq
    have hpd : pad3 (((findIdeaDigits content).map digitsVal).foldl max 0 + 1)
        = d := List.append_cancel_left heq
    have hval := digitsVal_pad3
      (((findIdeaDigits content).map digitsVal).foldl max 0 + 1)
    rw [hpd] at hval
    omega

def tC6 : Str := String.toList "see [idea-041] and [idea-007]"

/-- Claim C6 witness: the theorem applied at two concrete documents,
one id-free and one holding ids 041 and 007. -/
theorem claim_C6_witness :
    generate_idea_id (some []) = String.toList "idea-001" ∧
    ∃ M, M ∈ (findIdeaDigits tC6).map digitsVal ∧
      (∀ d ∈ findIdeaDigits tC6, digitsVal d ≤ M) ∧
      generate_idea_id (some tC6) = String.toList "idea-" ++ pad3 (M + 1) :=
  ⟨(claim_C6_generate_id []).2.1 (by decide),
   (claim_C6_generate_id tC6).2.2.1 (by decide)⟩

/-! ## Claim C10: frame property of enrichment -/

theorem take_drop_splice (l : List Char) (p e : Nat) (h : p ≤ e) :
    (l.drop p).take (e - p) ++ l.drop e = l.drop p := by
  have hd : l.drop e = (l.drop p).drop (e - p) := by
    rw [List.drop_drop]
    congr 1
    omega
  rw [hd]
  exact List.take_append_drop _ _

/-- The match positions returned by `enrichSearch` are ordered:
match start ≤ group-2 start ≤ match end. -/
theorem enrichSearch_ordered (id content : Str) (s p e : Nat)
    (h : enrichSearch id content = some (s, p, e)) :
    s ≤ p ∧ p ≤ e := by
  unfold enrichSearch at h
  rcases Option.map_eq_some'.mp h with ⟨⟨pos, g1, g2⟩, _, heq⟩
  simp only [Prod.mk.injEq] at heq
  omega

/-- Claim C10: when enrichment succeeds with a match at
`(start, boundary_start, match_end)`, the rewritten document is the
original prefix before the matched entry block, a new block, and the
original text from the block's boundary to the end of the document —
every character outside the matched block is unchanged. -/
theorem claim_C10_frame (content idea_id evidence source today : Str)
    (s p e : Nat) (h : enrichSearch idea_id content = some (s, p, e)) :
    (enrich_idea_in_backlog (some content) idea_id evidence source
      today).1 = ⟨true, []⟩ ∧
    ∃ new_block,
      (enrich_idea_in_backlog (some content) idea_id evidence source
        today).2 = some (content.take s ++ new_block ++ content.drop p) := by
  have hord := enrichSearch_ordered idea_id content s p e h
  have hsplit := take_drop_splice content p e hord.2
  simp only [enrich_idea_in_backlog, h]
  constructor
  · trivial
  · apply Exists.intro
    rw [List.append_assoc, hsplit]

def tC10 : Str := String.toList
  "pre\n\n- **[idea-001]** T\n  - **Score:** 42\n\npost"

/-- Claim C10 witness: the frame property applied at a concrete
document whose enrich pattern matches at (5, 41, 43). -/
theorem claim_C10_witness :
    (enrich_idea_in_backlog (some tC10) (String.toList "idea-001")
      (String.toList "ev") (String.toList "src")
      (String.toList "2026-01-02")).1 = ⟨true, []⟩ ∧
    ∃ new_block,
      (enrich_idea_in_backlog (some tC10) (String.toList "idea-001")
        (String.toList "ev") (String.toList "src")
        (String.toList "2026-01-02")).2 =
      some (tC10.take 5 ++ new_block ++ tC10.drop 41) :=
  claim_C10_frame tC10 (String.toList "idea-001") (String.toList "ev")
    (String.toList "src") (String.toList "2026-01-02") 5 41 43 (by decide)

/-! ## `insert_idea_into_priority_queue` -/

/-- `\s*\n`: the greedy whitespace run backtracks so that a literal
newline follows — it consumes the leading whitespace run up to and
including its last newline, failing when the run holds no newline. -/
def wsThenNl (s : Str) : Option Nat :=
  (((List.range (leadingWS s)).filter
    (fun i => decide (s.get? i = some (Char.ofNat 10)))).getLast?).map (· + 1)

/-- The optional italic placeholder `(?:\s*\*[^*]+\*\s*\n)?`: length 0
when the group cannot match. -/
def placeholderLen (s : Str) : Nat :=
  let w := leadingWS s
  if s.get? w = some (Char.ofNat 42) then
    let r := s.drop (w + 1)
    let t := r.takeWhile (fun c => !(c = Char.ofNat 42))
    if t.isEmpty then 0
    else if r.get? t.length = some (Char.ofNat 42) then
      match wsThenNl (r.drop (t.length + 1)) with
      | some k => w + 1 + t.length + 1 + k
      | none => 0
    else 0
  else 0

def highHeadAt (s : Str) : Option Nat :=
  if (String.toList "### 🔥 High Priority (Score: 85+)").isPrefixOf s
  then some (String.toList "### 🔥 High Priority (Score: 85+)").length
  else none

def medHeadAt (s : Str) : Option Nat :=
  if (String.toList "### ⚡ Medium Priority (Score: 60-84)").isPrefixOf s
  then some (String.toList "### ⚡ Medium Priority (Score: 60-84)").length
  else none

/-- `### 💡 (?:Low|Lower) Priority \(Score: <60\)`, alternatives in the
source order. -/
def lowHeadAt (s : Str) : Option Nat :=
  if (String.toList "### 💡 Low Priority (Score: <60)").isPrefixOf s
  then some (String.toList "### 💡 Low Priority (Score: <60)").length
  else if (String.toList "### 💡 Lower Priority (Score: <60)").isPrefixOf s
  then some (String.toList "### 💡 Lower Priority (Score: <60)").length
  else none

/-- A priority-section pattern matched at the start of `s`: the heading
literal, `\s*\n`, then the optional placeholder line; returns the match
length. -/
def sectionAt (headAt : Str → Option Nat) (s : Str) : Option Nat :=
  match headAt s with
  | none => none
  | some hl =>
    match wsThenNl (s.drop hl) with
    | none => none
    | some k => some (hl + k + placeholderLen (s.drop (hl + k)))

/-- The fallback pattern `(## Archive|## Summary|---\s*$)` matched at the
start of `s` (no MULTILINE: `---\s*$` requires the whole remainder after
`---` to be whitespace). -/
def fallbackAt (s : Str) : Option Unit :=
  if (String.toList "## Archive").isPrefixOf s then some ()
  else if (String.toList "## Summary").isPrefixOf s then some ()
  else if (String.toList "---").isPrefixOf s && (s.drop 3).all isPyWS
  then some () else none

/-- The formatted entry block (`"\n".join(lines) + "\n"`). -/
def ideaEntry (idea_id title description category : Str) (score : Nat)
    (author source : Option Str) (captured_date : Str) : Str :=
  let lines : List Str :=
    [String.toList "- **[" ++ idea_id ++ String.toList "]** " ++ title] ++
    (match author with
     | some a => [String.toList "  - **Author:** " ++ a]
     | none => []) ++
    [String.toList "  - **Score:** " ++ natDigits score ++
      (if 0 < score then []
       else String.toList
         " (not yet ranked - run `/dex-backlog` to calculate)")] ++
    [String.toList "  - **Category:** " ++ category] ++
    [String.toList "  - **Captured:** " ++ captured_date] ++
    (match source with
     | some src => [String.toList "  - **Source:** " ++ src]
     | none => []) ++
    [String.toList "  - **Description:** " ++ description] ++
    [[]]
  List.intercalate [Char.ofNat 10] lines ++ [Char.ofNat 10]

/-- The document template written by `initialize_backlog_file`
(`timestamp` stands for `datetime.now().strftime('%Y-%m-%d %H:%M')`). -/
def initialBacklog (timestamp : Str) : Str :=
  String.toList "# Dex System Improvement Backlog\n\n*Last ranked: " ++ timestamp ++
  String.toList "*\n\nWelcome to your Dex system improvement backlog! This file tracks ideas for making Dex better.\n\n## How It Works\n\n1. **Capture ideas** anytime using the `capture_idea` MCP tool\n2. **Review regularly** with `/dex-backlog` to see AI-ranked priorities\n3. **Workshop ideas** by running `/dex-improve [idea title]`\n4. **Mark implemented** when you build an idea\n\nIdeas are automatically ranked on 5 dimensions:\n- **Impact** (35%) - How much would this improve daily workflow?\n- **Alignment** (20%) - Fits your actual usage patterns?\n- **Token Efficiency** (20%) - Reduces context/token usage?\n- **Memory & Learning** (15%) - Enhances persistence, self-learning, compounding knowledge?\n- **Proactivity** (10%) - Enables proactive concierge behavior?\n\n*Effort intentionally excluded - with AI coding, implementation is cheap. Focus on value.*\n\n---\n\n## Priority Queue\n\n<!-- Auto-ranked by /dex-backlog command -->\n\n### 🔥 High Priority (Score: 85+)\n\n*No high priority ideas yet. Capture your first idea to get started!*\n\n### ⚡ Medium Priority (Score: 60-84)\n\n*No medium priority ideas yet.*\n\n### 💡 Low Priority (Score: <60)\n\n*No low priority ideas yet.*\n\n---\n\n## Archive (Implemented)\n\n*Implemented ideas will appear here with completion dates.*\n\n---\n\n*Run `/dex-backlog` to rank your ideas based on current system state.*\n"

/-- The `if/elif/else` choice of `section_pattern` from the score
thresholds. -/
def sectionPatFor (score : Nat) : Str → Option Nat :=
  if 85 ≤ score then sectionAt highHeadAt
  else if 60 ≤ score then sectionAt medHeadAt
  else sectionAt lowHeadAt

/-- The insertion step of `insert_idea_into_priority_queue`: after the
section match when one exists, before the fallback match
(`## Archive|## Summary|---\s*$`) otherwise, appended at the end when
neither matches. -/
def insertWith (content idea_entry : Str) (pat : Str → Option Nat) :
    Str :=
  match scanFirst pat content with
  | some (q, k) =>
    content.take (q + k) ++ [Char.ofNat 10] ++ idea_entry ++
      content.drop (q + k)
  | none =>
    match scanFirst fallbackAt content with
    | some (q, _) =>
      content.take q ++ idea_entry ++ [Char.ofNat 10] ++ content.drop q
    | none => content ++ [Char.ofNat 10] ++ idea_entry

/-- `insert_idea_into_priority_queue(idea_id, title, description,
category, score, author, source)`; returns the rewritten backlog
content (the Python function writes it and returns `True`). -/
def insert_idea_into_priority_queue (file : Option Str)
    (idea_id title description category : Str) (score : Nat)
    (author source : Option Str) (captured_date timestamp : Str) : Str :=
  let content := match file with
    | none => initialBacklog timestamp
    | some c => c
  insertWith content
    (ideaEntry idea_id title description category score author source
      captured_date)
    (sectionPatFor score)

theorem sectionPatFor_high (score : Nat) (h : 85 ≤ score) :
    sectionPatFor score = sectionAt highHeadAt := by
  unfold sectionPatFor
  rw [if_pos h]

theorem sectionPatFor_med (score : Nat) (h1 : ¬ 85 ≤ score)
    (h2 : 60 ≤ score) : sectionPatFor score = sectionAt medHeadAt := by
  unfold sectionPatFor
  rw [if_neg h1, if_pos h2]

theorem sectionPatFor_low (score : Nat) (h1 : ¬ 85 ≤ score)
    (h2 : ¬ 60 ≤ score) : sectionPatFor score = sectionAt lowHeadAt := by
  unfold sectionPatFor
  rw [if_neg h1, if_neg h2]

theorem insertWith_hit (content idea_entry : Str)
    (pat : Str → Option Nat) (q k : Nat)
    (h : scanFirst pat content = some (q, k)) :
    insertWith content idea_entry pat =
      content.take (q + k) ++ [Char.ofNat 10] ++ idea_entry ++
        content.drop (q + k) := by
  unfold insertWith
  rw [h]

/-- Claim C7: when the document contains the three standard priority
section headings (each section pattern has a leftmost match), the entry
is inserted immediately after the High heading (and its placeholder)
when score ≥ 85, after the Medium heading when 60 ≤ score < 85, and
after the Low heading when score < 60. -/
theorem claim_C7_section_routing (content idea_id title description
    category : Str) (author source : Option Str)
    (captured_date timestamp : Str) (score : Nat)
    (qH kH qM kM qL kL : Nat)
    (hH : scanFirst (sectionAt highHeadAt) content = some (qH, kH))
    (hM : scanFirst (sectionAt medHeadAt) content = some (qM, kM))
    (hL : scanFirst (sectionAt lowHeadAt) content = some (qL, kL)) :
    insert_idea_into_priority_queue (some content) idea_id title
      description category score author source captured_date timestamp =
    if 85 ≤ score then
      content.take (qH + kH) ++ [Char.ofNat 10] ++
        ideaEntry idea_id title description category score author source
          captured_date ++ content.drop (qH + kH)
    else if 60 ≤ score then
      content.take (qM + kM) ++ [Char.ofNat 10] ++
        ideaEntry idea_id title description category score author source
          captured_date ++ content.drop (qM + kM)
    else
      content.take (qL + kL) ++ [Char.ofNat 10] ++
        ideaEntry idea_id title description category score author source
          captured_date ++ content.drop (qL + kL) := by
  show insertWith content _ (sectionPatFor score) = _
  by_cases h85 : 85 ≤ score
  · rw [if_pos h85, sectionPatFor_high score h85,
      insertWith_hit content _ _ qH kH hH]
  · rw [if_neg h85]
    by_cases h60 : 60 ≤ score
    · rw [if_pos h60, sectionPatFor_med score h85 h60,
        insertWith_hit content _ _ qM kM hM]
    · rw [if_neg h60, sectionPatFor_low score h85 h60,
        insertWith_hit content _ _ qL kL hL]

def tC7 : Str := String.toList
  "# B\n\n### 🔥 High Priority (Score: 85+)\n\n*none*\n\n### ⚡ Medium Priority (Score: 60-84)\n\n### 💡 Low Priority (Score: <60)\n\n## Archive (Implemented)\n"

/-- Claim C7 witness: the routing equation applied at a concrete
document containing all three headings, with score 85. -/
theorem claim_C7_witness :
    insert_idea_into_priority_queue (some tC7) (String.toList "idea-001")
      (String.toList "T") (String.toList "D") (String.toList "ux") 85
      none none (String.toList "2026-01-02") (String.toList "ts") =
    if 85 ≤ 85 then
      tC7.take 47 ++ [Char.ofNat 10] ++
        ideaEntry (String.toList "idea-001") (String.toList "T")
          (String.toList "D") (String.toList "ux") 85 none none
          (String.toList "2026-01-02") ++ tC7.drop 47
    else if 60 ≤ 85 then
      tC7.take 85 ++ [Char.ofNat 10] ++
        ideaEntry (String.toList "idea-001") (String.toList "T")
          (String.toList "D") (String.toList "ux") 85 none none
          (String.toList "2026-01-02") ++ tC7.drop 85
    else
      tC7.take 118 ++ [Char.ofNat 10] ++
        ideaEntry (String.toList "idea-001") (String.toList "T")
          (String.toList "D") (String.toList "ux") 85 none none
          (String.toList "2026-01-02") ++ tC7.drop 118 :=
  claim_C7_section_routing tC7 (String.toList "idea-001")
    (String.toList "T") (String.toList "D") (String.toList "ux") none none
    (String.toList "2026-01-02") (String.toList "ts") 85
    5 42 47 38 85 33 (by decide) (by decide) (by decide)

/-! ## Claim C8: `capture_idea` rejects before mutating -/

/-- The fixed category enumeration. -/
def CATEGORIES : List Str :=
  [String.toList "workflows", String.toList "automation",
   String.toList "relationships", String.toList "tasks",
   String.toList "projects", String.toList "knowledge",
   String.toList "system", String.toList "ux",
   String.toList "integration", String.toList "performance",
   String.toList "intelligence"]

/-- The `capture_idea` tool handler; returns the result payload
(success flag plus the error/warning string, other advisory fields
omitted) and the resulting backlog file state.  `timestamp` feeds the
initialize-on-missing-file template inside the insert step. -/
def capture_idea (file : Option Str)
    (title description category today timestamp : Str)
    (qmd : List Str) : OpResult × Option Str :=
  if ¬ category ∈ CATEGORIES then
    (⟨false, String.toList "Invalid category"⟩, file)
  else
    match find_similar_ideas title description file today qmd with
    | s0 :: _ =>
      if 3/4 < s0.similarity then
        (⟨false, String.toList "Potential duplicate detected"⟩, file)
      else
        (⟨true, []⟩,
          some (insert_idea_into_priority_queue file
            (generate_idea_id file) title description category 0
            none none today timestamp))
    | [] =>
      (⟨true, []⟩,
        some (insert_idea_into_priority_queue file
          (generate_idea_id file) title description category 0
          none none today timestamp))

/-- Claim C8: an out-of-enumeration category is rejected with a
`success: false` payload and a nonempty error string, leaving the
backlog file untouched; the same no-mutation guarantee holds when the
top similar idea exceeds similarity 0.75. -/
theorem claim_C8_capture_no_mutation (file : Option Str)
    (title description category today timestamp : Str) (qmd : List Str) :
    (¬ category ∈ CATEGORIES →
      (capture_idea file title description category today timestamp
        qmd).1.success = false ∧
      (capture_idea file title description category today timestamp
        qmd).1.error ≠ [] ∧
      (capture_idea file title description category today timestamp
        qmd).2 = file) ∧
    (∀ s0 rest,
      find_similar_ideas title description file today qmd = s0 :: rest →
      3/4 < s0.similarity →
      (capture_idea file title description category today timestamp
        qmd).1.success = false ∧
      (capture_idea file title description category today timestamp
        qmd).1.error ≠ [] ∧
      (capture_idea file title description category today timestamp
        qmd).2 = file) := by
  constructor
  · intro hcat
    unfold capture_idea
    rw [if_pos hcat]
    exact ⟨rfl, by simp, rfl⟩
  · intro s0 rest hsim hgt
    by_cases hcat : ¬ category ∈ CATEGORIES
    · unfold capture_idea
      rw [if_pos hcat]
      exact ⟨rfl, by simp, rfl⟩
    · unfold capture_idea
      rw [if_neg hcat, hsim]
      simp only
      rw [if_pos hgt]
      exact ⟨rfl, by simp, rfl⟩

theorem qmdBoost_nil (t : Str) : qmdBoost [] t = 0 := rfl

def tC8 : Str := String.toList "- **[idea-001]** dup title\n  - **Score:** 42\n"

def tC8title : Str := String.toList "dup title"

def tC8day : Str := String.toList "2026-01-02"

theorem tC8_parse :
    parse_backlog_file (some tC8) tC8day =
      [{ id := String.toList "idea-001", title := tC8title, score := 42,
         category := String.toList "system", captured := tC8day,
         description := [], status := String.toList "active" }] := by
  decide

theorem round2_85 : round2 (0.85 : ℚ) = 0.85 := by
  have hf : Int.floor ((0.85 : ℚ) * 100) = (85 : ℤ) := by
    rw [Int.floor_eq_iff]
    constructor <;> norm_num
  simp only [round2, hf]
  norm_num

theorem tC8_similar :
    find_similar_ideas tC8title [] (some tC8) tC8day [] =
      [{ id := String.toList "idea-001", title := tC8title,
         similarity := 0.85, semantic_match := false }] := by
  simp only [find_similar_ideas]
  rw [tC8_parse]
  have h1 : calculate_similarity tC8title tC8title = 1 :=
    calculate_similarity_self tC8title
  have h2 : calculate_similarity [] [] = 1 := calculate_similarity_self []
  simp only [List.filterMap_cons, List.filterMap_nil, h1, h2, qmdBoost_nil]
  rw [if_pos (by norm_num : (0.5 : ℚ) ≤ 1 * 0.6 + 1 * 0.25 + 0)]
  rw [show (1 : ℚ) * 0.6 + 1 * 0.25 + 0 = 0.85 by norm_num, round2_85]
  simp [List.mergeSort]

/-- Claim C8 witness: the no-mutation guarantee applied at a concrete
invalid category and at a concrete duplicate (identical title and
description give combined similarity 0.85 > 0.75). -/
theorem claim_C8_witness :
    ((capture_idea (some tC8) tC8title [] (String.toList "bogus") tC8day
        (String.toList "ts") []).1.success = false ∧
      (capture_idea (some tC8) tC8title [] (String.toList "bogus") tC8day
        (String.toList "ts") []).1.error ≠ [] ∧
      (capture_idea (some tC8) tC8title [] (String.toList "bogus") tC8day
        (String.toList "ts") []).2 = some tC8) ∧
    ((capture_idea (some tC8) tC8title [] (String.toList "ux") tC8day
        (String.toList "ts") []).1.success = false ∧
      (capture_idea (some tC8) tC8title [] (String.toList "ux") tC8day
        (String.toList "ts") []).1.error ≠ [] ∧
      (capture_idea (some tC8) tC8title [] (String.toList "ux") tC8day
        (String.toList "ts") []).2 = some tC8) :=
  ⟨(claim_C8_capture_no_mutation (some tC8) tC8title []
      (String.toList "bogus") tC8day (String.toList "ts") []).1
      (by decide),
   (claim_C8_capture_no_mutation (some tC8) tC8title []
      (String.toList "ux") tC8day (String.toList "ts") []).2
      _ [] tC8_similar (by norm_num)⟩

/-! ## `parse_changelog_entries` and the `synthesize_changelog` handler -/

/-- Python string `<`: lexicographic comparison by code point. -/
def strLtB : Str → Str → Bool
  | [], [] => false
  | [], _ :: _ => true
  | _ :: _, [] => false
  | a :: s, b :: t => if a < b then true else if b < a then false else strLtB s t

/-- Python string `<=` (as `not (b < a)`). -/
def strLeB (a b : Str) : Bool := !strLtB b a

/-- Python `max(a, b)` on strings. -/
def maxStr (a b : Str) : Str := if strLtB a b then b else a

theorem strLtB_trans : ∀ (a b c : Str), strLtB a b = true →
    strLtB b c = true → strLtB a c = true := by
  intro a
  induction a with
  | nil =>
    intro b c hab hbc
    cases b with
    | nil => exact absurd hab (by simp [strLtB])
    | cons y t =>
      cases c with
      | nil => exact absurd hbc (by simp [strLtB])
      | cons z u => simp [strLtB]
  | cons x s ih =>
    intro b c hab hbc
    cases b with
    | nil => exact absurd hab (by simp [strLtB])
    | cons y t =>
      cases c with
      | nil => exact absurd hbc (by simp [strLtB])
      | cons z u =>
        simp only [strLtB] at hab hbc ⊢
        by_cases h1 : x < y
        · by_cases h2 : y < z
          · rw [if_pos (h1.trans h2)]
          · have h3 : ¬ z < y := by
              intro h4
              rw [if_neg h2, if_pos h4] at hbc
              exact absurd hbc (by simp)
            have h5 : y = z := le_antisymm (not_lt.mp h3) (not_lt.mp h2)
            rw [if_pos (h5 ▸ h1)]
        · have h6 : ¬ y < x := by
            intro h4
            rw [if_neg h1, if_pos h4] at hab
            exact absurd hab (by simp)
          have h7 : x = y := le_antisymm (not_lt.mp h6) (not_lt.mp h1)
          subst h7
          rw [if_neg h1, if_neg h6] at hab
          by_cases h2 : x < z
          · rw [if_pos h2]
          · have h3 : ¬ z < x := by
              intro h4
              rw [if_neg h2, if_pos h4] at hbc
              exact absurd hbc (by simp)
            rw [if_neg h2, if_neg h3]
            rw [if_neg h2, if_neg h3] at hbc
            exact ih t u hab hbc

theorem strLtB_connex : ∀ (a b : Str), strLtB a b = false →
    strLtB b a = false → a = b := by
  intro a
  induction a with
  | nil =>
    intro b hab _
    cases b with
    | nil => rfl
    | cons y t => exact absurd hab (by simp [strLtB])
  | cons x s ih =>
    intro b hab hba
    cases b with
    | nil => exact absurd hba (by simp [strLtB])
    | cons y t =>
      simp only [strLtB] at hab hba
      by_cases h1 : x < y
      · rw [if_pos h1] at hab
        exact absurd hab (by simp)
      · by_cases h2 : y < x
        · rw [if_pos h2] at hba
          exact absurd hba (by simp)
        · have h3 : x = y := le_antisymm (not_lt.mp h2) (not_lt.mp h1)
          subst h3
          rw [if_neg h1, if_neg h1] at hab hba
          rw [ih t hab hba]

theorem strLtB_irrefl : ∀ (a : Str), strLtB a a = false := by
  intro a
  induction a with
  | nil => rfl
  | cons x s ih =>
    simp only [strLtB]
    rw [if_neg (lt_irrefl x), if_neg (lt_irrefl x)]
    exact ih

theorem strLtB_of_lt_of_le (a b c : Str) (h1 : strLtB a b = true)
    (h2 : strLtB c b = false) : strLtB a c = true := by
  cases h3 : strLtB a c with
  | true => rfl
  | false =>
    cases h4 : strLtB c a with
    | true => rw [strLtB_trans c a b h4 h1] at h2; exact absurd h2 (by simp)
    | false =>
      rw [strLtB_connex a c h3 h4] at h1
      rw [h1] at h2
      exact absurd h2 (by simp)

theorem strLeB_maxStr_right (a b : Str) : strLtB (maxStr a b) b = false := by
  unfold maxStr
  by_cases h : strLtB a b = true
  · rw [if_pos h]
    exact strLtB_irrefl b
  · rw [if_neg h]
    simpa using h

theorem strLeB_maxStr_left (a b : Str) : strLtB (maxStr a b) a = false := by
  unfold maxStr
  by_cases h : strLtB a b = true
  · rw [if_pos h]
    cases h2 : strLtB b a with
    | false => rfl
    | true =>
      have h3 := strLtB_trans a b a h h2
      rw [strLtB_irrefl] at h3
      exact absurd h3 (by simp)
  · rw [if_neg h]
    exact strLtB_irrefl a

theorem maxStr_cases (a b : Str) : maxStr a b = a ∨ maxStr a b = b := by
  unfold maxStr
  by_cases h : strLtB a b = true
  · rw [if_pos h]; exact Or.inr rfl
  · rw [if_neg h]; exact Or.inl rfl

/-- Python `str.splitlines()` for documents using `\n` line ends: split
on newlines, a trailing newline producing no final empty line. -/
def pySplitlines (s : Str) : List Str :=
  if s.isEmpty then []
  else
    let parts := s.splitOn (Char.ofNat 10)
    if s.getLast? = some (Char.ofNat 10) then parts.dropLast else parts

/-- The `\d{4}-\d{2}-\d{2}` shape at the start of `s`. -/
def dateShape (s : Str) : Bool :=
  match s.take 10 with
  | [a, b, c, d, e, f, g, h, i, j] =>
    isPyDigit a && isPyDigit b && isPyDigit c && isPyDigit d &&
    e = Char.ofNat 45 && isPyDigit f && isPyDigit g &&
    h = Char.ofNat 45 && isPyDigit i && isPyDigit j
  | _ => false

/-- `re.match(r'^##\s+(\d{4}-\d{2}-\d{2})\s*$', line)`: returns the
captured date. -/
def dateHdrAt (l : Str) : Option Str :=
  if (String.toList "##").isPrefixOf l then
    let r := l.drop 2
    let w := leadingWS r
    if w = 0 then none
    else
      let rest := r.drop w
      if dateShape rest && (rest.drop 10).all isPyWS then some (rest.take 10)
      else none
  else none

/-- `re.match(r'^#{2,3}\s+v(\S+?)(?:\s*[-–—]\s*(\d{4}-\d{2}-\d{2}))?',
line)`: the lazy `\S+?` captures exactly one character (the optional
group cannot force it longer); returns (version group, optional date
group).  The `#{2,3}` alternatives are disambiguated by the third
character (a third `#` rules the two-hash branch out, since `\s+` then
needs a whitespace character). -/
def versionHdrAt (l : Str) : Option (Str × Option Str) :=
  let go : Nat → Option (Str × Option Str) := fun n =>
    let r := l.drop n
    let w := leadingWS r
    if w = 0 then none
    else
      match r.drop w with
      | [] => none
      | v :: rest =>
        if v = 'v' then
          match rest with
          | [] => none
          | c :: r2 =>
            if isPyWS c then none
            else
              let w2 := leadingWS r2
              let od :=
                if (r2.get? w2 = some (Char.ofNat 45) ||
                    r2.get? w2 = some '–' || r2.get? w2 = some '—') then
                  let r3 := r2.drop (w2 + 1)
                  let w3 := leadingWS r3
                  if dateShape (r3.drop w3) then
                    some ((r3.drop w3).take 10)
                  else none
                else none
              some ([c], od)
        else none
  if (String.toList "###").isPrefixOf l then go 3
  else if (String.toList "##").isPrefixOf l then go 2
  else none

/-- A parsed changelog entry. -/
structure ChEntry where
  date : Str
  version : Str
  feature : Str
deriving Repr, DecidableEq

/-- The `since_date and current_date < since_date` skip test. -/
def sinceSkip (since : Option Str) (d : Str) : Bool :=
  match since with
  | some sd => strLtB d sd
  | none => false

theorem sinceSkip_none (d : Str) : sinceSkip none d = false := rfl

theorem sinceSkip_some (sd d : Str) :
    sinceSkip (some sd) d = strLtB d sd := rfl

/-- The line loop of `parse_changelog_entries`, carrying `current_date`
and `current_version`. -/
def chLoop (since : Option Str) : List Str → Option Str → Option Str →
    List ChEntry
  | [], _, _ => []
  | line :: rest, cd, cv =>
    match dateHdrAt line with
    | some d => chLoop since rest (some d) cv
    | none =>
      match versionHdrAt line with
      | some (v, od) =>
        chLoop since rest (match od with | some d2 => some d2 | none => cd)
          (some v)
      | none =>
        let stripped := pyStrip line
        if (String.toList "- ").isPrefixOf stripped then
          match cd with
          | some d =>
            let ft := pyStrip (stripped.drop 2)
            if ft.length < 10 then chLoop since rest cd cv
            else if sinceSkip since d then chLoop since rest cd cv
            else { date := d, version := cv.getD [], feature := ft } ::
              chLoop since rest cd cv
          | none => chLoop since rest cd cv
        else chLoop since rest cd cv

/-- `parse_changelog_entries(since_date)`. -/
def parse_changelog_entries (file : Option Str) (since : Option Str) :
    List ChEntry :=
  match file with
  | none => []
  | some content => chLoop since (pySplitlines content) none none

/-- The date filter commutes out of the line loop: parsing with a
`since` date is parsing unfiltered, then dropping entries dated
strictly before `since`. -/
theorem chLoop_since_filter (sd : Str) :
    ∀ (lines : List Str) (cd cv : Option Str),
      chLoop (some sd) lines cd cv =
        (chLoop none lines cd cv).filter
          (fun e => !strLtB e.date sd) := by
  intro lines
  induction lines with
  | nil => intro cd cv; rfl
  | cons line rest ih =>
    intro cd cv
    simp only [chLoop]
    cases dateHdrAt line with
    | some d => exact ih (some d) cv
    | none =>
      cases versionHdrAt line with
      | some p => exact ih _ (some p.1)
      | none =>
        by_cases hp : (String.toList "- ").isPrefixOf (pyStrip line) = true
        · rw [if_pos hp, if_pos hp]
          cases cd with
          | none => exact ih none cv
          | some d =>
            dsimp only
            by_cases hl : (pyStrip ((pyStrip line).drop 2)).length < 10
            · rw [if_pos hl, if_pos hl]
              exact ih (some d) cv
            · rw [if_neg hl, if_neg hl]
              simp only [sinceSkip_none, sinceSkip_some,
                Bool.false_eq_true, if_false]
              by_cases hs : strLtB d sd = true
              · rw [if_pos hs]
                rw [List.filter_cons_of_neg (by simpa using hs)]
                exact ih (some d) cv
              · rw [if_neg hs]
                rw [List.filter_cons_of_pos (by simpa using hs)]
                rw [ih (some d) cv]
        · rw [if_neg hp, if_neg hp]
          exact ih cd cv

theorem parse_changelog_since_filter (file : Option Str) (sd : Str) :
    parse_changelog_entries file (some sd) =
      (parse_changelog_entries file none).filter
        (fun e => !strLtB e.date sd) := by
  cases file with
  | none => rfl
  | some content =>
    exact chLoop_since_filter sd (pySplitlines content) none none

/-- `infer_category_from_feature`. -/
def infer_category_from_feature (feature_text : Str) : Str :=
  let t := lowerStr feature_text
  let has := fun (ws : List Str) => ws.any (fun w => strContains t w)
  if has [String.toList "memory", String.toList "memories",
      String.toList "recall", String.toList "remember",
      String.toList "context", String.toList "compact",
      String.toList "summariz"] then String.toList "knowledge"
  else if has [String.toList "agent", String.toList "sub-agent",
      String.toList "teammate", String.toList "multi-agent",
      String.toList "task"] then String.toList "performance"
  else if has [String.toList "mcp", String.toList "oauth",
      String.toList "credential", String.toList "slack",
      String.toList "integration"] then String.toList "integration"
  else if has [String.toList "hook", String.toList "automat",
      String.toList "cron", String.toList "background"] then
    String.toList "automation"
  else if has [String.toList "keybind", String.toList "keyboard",
      String.toList "shortcut", String.toList "ui", String.toList "ux"]
  then String.toList "ux"
  else if has [String.toList "skill", String.toList "command",
      String.toList "slash"] then String.toList "workflows"
  else String.toList "system"

/-- `generate_idea_title_from_feature`. -/
def generate_idea_title_from_feature (feature_text : Str) : Str :=
  let text := pyStrip feature_text
  let text := if (String.toList "Added ").isPrefixOf text then text.drop 6
    else if (String.toList "New ").isPrefixOf text then text.drop 4
    else text
  let text := if 80 < text.length then
    text.take 77 ++ String.toList "..." else text
  String.toList "Leverage: " ++ text

/-- The best-match scan of the synthesis loop: strictly greater
combined similarity (max of title and description similarity) replaces
the best candidate. -/
def sBestGo (feature : Str) : List Idea → ℚ → Option Idea →
    ℚ × Option Idea
  | [], bs, bm => (bs, bm)
  | idea :: rest, bs, bm =>
    let title_sim := calculate_similarity feature idea.title
    let desc_sim := calculate_similarity feature idea.description
    let combined := max title_sim desc_sim
    if bs < combined then sBestGo feature rest combined (some idea)
    else sBestGo feature rest bs bm

/-- The synthesis state file; only the changelog watermark field is
modelled (the version-seen and history fields never feed back into
synthesis decisions). -/
structure SynthState where
  last_changelog_synthesis : Option Str
deriving Repr, DecidableEq

/-- The counters of the `synthesize_changelog` result payload. -/
structure SynthResult where
  features_scanned : Nat
  ideas_created : Nat
  ideas_enriched : Nat
deriving Repr, DecidableEq

/-- The per-entry loop of `synthesize_changelog`: enrich the best
match when its similarity exceeds 0.4, otherwise create a new idea
(appending a partial record to the in-memory idea list, as the Python
loop does).  Returns the final backlog state and the
(created, enriched) counters. -/
def synthLoop (today timestamp : Str) :
    List (ChEntry × Int) → Option Str → List Idea → Nat → Nat →
    Option Str × Nat × Nat
  | [], bk, _, cr, en => (bk, cr, en)
  | (entry, _) :: rest, bk, existing, cr, en =>
    match sBestGo entry.feature existing 0 none with
    | (bs, some m) =>
      if (0.4 : ℚ) < bs then
        let evidence := String.toList "Claude Code " ++ entry.version ++
          String.toList " (" ++ entry.date ++ String.toList "): " ++
          entry.feature
        let er := enrich_idea_in_backlog bk m.id evidence
          (String.toList "Anthropic Changelog " ++ entry.version) today
        if er.1.success then
          synthLoop today timestamp rest er.2 existing cr (en + 1)
        else synthLoop today timestamp rest er.2 existing cr en
      else
        let idea_id := generate_idea_id bk
        let title := generate_idea_title_from_feature entry.feature
        let category := infer_category_from_feature entry.feature
        let description := String.toList "Claude Code " ++ entry.version ++
          String.toList " (" ++ entry.date ++ String.toList ") shipped: " ++
          entry.feature ++ String.toList
            ". Evaluate how Dex could leverage this for user workflows."
        let bk2 := some (insert_idea_into_priority_queue bk idea_id title
          description category 0
          (some (String.toList "AI (Anthropic Changelog Synthesis)"))
          (some (String.toList "Anthropic Changelog Synthesis"))
          today timestamp)
        synthLoop today timestamp rest bk2
          (existing ++
            [⟨idea_id, title, 0, category, today, description,
              String.toList "active"⟩]) (cr + 1) en
    | (_, none) =>
      let idea_id := generate_idea_id bk
      let title := generate_idea_title_from_feature entry.feature
      let category := infer_category_from_feature entry.feature
      let description := String.toList "Claude Code " ++ entry.version ++
        String.toList " (" ++ entry.date ++ String.toList ") shipped: " ++
        entry.feature ++ String.toList
          ". Evaluate how Dex could leverage this for user workflows."
      let bk2 := some (insert_idea_into_priority_queue bk idea_id title
        description category 0
        (some (String.toList "AI (Anthropic Changelog Synthesis)"))
        (some (String.toList "Anthropic Changelog Synthesis"))
        today timestamp)
      synthLoop today timestamp rest bk2
        (existing ++
          [⟨idea_id, title, 0, category, today, description,
            String.toList "active"⟩]) (cr + 1) en

/-- `since_date = max(cutoff, last_changelog_synthesis)` when a
watermark exists. -/
def sinceOf (st : SynthState) (cutoff : Str) : Str :=
  match st.last_changelog_synthesis with
  | some l => maxStr cutoff l
  | none => cutoff

/-- The `synthesize_changelog` tool handler.  `cutoff` stands for
`(now - days_back days)` as a YYYY-MM-DD string, `today` for the run
day; the changelog file, backlog file and synthesis state are passed
and returned explicitly.  On an empty (post-watermark) entry list the
handler returns zero counters without touching file or state. -/
def synthesize_changelog (changelog backlog : Option Str)
    (st : SynthState) (cutoff today timestamp : Str) :
    SynthResult × Option Str × SynthState :=
  let since := sinceOf st cutoff
  let entries := parse_changelog_entries changelog (some since)
  if entries.isEmpty then (⟨0, 0, 0⟩, backlog, st)
  else
    let scored := entries.map
      (fun e => (e, score_changelog_relevance e.feature))
    let relevant := scored.filter (fun p => decide (20 ≤ p.2))
    let sorted := (relevant.mergeSort (fun x y => decide (y.2 ≤ x.2))).take 15
    let existing := parse_backlog_file backlog today
    let r := synthLoop today timestamp sorted backlog existing 0 0
    (⟨entries.length, r.2.1, r.2.2⟩, r.1, ⟨some today⟩)

theorem strLtB_false_trans (x y z : Str) (h1 : strLtB x y = false)
    (h2 : strLtB y z = false) : strLtB x z = false := by
  cases h : strLtB x z with
  | false => rfl
  | true =>
    have h3 := strLtB_of_lt_of_le x z y h h2
    rw [h1] at h3
    exact absurd h3 (by simp)

theorem maxStr_mono_left (a b c : Str) (h : strLtB b a = false) :
    strLtB (maxStr b c) (maxStr a c) = false := by
  rcases maxStr_cases a c with hm | hm <;> rw [hm]
  · exact strLtB_false_trans (maxStr b c) b a (strLeB_maxStr_left b c) h
  · exact strLeB_maxStr_right b c

/-- A synthesis run whose post-watermark entry list is empty returns
zero counters and leaves the backlog and state untouched. -/
theorem synthesize_changelog_empty (changelog backlog : Option Str)
    (st : SynthState) (cutoff today ts : Str)
    (h : parse_changelog_entries changelog (some (sinceOf st cutoff))
      = []) :
    synthesize_changelog changelog backlog st cutoff today ts =
      (⟨0, 0, 0⟩, backlog, st) := by
  simp [synthesize_changelog, h]

/-- A synthesis run that processes entries stamps the watermark with
the run day. -/
theorem synthesize_changelog_state (changelog backlog : Option Str)
    (st : SynthState) (cutoff today ts : Str)
    (h : ¬ parse_changelog_entries changelog (some (sinceOf st cutoff))
      = []) :
    (synthesize_changelog changelog backlog st cutoff today ts).2.2 =
      ⟨some today⟩ := by
  simp only [synthesize_changelog]
  rw [if_neg (by simpa [List.isEmpty_iff] using h)]

/-- Claim C4 (amended): running synthesis twice over the same
changelog reports zero created and zero enriched ideas on the second
run and leaves backlog and state untouched, PROVIDED every changelog
entry is dated strictly before the first run's day and the second
run's cutoff is no earlier than the first's.  (Without that proviso
the claim fails: the watermark filter drops only dates strictly below
the watermark, so entries dated on the synthesis day are reprocessed —
see the counterexample.) -/
theorem claim_C4_watermark (changelog backlog : Option Str)
    (st : SynthState) (cutoff1 t1 ts1 cutoff2 t2 ts2 : Str)
    (hA : ∀ e ∈ parse_changelog_entries changelog none,
      strLtB e.date t1 = true)
    (hB : strLtB cutoff2 cutoff1 = false) :
    ∀ res1 bk1 st1,
      synthesize_changelog changelog backlog st cutoff1 t1 ts1 =
        (res1, bk1, st1) →
      synthesize_changelog changelog bk1 st1 cutoff2 t2 ts2 =
        (⟨0, 0, 0⟩, bk1, st1) := by
  intro res1 bk1 st1 hr1
  by_cases hE : parse_changelog_entries changelog
      (some (sinceOf st cutoff1)) = []
  · rw [synthesize_changelog_empty changelog backlog st cutoff1 t1 ts1 hE]
      at hr1
    have hb : bk1 = backlog ∧ st1 = st := by
      have h2 := congrArg (fun p => p.2) hr1
      simp only [Prod.ext_iff] at h2
      exact ⟨h2.1.symm, h2.2.symm⟩
    obtain ⟨rfl, rfl⟩ := hb
    apply synthesize_changelog_empty
    rw [parse_changelog_since_filter, List.filter_eq_nil_iff]
    intro e he
    have h1 : strLtB e.date (sinceOf st1 cutoff1) = true := by
      rw [parse_changelog_since_filter] at hE
      have h3 := List.filter_eq_nil_iff.mp hE e he
      simpa using h3
    have hle : strLtB (sinceOf st1 cutoff2) (sinceOf st1 cutoff1)
        = false := by
      rcases st1 with ⟨last⟩
      cases last with
      | none => simpa [sinceOf] using hB
      | some l =>
        simpa [sinceOf] using maxStr_mono_left cutoff1 cutoff2 l hB
    have h4 := strLtB_of_lt_of_le e.date (sinceOf st1 cutoff1)
      (sinceOf st1 cutoff2) h1 hle
    simp [h4]
  · have hst1 : st1 = ⟨some t1⟩ := by
      have h2 := synthesize_changelog_state changelog backlog st cutoff1
        t1 ts1 hE
      rw [hr1] at h2
      exact h2
    subst hst1
    apply synthesize_changelog_empty
    rw [show sinceOf ⟨some t1⟩ cutoff2 = maxStr cutoff2 t1 from rfl]
    rw [parse_changelog_since_filter, List.filter_eq_nil_iff]
    intro e he
    have h4 := strLtB_of_lt_of_le e.date t1 (maxStr cutoff2 t1) (hA e he)
      (strLeB_maxStr_right cutoff2 t1)
    simp [h4]

def tC4log : Str := String.toList "## 2026-01-02\n- Added memory hook improvements\n"

def tC4bk : Str := String.toList
  "- **[idea-007]** Added memory hook improvements\n  - **Score:** 50\n\n## Archive\n"

def tC4bk2 : Str := String.toList
  "- **[idea-007]** Added memory hook improvements\n  - **Score:** 50\n  - **🔔 Why Now? (AI-enriched 2026-01-02):** Claude Code  (2026-01-02): Added memory hook improvements *(Source: Anthropic Changelog )*\n\n## Archive\n"

def tC4day : Str := String.toList "2026-01-02"

def tC4cut : Str := String.toList "2025-12-03"

def tC4feat : Str := String.toList "Added memory hook improvements"

def tC4e : ChEntry := ⟨tC4day, [], tC4feat⟩

def tC4idea : Idea :=
  ⟨String.toList "idea-007", tC4feat, 50, String.toList "system", tC4day,
    [], String.toList "active"⟩

set_option maxRecDepth 100000 in
theorem tC4_sim_nil : calculate_similarity tC4feat [] = 0 := by
  have hM : matchTotal (lowerStr tC4feat) (lowerStr [])
      (b2jMap (lowerStr []))
      ((lowerStr tC4feat).length + (lowerStr []).length)
      0 (lowerStr tC4feat).length 0 (lowerStr []).length = 0 := by rfl
  unfold calculate_similarity ratioOf
  rw [if_neg (by decide), hM]
  rw [show (lowerStr tC4feat).length + (lowerStr []).length = 30 from rfl]
  norm_num

theorem tC4_sbest : sBestGo tC4feat [tC4idea] 0 none =
    (1, some tC4idea) := by
  simp only [sBestGo, tC4idea, calculate_similarity_self, tC4_sim_nil]
  rw [if_pos (by norm_num : (0 : ℚ) < max 1 0)]
  rw [show max (1 : ℚ) 0 = 1 from by norm_num]

set_option maxRecDepth 100000 in
theorem tC4_enrich1 :
    enrich_idea_in_backlog (some tC4bk) (String.toList "idea-007")
      (String.toList "Claude Code " ++ [] ++ String.toList " (" ++ tC4day ++
        String.toList "): " ++ tC4feat)
      (String.toList "Anthropic Changelog " ++ []) tC4day =
    (⟨true, []⟩, some tC4bk2) := by decide

set_option maxRecDepth 100000 in
theorem tC4_run1 (ts : Str) :
    synthesize_changelog (some tC4log) (some tC4bk) ⟨none⟩ tC4cut tC4day
      ts = (⟨1, 0, 1⟩, some tC4bk2, ⟨some tC4day⟩) := by
  have hpe : parse_changelog_entries (some tC4log)
      (some (sinceOf ⟨none⟩ tC4cut)) = [tC4e] := by decide
  have hex : parse_backlog_file (some tC4bk) tC4day = [tC4idea] := by
    decide
  have hrel : score_changelog_relevance tC4e.feature = 40 := by decide
  simp only [synthesize_changelog, hpe, hex, List.isEmpty_cons,
    Bool.false_eq_true, if_false, List.map_cons, List.map_nil, hrel]
  rw [show List.filter (fun p => decide (20 ≤ p.2)) [(tC4e, (40 : Int))] =
    [(tC4e, 40)] from by decide]
  rw [List.mergeSort_singleton]
  rw [show List.take 15 [(tC4e, (40 : Int))] = [(tC4e, 40)] from rfl]
  simp only [synthLoop, tC4e]
  rw [tC4_sbest]
  dsimp only
  rw [show tC4idea.id = String.toList "idea-007" from rfl]
  rw [if_pos (by norm_num : (0.4 : ℚ) < 1)]
  rw [tC4_enrich1]
  rfl

set_option maxRecDepth 100000 in
theorem tC4_run2 (ts : Str) :
    (synthesize_changelog (some tC4log) (some tC4bk2) ⟨some tC4day⟩
      tC4cut tC4day ts).1.ideas_enriched = 1 := by
  have hpe : parse_changelog_entries (some tC4log)
      (some (sinceOf ⟨some tC4day⟩ tC4cut)) = [tC4e] := by decide
  have hex : parse_backlog_file (some tC4bk2) tC4day = [tC4idea] := by
    decide
  have hrel : score_changelog_relevance tC4e.feature = 40 := by decide
  have hsucc : (enrich_idea_in_backlog (some tC4bk2)
      (String.toList "idea-007")
      (String.toList "Claude Code " ++ [] ++ String.toList " (" ++ tC4day ++
        String.toList "): " ++ tC4feat)
      (String.toList "Anthropic Changelog " ++ []) tC4day).1 =
      ⟨true, []⟩ := by decide
  simp only [synthesize_changelog, hpe, hex, List.isEmpty_cons,
    Bool.false_eq_true, if_false, List.map_cons, List.map_nil, hrel]
  rw [show List.filter (fun p => decide (20 ≤ p.2)) [(tC4e, (40 : Int))] =
    [(tC4e, 40)] from by decide]
  rw [List.mergeSort_singleton]
  rw [show List.take 15 [(tC4e, (40 : Int))] = [(tC4e, 40)] from rfl]
  simp only [synthLoop, tC4e]
  rw [tC4_sbest]
  dsimp only
  rw [show tC4idea.id = String.toList "idea-007" from rfl]
  rw [if_pos (by norm_num : (0.4 : ℚ) < 1)]
  rw [hsucc]
  rfl

/-- Claim C4 counterexample: with a changelog entry dated on the
synthesis day itself, the second of two back-to-back runs (same
changelog, 30-day cutoff) reports `ideas_enriched = 1`, not 0 — the
watermark filter drops only entries dated strictly before the
watermark, so same-day entries are reprocessed. -/
theorem claim_C4_counterexample :
    ¬ (((synthesize_changelog (some tC4log)
          (synthesize_changelog (some tC4log) (some tC4bk) ⟨none⟩ tC4cut
            tC4day (String.toList "ts")).2.1
          (synthesize_changelog (some tC4log) (some tC4bk) ⟨none⟩ tC4cut
            tC4day (String.toList "ts")).2.2
          tC4cut tC4day (String.toList "ts")).1.ideas_created = 0) ∧
        ((synthesize_changelog (some tC4log)
          (synthesize_changelog (some tC4log) (some tC4bk) ⟨none⟩ tC4cut
            tC4day (String.toList "ts")).2.1
          (synthesize_changelog (some tC4log) (some tC4bk) ⟨none⟩ tC4cut
            tC4day (String.toList "ts")).2.2
          tC4cut tC4day (String.toList "ts")).1.ideas_enriched = 0)) := by
  rw [tC4_run1]
  dsimp only
  rw [tC4_run2]
  simp

def tC4logW : Str := String.toList
  "## 2025-01-01\n- Added memory hook improvements\n"

set_option maxRecDepth 100000 in
/-- Claim C4 witness: the amended watermark theorem applied at a
concrete changelog whose single entry predates the first run's day. -/
theorem claim_C4_witness :
    synthesize_changelog (some tC4logW) (some tC4bk) ⟨none⟩ tC4cut tC4day
      (String.toList "ts") = (⟨0, 0, 0⟩, some tC4bk, ⟨none⟩) :=
  claim_C4_watermark (some tC4logW) (some tC4bk) ⟨none⟩ tC4cut tC4day
    (String.toList "ts") tC4cut tC4day (String.toList "ts")
    (by decide) (by decide) ⟨0, 0, 0⟩ (some tC4bk) ⟨none⟩ (by decide)

/-! ## Claim C1: enrichment append-only -/

def tC1bad : Str := String.toList "- **[idea-001]** T"

/-- Claim C1 counterexample: a document whose parse contains idea-001
(so the document "contains an idea with id I"), on which the FIRST
enrichment call already fails — the enrich pattern requires a boundary
token after the entry block, and this document has none. -/
theorem claim_C1_counterexample :
    (parse_backlog_file (some tC1bad) (String.toList "2026-01-02")).map
      (fun i => i.id) = [String.toList "idea-001"] ∧
    (enrich_idea_in_backlog (some tC1bad) (String.toList "idea-001")
      (String.toList "E1") (String.toList "S1")
      (String.toList "2026-01-02")).1.success = false := by
  constructor
  · decide
  · decide

/-! Generic string-scanning lemmas for the shaped-document theorems. -/

theorem isPrefixOf_self_append (l r : List Char) :
    l.isPrefixOf (l ++ r) = true := by
  induction l with
  | nil => simp [List.isPrefixOf]
  | cons a t ih => simp [List.isPrefixOf, ih]

theorem isPrefixOf_mono_append (l : List Char) :
    ∀ (x y : List Char), l.isPrefixOf x = true →
      l.isPrefixOf (x ++ y) = true := by
  induction l with
  | nil => intro x y _; simp [List.isPrefixOf]
  | cons a t ih =>
    intro x y h
    cases x with
    | nil => simp [List.isPrefixOf] at h
    | cons b u =>
      simp only [List.isPrefixOf, Bool.and_eq_true, beq_iff_eq] at h ⊢
      exact ⟨h.1, ih u y h.2⟩

theorem strContains_append_right (a b n : Str)
    (h : strContains b n = true) : strContains (a ++ b) n = true := by
  induction a with
  | nil => exact h
  | cons c t ih =>
    rw [List.cons_append]
    unfold strContains
    by_cases hp : n.isPrefixOf (c :: (t ++ b)) = true
    · rw [if_pos hp]
    · rw [if_neg hp]
      exact ih

theorem strContains_nil_needle : ∀ (b : Str), strContains b [] = true := by
  intro b
  unfold strContains
  rw [if_pos (by simp [List.isPrefixOf])]

theorem strContains_append_left (a b n : Str)
    (h : strContains a n = true) : strContains (a ++ b) n = true := by
  induction a with
  | nil =>
    have hn : n = [] := by
      cases n with
      | nil => rfl
      | cons c t =>
        unfold strContains at h
        rw [if_neg (by simp [List.isPrefixOf])] at h
        exact absurd h (by simp)
    subst hn
    exact strContains_nil_needle _
  | cons c t ih =>
    unfold strContains at h ⊢
    rw [List.cons_append]
    by_cases hp : n.isPrefixOf (c :: t) = true
    · rw [if_pos (by
        have := isPrefixOf_mono_append n (c :: t) b hp
        rwa [List.cons_append] at this)]
    · rw [if_neg hp] at h
      by_cases hq : n.isPrefixOf (c :: (t ++ b)) = true
      · rw [if_pos hq]
      · rw [if_neg hq]
        exact ih h

/-- A matcher that requires a fixed head character has no hit inside a
string avoiding that character. -/
theorem noHitB_headchar {α : Type} (f : Str → Option α) (ch : Char)
    (hf : ∀ c t, ¬ c = ch → f (c :: t) = none) :
    ∀ (pre rest : Str), pre.all (fun c => !(c = ch)) = true →
      noHitB f pre rest = true := by
  intro pre
  induction pre with
  | nil => intro rest _; rfl
  | cons c t ih =>
    intro rest hall
    simp only [List.all_cons, Bool.and_eq_true, Bool.not_eq_eq_eq_not,
      Bool.not_true, decide_eq_false_iff_not] at hall
    simp only [noHitB, Bool.and_eq_true]
    constructor
    · rw [List.cons_append, hf c (t ++ rest) hall.1]
      rfl
    · exact ih rest (by
        rw [List.all_eq_true]
        intro x hx
        have := hall.2
        rw [List.all_eq_true] at this
        exact this x hx)

theorem markerAt_none_of_head (id : Str) (c : Char) (t : Str)
    (h : ¬ c = '-') : markerAt id (c :: t) = none := by
  simp only [markerAt]
  rw [if_neg h]

theorem enrichAt_none_of_head (id : Str) (c : Char) (t : Str)
    (h : ¬ c = '-') : enrichAt id (c :: t) = none := by
  unfold enrichAt
  rw [markerAt_none_of_head id c t h]

theorem ideaMatchAt_none_of_head (c : Char) (t : Str)
    (h : ¬ c = '-') : ideaMatchAt (c :: t) = none := by
  simp only [ideaMatchAt]
  rw [if_neg h]

theorem leadingWS_cons_ws (c : Char) (x : Str) (h : isPyWS c = true) :
    leadingWS (c :: x) = 1 + leadingWS x := by
  unfold leadingWS
  rw [List.takeWhile_cons, if_pos h]
  simp [Nat.add_comm]

theorem leadingWS_cons_not (c : Char) (x : Str) (h : isPyWS c = false) :
    leadingWS (c :: x) = 0 := by
  unfold leadingWS
  rw [List.takeWhile_cons, if_neg (by simp [h])]
  rfl

theorem takeWhile_all_append (p : Char → Bool) :
    ∀ (l r : List Char), l.all p = true →
      (l ++ r).takeWhile p = l ++ r.takeWhile p := by
  intro l
  induction l with
  | nil => intro r _; rfl
  | cons a t ih =>
    intro r h
    simp only [List.all_cons, Bool.and_eq_true] at h
    rw [List.cons_append, List.takeWhile_cons, if_pos h.1, ih r h.2,
      List.cons_append]

theorem markerAt_shaped (dgt tail : Str) :
    markerAt (String.toList "idea-" ++ dgt)
      (String.toList "- **[idea-" ++ dgt ++ String.toList "]**" ++ tail) =
    some (13 + dgt.length) := by
  rw [show String.toList "- **[idea-" ++ dgt ++ String.toList "]**" ++
      tail = '-' :: (' ' :: (String.toList "**[idea-" ++ dgt ++
        String.toList "]**" ++ tail)) from rfl]
  simp only [markerAt, if_true]
  have hw : leadingWS (' ' :: (String.toList "**[idea-" ++ dgt ++
      String.toList "]**" ++ tail)) = 1 := by
    rw [leadingWS_cons_ws _ _ (by decide)]
    rw [show String.toList "**[idea-" ++ dgt ++ String.toList "]**" ++
      tail = '*' :: (String.toList "*[idea-" ++ dgt ++
        String.toList "]**" ++ tail) from rfl]
    rw [leadingWS_cons_not _ _ (by decide)]
  rw [hw]
  have hlit : String.toList "**[" ++ (String.toList "idea-" ++ dgt) ++
      String.toList "]**" = (String.toList "**[idea-" ++ dgt) ++
      String.toList "]**" := by
    rw [← List.append_assoc]
    rfl
  have hdrop : (' ' :: (String.toList "**[idea-" ++ dgt ++
      String.toList "]**" ++ tail)).drop 1 =
      ((String.toList "**[idea-" ++ dgt) ++ String.toList "]**") ++
        tail := rfl
  rw [hdrop, hlit]
  rw [if_pos (isPrefixOf_self_append _ _)]
  congr 1
  simp [List.length_append]
  omega

/-- The block form `- **[idea-DGT]**MID` shared by both enrich calls. -/
def blkOf (dgt mid : Str) : Str :=
  String.toList "- **[idea-" ++ dgt ++ String.toList "]**" ++ mid

/-- The enrichment annotation line. -/
def enrichLine (d E S : Str) : Str :=
  String.toList "\n  - **🔔 Why Now? (AI-enriched " ++ d ++
  String.toList "):** " ++ E ++ String.toList " *(Source: " ++ S ++
  String.toList ")*"

theorem blkOf_append (dgt mid x : Str) :
    blkOf dgt mid ++ x = blkOf dgt (mid ++ x) := by
  unfold blkOf
  simp [List.append_assoc]

theorem blkOf_length (dgt mid : Str) :
    (blkOf dgt mid).length = 13 + dgt.length + mid.length := by
  unfold blkOf
  simp [List.length_append]
  omega

theorem enrichAt_shaped (dgt mid post : Str)
    (hnb : noHitB boundaryTok mid (String.toList "\n\n" ++ post) = true) :
    enrichAt (String.toList "idea-" ++ dgt)
      (blkOf dgt mid ++ (String.toList "\n\n" ++ post)) =
    some (13 + dgt.length + mid.length, 2) := by
  unfold enrichAt
  rw [show blkOf dgt mid ++ (String.toList "\n\n" ++ post) =
    String.toList "- **[idea-" ++ dgt ++ String.toList "]**" ++
      (mid ++ (String.toList "\n\n" ++ post)) from by
    unfold blkOf
    simp [List.append_assoc]]
  rw [markerAt_shaped dgt (mid ++ (String.toList "\n\n" ++ post))]
  dsimp only
  have hdrop : (String.toList "- **[idea-" ++ dgt ++ String.toList "]**" ++
      (mid ++ (String.toList "\n\n" ++ post))).drop (13 + dgt.length) =
      mid ++ (String.toList "\n\n" ++ post) := by
    apply List.drop_left'
    simp [List.length_append]
    omega
  rw [hdrop]
  have hb2 : boundaryTok (String.toList "\n\n" ++ post) = some 2 := by
    unfold boundaryTok
    rw [if_pos (isPrefixOf_self_append _ _)]
  have hscan : scanFirst boundaryTok
      (mid ++ (String.toList "\n\n" ++ post)) = some (mid.length, 2) := by
    rw [scanFirst_append boundaryTok mid (String.toList "\n\n" ++ post)
      hnb]
    rw [show String.toList "\n\n" ++ post =
      Char.ofNat 10 :: (Char.ofNat 10 :: post) from rfl]
    rw [scanFirst_cons_some boundaryTok _ _ 2 (by
      rw [show (Char.ofNat 10 :: (Char.ofNat 10 :: post)) =
        String.toList "\n\n" ++ post from rfl]
      exact hb2)]
    simp
  rw [hscan]

theorem enrichSearch_shaped (pre dgt mid post : Str)
    (hpre : pre.all (fun c => !(c = '-')) = true)
    (hnb : noHitB boundaryTok mid (String.toList "\n\n" ++ post) = true) :
    enrichSearch (String.toList "idea-" ++ dgt)
      (pre ++ (blkOf dgt mid ++ (String.toList "\n\n" ++ post))) =
    some (pre.length, pre.length + (13 + dgt.length + mid.length),
      pre.length + (13 + dgt.length + mid.length) + 2) := by
  unfold enrichSearch
  have hnohit : noHitB (enrichAt (String.toList "idea-" ++ dgt)) pre
      (blkOf dgt mid ++ (String.toList "\n\n" ++ post)) = true :=
    noHitB_headchar _ '-' (fun c t hc => enrichAt_none_of_head _ c t hc)
      pre _ hpre
  rw [scanFirst_append _ pre _ hnohit]
  rw [show blkOf dgt mid ++ (String.toList "\n\n" ++ post) =
    '-' :: (String.toList " **[idea-" ++ dgt ++ String.toList "]**" ++
      mid ++ (String.toList "\n\n" ++ post)) from rfl]
  rw [scanFirst_cons_some _ _ _ _ (show enrichAt _ _ = some
      (13 + dgt.length + mid.length, 2) from by
    rw [show ('-' :: (String.toList " **[idea-" ++ dgt ++
        String.toList "]**" ++ mid ++ (String.toList "\n\n" ++ post))) =
      blkOf dgt mid ++ (String.toList "\n\n" ++ post) from rfl]
    exact enrichAt_shaped dgt mid post hnb)]
  simp

theorem enrich_shaped_first (pre dgt mid post E S d : Str)
    (hpre : pre.all (fun c => !(c = '-')) = true)
    (hnb : noHitB boundaryTok mid (String.toList "\n\n" ++ post) = true)
    (hnobell : strContains (blkOf dgt mid)
      (String.toList "🔔 Why Now?") = false) :
    enrich_idea_in_backlog
      (some (pre ++ (blkOf dgt mid ++ (String.toList "\n\n" ++ post))))
      (String.toList "idea-" ++ dgt) E S d =
    (⟨true, []⟩,
      some (pre ++ (blkOf dgt mid ++ enrichLine d E S) ++
        String.toList "\n\n" ++ post)) := by
  simp only [enrich_idea_in_backlog,
    enrichSearch_shaped pre dgt mid post hpre hnb]
  rw [show pre.length + (13 + dgt.length + mid.length) - pre.length =
    13 + dgt.length + mid.length from by omega]
  rw [show pre.length + (13 + dgt.length + mid.length) + 2 -
    (pre.length + (13 + dgt.length + mid.length)) = 2 from by omega]
  rw [List.drop_left pre (blkOf dgt mid ++ (String.toList "\n\n" ++ post))]
  rw [List.take_left' (blkOf_length dgt mid)]
  rw [if_neg (show ¬ (strContains (blkOf dgt mid)
      (String.toList "🔔 Why Now?") = true) from by
    intro hx
    rw [hnobell] at hx
    exact absurd hx (by simp))]
  rw [List.take_left pre (blkOf dgt mid ++ (String.toList "\n\n" ++ post))]
  rw [show pre ++ (blkOf dgt mid ++ (String.toList "\n\n" ++ post)) =
    (pre ++ blkOf dgt mid) ++ (String.toList "\n\n" ++ post) from
    (List.append_assoc pre (blkOf dgt mid) _).symm]
  rw [List.drop_left' (show (pre ++ blkOf dgt mid).length =
      pre.length + (13 + dgt.length + mid.length) from by
    simp [List.length_append, blkOf_length])]
  rw [show List.take 2 (String.toList "\n\n" ++ post) =
    String.toList "\n\n" from rfl]
  rw [show (pre ++ blkOf dgt mid) ++ (String.toList "\n\n" ++ post) =
    ((pre ++ blkOf dgt mid) ++ String.toList "\n\n") ++ post from
    (List.append_assoc (pre ++ blkOf dgt mid) (String.toList "\n\n")
      post).symm]
  rw [List.drop_left' (show ((pre ++ blkOf dgt mid) ++
      String.toList "\n\n").length =
      pre.length + (13 + dgt.length + mid.length) + 2 from by
    simp [List.length_append, blkOf_length]
    omega)]
  rfl

theorem enrich_shaped_second (pre dgt mid post E S d : Str) (L : Nat)
    (hpre : pre.all (fun c => !(c = '-')) = true)
    (hnb : noHitB boundaryTok mid (String.toList "\n\n" ++ post) = true)
    (hbell : strContains (blkOf dgt mid)
      (String.toList "🔔 Why Now?") = true)
    (hrf : rfindSub (blkOf dgt mid) (String.toList "\n  - **🔔") =
      some L)
    (hfc : findCharFrom (blkOf dgt mid) (Char.ofNat 10) (L + 1) = none) :
    enrich_idea_in_backlog
      (some (pre ++ (blkOf dgt mid ++ (String.toList "\n\n" ++ post))))
      (String.toList "idea-" ++ dgt) E S d =
    (⟨true, []⟩,
      some (pre ++ (blkOf dgt mid ++ enrichLine d E S) ++
        String.toList "\n\n" ++ post)) := by
  simp only [enrich_idea_in_backlog,
    enrichSearch_shaped pre dgt mid post hpre hnb]
  rw [show pre.length + (13 + dgt.length + mid.length) - pre.length =
    13 + dgt.length + mid.length from by omega]
  rw [show pre.length + (13 + dgt.length + mid.length) + 2 -
    (pre.length + (13 + dgt.length + mid.length)) = 2 from by omega]
  rw [List.drop_left pre (blkOf dgt mid ++ (String.toList "\n\n" ++ post))]
  rw [List.take_left' (blkOf_length dgt mid)]
  rw [if_pos hbell]
  rw [hrf]
  dsimp only
  rw [hfc]
  rw [show (Option.getD none (blkOf dgt mid).length) =
    (blkOf dgt mid).length from rfl]
  rw [List.take_length]
  rw [List.take_left pre (blkOf dgt mid ++ (String.toList "\n\n" ++ post))]
  rw [show pre ++ (blkOf dgt mid ++ (String.toList "\n\n" ++ post)) =
    (pre ++ blkOf dgt mid) ++ (String.toList "\n\n" ++ post) from
    (List.append_assoc pre (blkOf dgt mid) _).symm]
  rw [List.drop_left' (show (pre ++ blkOf dgt mid).length =
      pre.length + (13 + dgt.length + mid.length) from by
    simp [List.length_append, blkOf_length])]
  rw [show List.take 2 (String.toList "\n\n" ++ post) =
    String.toList "\n\n" from rfl]
  rw [show (pre ++ blkOf dgt mid) ++ (String.toList "\n\n" ++ post) =
    ((pre ++ blkOf dgt mid) ++ String.toList "\n\n") ++ post from
    (List.append_assoc (pre ++ blkOf dgt mid) (String.toList "\n\n")
      post).symm]
  rw [List.drop_left' (show ((pre ++ blkOf dgt mid) ++
      String.toList "\n\n").length =
      pre.length + (13 + dgt.length + mid.length) + 2 from by
    simp [List.length_append, blkOf_length]
    omega)]
  rfl

theorem titleMatch_shaped (tc : Char) (ttl tail : Str)
    (hw : isPyWS tc = false)
    (hnl : (tc :: ttl).all (fun c => !(c = Char.ofNat 10)) = true) :
    titleMatch (' ' :: ((tc :: ttl) ++ (Char.ofNat 10 :: tail))) =
    some (tc :: ttl, 1 + (tc :: ttl).length + 1) := by
  unfold titleMatch
  have hw1 : leadingWS (' ' :: ((tc :: ttl) ++ (Char.ofNat 10 :: tail)))
      = 1 := by
    rw [leadingWS_cons_ws _ _ (by decide)]
    rw [show (tc :: ttl) ++ (Char.ofNat 10 :: tail) =
      tc :: (ttl ++ (Char.ofNat 10 :: tail)) from rfl]
    rw [leadingWS_cons_not _ _ hw]
  rw [hw1]
  rw [if_pos (by
    simp [List.length_append])]
  rw [show (' ' :: ((tc :: ttl) ++ (Char.ofNat 10 :: tail))).drop 1 =
    (tc :: ttl) ++ (Char.ofNat 10 :: tail) from rfl]
  rw [takeWhile_all_append _ (tc :: ttl) (Char.ofNat 10 :: tail) hnl]
  rw [show (Char.ofNat 10 :: tail).takeWhile
      (fun c => !(c = Char.ofNat 10)) = [] from by
    rw [List.takeWhile_cons, if_neg (by simp)]]
  rw [List.append_nil]
  dsimp only
  rw [if_pos (show 1 + (tc :: ttl).length <
      (' ' :: (tc :: ttl ++ Char.ofNat 10 :: tail)).length from by
    simp [List.length_append]
    omega)]

theorem ideaMatchAt_shaped (dgt : Str) (tc : Char) (ttl tail : Str)
    (h3 : dgt.length = 3) (hdig : dgt.all isPyDigit = true)
    (hw : isPyWS tc = false)
    (hnl : (tc :: ttl).all (fun c => !(c = Char.ofNat 10)) = true) :
    ideaMatchAt (String.toList "- **[idea-" ++ dgt ++
      String.toList "]** " ++ (tc :: ttl) ++ (Char.ofNat 10 :: tail)) =
    some (String.toList "idea-" ++ dgt, tc :: ttl,
      18 + (tc :: ttl).length) := by
  rw [show String.toList "- **[idea-" ++ dgt ++ String.toList "]** " ++
      (tc :: ttl) ++ (Char.ofNat 10 :: tail) =
    '-' :: (' ' :: (String.toList "**[idea-" ++
      (dgt ++ (String.toList "]** " ++
        ((tc :: ttl) ++ (Char.ofNat 10 :: tail)))))) from by
    simp [List.append_assoc]]
  simp only [ideaMatchAt, if_true]
  have hw1 : leadingWS (' ' :: (String.toList "**[idea-" ++
      (dgt ++ (String.toList "]** " ++
        ((tc :: ttl) ++ (Char.ofNat 10 :: tail)))))) = 1 := by
    rw [leadingWS_cons_ws _ _ (by decide)]
    rw [show String.toList "**[idea-" ++
      (dgt ++ (String.toList "]** " ++
        ((tc :: ttl) ++ (Char.ofNat 10 :: tail)))) =
      '*' :: (String.toList "*[idea-" ++
        (dgt ++ (String.toList "]** " ++
          ((tc :: ttl) ++ (Char.ofNat 10 :: tail))))) from rfl]
    rw [leadingWS_cons_not _ _ (by decide)]
  rw [hw1]
  rw [show (' ' :: (String.toList "**[idea-" ++
      (dgt ++ (String.toList "]** " ++
        ((tc :: ttl) ++ (Char.ofNat 10 :: tail)))))).drop 1 =
    String.toList "**[idea-" ++
      (dgt ++ (String.toList "]** " ++
        ((tc :: ttl) ++ (Char.ofNat 10 :: tail)))) from rfl]
  rw [if_pos (isPrefixOf_self_append _ _)]
  rw [List.drop_left' (show (String.toList "**[idea-" : Str).length = 8
    from rfl)]
  rw [List.take_left' h3]
  rw [show String.toList "**[idea-" ++
      (dgt ++ (String.toList "]** " ++
        ((tc :: ttl) ++ (Char.ofNat 10 :: tail)))) =
    (String.toList "**[idea-" ++ dgt) ++
      (String.toList "]**" ++ (' ' :: ((tc :: ttl) ++
        (Char.ofNat 10 :: tail)))) from by
    simp [List.append_assoc]]
  rw [List.drop_left' (show (String.toList "**[idea-" ++ dgt).length = 11
    from by simp [List.length_append, h3])]
  rw [if_pos (by
    simp [h3, hdig, isPrefixOf_self_append])]
  rw [show ((String.toList "**[idea-" ++ dgt) ++
      (String.toList "]**" ++ (' ' :: ((tc :: ttl) ++
        (Char.ofNat 10 :: tail))))).drop 14 =
    ' ' :: ((tc :: ttl) ++ (Char.ofNat 10 :: tail)) from by
    rw [show (String.toList "**[idea-" ++ dgt) ++
        (String.toList "]**" ++ (' ' :: ((tc :: ttl) ++
          (Char.ofNat 10 :: tail)))) =
      ((String.toList "**[idea-" ++ dgt) ++ String.toList "]**") ++
        (' ' :: ((tc :: ttl) ++ (Char.ofNat 10 :: tail))) from
      (List.append_assoc _ _ _).symm]
    exact List.drop_left' (by simp [List.length_append, h3])]
  rw [titleMatch_shaped tc ttl tail hw hnl]
  dsimp only
  rw [show 1 + 1 + 14 + (1 + (tc :: ttl).length + 1) =
    18 + (tc :: ttl).length from by omega]

theorem labelValAt_none_head (l0 c : Char) (L x : Str)
    (cls : Char → Bool) (h : ¬ l0 = c) :
    labelValAt (l0 :: L) cls (c :: x) = none := by
  unfold labelValAt
  rw [if_neg (by simp [List.isPrefixOf, h])]

theorem isPyWS_of_digit (c : Char) (h : isPyDigit c = true) :
    isPyWS c = false := by
  unfold isPyDigit at h
  simp only [Bool.and_eq_true, decide_eq_true_eq] at h
  have hlt : ∀ w : Char, w < '0' → ¬ c = w := by
    intro w hw hc
    subst hc
    exact absurd h.1 (not_le.mpr hw)
  unfold isPyWS
  simp [hlt ' ' (by decide), hlt '\t' (by decide),
    hlt (Char.ofNat 10) (by decide), hlt '\r' (by decide),
    hlt '\x0c' (by decide), hlt '\x0b' (by decide)]

theorem searchLabel_score (sc : Char) (sdt rest : Str)
    (hd : (sc :: sdt).all isPyDigit = true)
    (hrest : rest.takeWhile isPyDigit = []) :
    searchLabel (String.toList "**Score:**") isPyDigit
      (String.toList "  - **Score:** " ++ ((sc :: sdt) ++ rest)) =
    some (sc :: sdt) := by
  have hsc : isPyDigit sc = true := by
    simp only [List.all_cons, Bool.and_eq_true] at hd
    exact hd.1
  unfold searchLabel
  rw [show (String.toList "**Score:**") =
    '*' :: String.toList "*Score:**" from rfl]
  rw [show String.toList "  - **Score:** " ++ ((sc :: sdt) ++ rest) =
    ' ' :: (' ' :: ('-' :: (' ' :: (String.toList "**Score:** " ++
      ((sc :: sdt) ++ rest))))) from rfl]
  rw [scanFirst_cons_none _ _ _
    (labelValAt_none_head '*' ' ' _ _ _ (by decide))]
  rw [scanFirst_cons_none _ _ _
    (labelValAt_none_head '*' ' ' _ _ _ (by decide))]
  rw [scanFirst_cons_none _ _ _
    (labelValAt_none_head '*' '-' _ _ _ (by decide))]
  rw [scanFirst_cons_none _ _ _
    (labelValAt_none_head '*' ' ' _ _ _ (by decide))]
  rw [show (String.toList "**Score:** " ++ ((sc :: sdt) ++ rest)) =
    '*' :: (String.toList "*Score:** " ++ ((sc :: sdt) ++ rest))
    from rfl]
  have hhit : labelValAt ('*' :: String.toList "*Score:**") isPyDigit
      ('*' :: (String.toList "*Score:** " ++ ((sc :: sdt) ++ rest))) =
      some (sc :: sdt) := by
    rw [show ('*' :: (String.toList "*Score:** " ++
        ((sc :: sdt) ++ rest))) =
      String.toList "**Score:** " ++ ((sc :: sdt) ++ rest) from rfl]
    rw [show ('*' :: String.toList "*Score:**") =
      String.toList "**Score:**" from rfl]
    unfold labelValAt
    rw [if_pos (show (String.toList "**Score:**").isPrefixOf
        (String.toList "**Score:** " ++ ((sc :: sdt) ++ rest)) = true
      from by
      rw [show String.toList "**Score:** " ++ ((sc :: sdt) ++ rest) =
        String.toList "**Score:**" ++ (' ' :: ((sc :: sdt) ++ rest))
        from rfl]
      exact isPrefixOf_self_append _ _)]
    rw [show (String.toList "**Score:** " ++
      ((sc :: sdt) ++ rest)).drop (String.toList "**Score:**").length =
      ' ' :: ((sc :: sdt) ++ rest) from rfl]
    dsimp only
    rw [leadingWS_cons_ws _ _ (by decide)]
    rw [show (sc :: sdt) ++ rest = sc :: (sdt ++ rest) from rfl]
    rw [leadingWS_cons_not _ _ (isPyWS_of_digit sc hsc)]
    rw [show (' ' :: (sc :: (sdt ++ rest))).drop (1 + 0) =
      sc :: (sdt ++ rest) from rfl]
    rw [show sc :: (sdt ++ rest) = (sc :: sdt) ++ rest from rfl]
    rw [takeWhile_all_append _ _ _ hd, hrest, List.append_nil]
    rw [if_neg (by simp)]
  rw [scanFirst_cons_some _ _ _ _ hhit]
  simp

theorem parse_head_shaped (pre dgt : Str) (tc : Char) (ttl : Str)
    (sc : Char) (sdt extra post2 today : Str)
    (h1 : pre.all (fun c => !(c = '-')) = true)
    (h3 : dgt.length = 3) (hdig : dgt.all isPyDigit = true)
    (hw : isPyWS tc = false)
    (hnl : (tc :: ttl).all (fun c => !(c = Char.ofNat 10)) = true)
    (hsd : (sc :: sdt).all isPyDigit = true)
    (hm : noHitB parseBndAt (String.toList "  - **Score:** " ++
      ((sc :: sdt) ++ extra)) (String.toList "\n\n## " ++ post2) = true)
    (hex : (extra ++ [Char.ofNat 10]).takeWhile isPyDigit = []) :
    ∃ rec rest, parse_backlog_file (some (pre ++
        (String.toList "- **[idea-" ++ dgt ++ String.toList "]** " ++
          (tc :: ttl) ++ (Char.ofNat 10 ::
            ((String.toList "  - **Score:** " ++ ((sc :: sdt) ++ extra))
              ++ (String.toList "\n\n## " ++ post2))))))
        today = rec :: rest ∧
      rec.id = String.toList "idea-" ++ dgt ∧
      rec.title = pyStrip (tc :: ttl) ∧
      rec.score = digitsVal (sc :: sdt) ∧
      rec.status = (if strContains pre
          (String.toList "Archive (Implemented)")
        then String.toList "implemented"
        else String.toList "active") := by
  unfold parse_backlog_file
  simp only [parseLoop]
  rw [List.drop_zero]
  have hnohit : noHitB ideaMatchAt pre
      (String.toList "- **[idea-" ++ dgt ++ String.toList "]** " ++
        (tc :: ttl) ++ (Char.ofNat 10 ::
          ((String.toList "  - **Score:** " ++ ((sc :: sdt) ++ extra))
            ++ (String.toList "\n\n## " ++ post2)))) = true :=
    noHitB_headchar _ '-' (fun c t hc => ideaMatchAt_none_of_head c t hc)
      pre _ h1
  rw [scanFirst_append _ pre _ hnohit]
  rw [show String.toList "- **[idea-" ++ dgt ++ String.toList "]** " ++
      (tc :: ttl) ++ (Char.ofNat 10 ::
        ((String.toList "  - **Score:** " ++ ((sc :: sdt) ++ extra))
          ++ (String.toList "\n\n## " ++ post2))) =
    '-' :: (String.toList " **[idea-" ++ dgt ++ String.toList "]** " ++
      (tc :: ttl) ++ (Char.ofNat 10 ::
        ((String.toList "  - **Score:** " ++ ((sc :: sdt) ++ extra))
          ++ (String.toList "\n\n## " ++ post2)))) from rfl]
  rw [scanFirst_cons_some _ _ _ _ (show ideaMatchAt _ =
      some (String.toList "idea-" ++ dgt, tc :: ttl,
        18 + (tc :: ttl).length) from by
    rw [show ('-' :: (String.toList " **[idea-" ++ dgt ++
        String.toList "]** " ++ (tc :: ttl) ++ (Char.ofNat 10 ::
          ((String.toList "  - **Score:** " ++ ((sc :: sdt) ++ extra))
            ++ (String.toList "\n\n## " ++ post2))))) =
      String.toList "- **[idea-" ++ dgt ++ String.toList "]** " ++
        (tc :: ttl) ++ (Char.ofNat 10 ::
          ((String.toList "  - **Score:** " ++ ((sc :: sdt) ++ extra))
            ++ (String.toList "\n\n## " ++ post2))) from rfl]
    exact ideaMatchAt_shaped dgt tc ttl _ h3 hdig hw hnl)]
  rw [show Option.map
      (fun p : Nat × Str × Str × Nat => (p.1 + pre.length, p.2))
      (some (0, String.toList "idea-" ++ dgt, tc :: ttl,
        18 + (tc :: ttl).length)) =
    some (0 + pre.length, String.toList "idea-" ++ dgt, tc :: ttl,
      18 + (tc :: ttl).length) from rfl]
  dsimp only
  rw [show pre ++ '-' :: (String.toList " **[idea-" ++ dgt ++
      String.toList "]** " ++ (tc :: ttl) ++ Char.ofNat 10 ::
        ((String.toList "  - **Score:** " ++ ((sc :: sdt) ++ extra)) ++
          (String.toList "

## " ++ post2))) =
    (pre ++ ('-' :: (String.toList " **[idea-" ++ dgt ++
      String.toList "]** " ++ (tc :: ttl) ++ [Char.ofNat 10]))) ++
      ((String.toList "  - **Score:** " ++ ((sc :: sdt) ++ extra)) ++
        (String.toList "

## " ++ post2)) from by
    simp [List.append_assoc]]
  rw [List.drop_left' (show (pre ++ ('-' :: (String.toList " **[idea-"
      ++ dgt ++ String.toList "]** " ++ (tc :: ttl) ++
      [Char.ofNat 10]))).length =
      0 + (0 + pre.length) + (18 + (tc :: ttl).length) from by
    simp [List.length_append, h3]
    omega)]
  rw [scanFirst_append _ _ _ hm]
  rw [show String.toList "

## " ++ post2 =
    Char.ofNat 10 :: (String.toList "
## " ++ post2) from rfl]
  rw [scanFirst_cons_none _ _ _ (show parseBndAt (Char.ofNat 10 ::
    (String.toList "
## " ++ post2)) = none from rfl)]
  rw [show String.toList "
## " ++ post2 =
    Char.ofNat 10 :: (String.toList "## " ++ post2) from rfl]
  rw [scanFirst_cons_some _ _ _ () (show parseBndAt (Char.ofNat 10 ::
    (String.toList "## " ++ post2)) = some () from rfl)]
  rw [show Option.map (fun p : Nat × Unit =>
      (p.1 + (String.toList "  - **Score:** " ++
        ((sc :: sdt) ++ extra)).length, p.2))
      (Option.map (fun p : Nat × Unit => (p.1 + 1, p.2)) (some (0, ())))
    = some (0 + 1 + (String.toList "  - **Score:** " ++
        ((sc :: sdt) ++ extra)).length, ()) from rfl]
  dsimp only
  rw [show 0 + 1 + (String.toList "  - **Score:** " ++
      ((sc :: sdt) ++ extra)).length =
    (String.toList "  - **Score:** " ++
      ((sc :: sdt) ++ extra)).length + 1 from by omega]
  rw [List.take_append 1]
  rw [show List.take 1 (Char.ofNat 10 :: (Char.ofNat 10 ::
    (String.toList "## " ++ post2))) = [Char.ofNat 10] from rfl]
  rw [show (String.toList "  - **Score:** " ++ ((sc :: sdt) ++ extra))
      ++ [Char.ofNat 10] =
    String.toList "  - **Score:** " ++
      ((sc :: sdt) ++ (extra ++ [Char.ofNat 10])) from by
    simp [List.append_assoc]]
  rw [searchLabel_score sc sdt (extra ++ [Char.ofNat 10]) hsd hex]
  refine ⟨_, _, rfl, rfl, rfl, rfl, ?_⟩
  dsimp only
  simp only [Nat.zero_add]
  rw [List.append_assoc pre, List.take_left]

/-- C1: enrichment is append-only.  For a backlog document consisting of a
dash-free preamble, a single idea block (id `idea-`dgt, title, score line)
and a section boundary, enriching twice with (E1,S1) then (E2,S2) succeeds
both times; the second document extends the first by appending the E2
annotation line after the E1 annotation line inside the idea block with
everything else unchanged (so E1 appears before E2 and no annotation is
overwritten), and parsing afterwards still returns the idea with its id,
title and score unchanged. -/
theorem claim_C1_append_only (pre dgt : Str) (tc : Char) (ttl : Str)
    (sc : Char) (sdt post2 E1 S1 d1 E2 S2 d2 today : Str)
    (mid1 doc1 doc2 doc3 : Str)
    (hmid : mid1 = ' ' :: ((tc :: ttl) ++
      (String.toList "\n  - **Score:** " ++ (sc :: sdt))))
    (hdoc : doc1 = pre ++ (blkOf dgt mid1 ++
      (String.toList "\n\n" ++ (String.toList "## " ++ post2))))
    (hdoc2 : doc2 = pre ++ (blkOf dgt (mid1 ++ enrichLine d1 E1 S1) ++
      (String.toList "\n\n" ++ (String.toList "## " ++ post2))))
    (hdoc3 : doc3 = pre ++
      (blkOf dgt ((mid1 ++ enrichLine d1 E1 S1) ++ enrichLine d2 E2 S2) ++
        (String.toList "\n\n" ++ (String.toList "## " ++ post2))))
    (hpre : pre.all (fun c => !(c = '-')) = true)
    (h3 : dgt.length = 3) (hdig : dgt.all isPyDigit = true)
    (hw : isPyWS tc = false)
    (hnl : (tc :: ttl).all (fun c => !(c = Char.ofNat 10)) = true)
    (hsd : (sc :: sdt).all isPyDigit = true)
    (hnb1 : noHitB boundaryTok mid1
      (String.toList "\n\n" ++ (String.toList "## " ++ post2)) = true)
    (hnobell : strContains (blkOf dgt mid1)
      (String.toList "🔔 Why Now?") = false)
    (hnb2 : noHitB boundaryTok (mid1 ++ enrichLine d1 E1 S1)
      (String.toList "\n\n" ++ (String.toList "## " ++ post2)) = true)
    (hrf2 : rfindSub (blkOf dgt (mid1 ++ enrichLine d1 E1 S1))
      (String.toList "\n  - **🔔") = some ((blkOf dgt mid1).length))
    (hfc2 : findCharFrom (blkOf dgt (mid1 ++ enrichLine d1 E1 S1))
      (Char.ofNat 10) ((blkOf dgt mid1).length + 1) = none)
    (hm1 : noHitB parseBndAt
      (String.toList "  - **Score:** " ++ (sc :: sdt))
      (String.toList "\n\n## " ++ post2) = true)
    (hm3 : noHitB parseBndAt
      (String.toList "  - **Score:** " ++ ((sc :: sdt) ++
        (enrichLine d1 E1 S1 ++ enrichLine d2 E2 S2)))
      (String.toList "\n\n## " ++ post2) = true) :
    enrich_idea_in_backlog (some doc1) (String.toList "idea-" ++ dgt)
      E1 S1 d1 = (⟨true, []⟩, some doc2) ∧
    enrich_idea_in_backlog (some doc2) (String.toList "idea-" ++ dgt)
      E2 S2 d2 = (⟨true, []⟩, some doc3) ∧
    ∃ rec1 rec3,
      (parse_backlog_file (some doc1) today).head? = some rec1 ∧
      (parse_backlog_file (some doc3) today).head? = some rec3 ∧
      rec1.id = String.toList "idea-" ++ dgt ∧
      rec3.id = rec1.id ∧ rec3.title = rec1.title ∧
      rec3.score = rec1.score := by
  have hbell2 : strContains (blkOf dgt (mid1 ++ enrichLine d1 E1 S1))
      (String.toList "🔔 Why Now?") = true := by
    rw [← blkOf_append]
    apply strContains_append_right
    simp only [enrichLine]
    apply strContains_append_left
    apply strContains_append_left
    apply strContains_append_left
    apply strContains_append_left
    apply strContains_append_left
    apply strContains_append_left
    decide
  have hd2 : pre ++ (blkOf dgt mid1 ++ enrichLine d1 E1 S1) ++
      String.toList "\n\n" ++ (String.toList "## " ++ post2) = doc2 := by
    rw [hdoc2, blkOf_append]
    simp [List.append_assoc]
  have hd3 : pre ++
      (blkOf dgt (mid1 ++ enrichLine d1 E1 S1) ++ enrichLine d2 E2 S2) ++
      String.toList "\n\n" ++ (String.toList "## " ++ post2) = doc3 := by
    rw [hdoc3, blkOf_append]
    simp [List.append_assoc]
  refine ⟨?_, ?_, ?_⟩
  · rw [hdoc]
    rw [enrich_shaped_first pre dgt mid1 (String.toList "## " ++ post2)
      E1 S1 d1 hpre hnb1 hnobell]
    rw [hd2]
  · rw [hdoc2]
    rw [enrich_shaped_second pre dgt (mid1 ++ enrichLine d1 E1 S1)
      (String.toList "## " ++ post2) E2 S2 d2 ((blkOf dgt mid1).length)
      hpre hnb2 hbell2 hrf2 hfc2]
    rw [hd3]
  · have hex3 : ((enrichLine d1 E1 S1 ++ enrichLine d2 E2 S2) ++
        [Char.ofNat 10]).takeWhile isPyDigit = [] := by
      rw [show (enrichLine d1 E1 S1 ++ enrichLine d2 E2 S2) ++
          [Char.ofNat 10] =
        Char.ofNat 10 :: ((String.toList "  - **🔔 Why Now? (AI-enriched "
          ++ (d1 ++ (String.toList "):** " ++ (E1 ++
            (String.toList " *(Source: " ++ (S1 ++
              String.toList ")*")))))) ++
          (enrichLine d2 E2 S2 ++ [Char.ofNat 10])) from by
        simp only [enrichLine, List.append_assoc]
        rfl]
      rw [List.takeWhile_cons]
      simp only [show isPyDigit (Char.ofNat 10) = false from rfl,
        Bool.false_eq_true, if_false]
    obtain ⟨rec1, rest1, hh1, hid1, ht1, hs1, -⟩ :=
      parse_head_shaped pre dgt tc ttl sc sdt [] post2 today hpre h3
        hdig hw hnl hsd (by rw [List.append_nil]; exact hm1) (by decide)
    obtain ⟨rec3, rest3, hh3, hid3, ht3, hs3, -⟩ :=
      parse_head_shaped pre dgt tc ttl sc sdt
        (enrichLine d1 E1 S1 ++ enrichLine d2 E2 S2) post2 today hpre h3
        hdig hw hnl hsd hm3 hex3
    have hshape1 : pre ++
        (String.toList "- **[idea-" ++ dgt ++ String.toList "]** " ++
          (tc :: ttl) ++ (Char.ofNat 10 ::
            ((String.toList "  - **Score:** " ++ ((sc :: sdt) ++ []))
              ++ (String.toList "\n\n## " ++ post2)))) = doc1 := by
      rw [hdoc, hmid]
      simp only [blkOf, List.append_assoc, List.append_nil,
        List.cons_append]
      rfl
    have hshape3 : pre ++
        (String.toList "- **[idea-" ++ dgt ++ String.toList "]** " ++
          (tc :: ttl) ++ (Char.ofNat 10 ::
            ((String.toList "  - **Score:** " ++ ((sc :: sdt) ++
              (enrichLine d1 E1 S1 ++ enrichLine d2 E2 S2)))
              ++ (String.toList "\n\n## " ++ post2)))) = doc3 := by
      rw [hdoc3, hmid]
      simp only [blkOf, List.append_assoc, List.cons_append]
      rfl
    rw [hshape1] at hh1
    rw [hshape3] at hh3
    exact ⟨rec1, rec3, by rw [hh1]; rfl, by rw [hh3]; rfl, hid1,
      hid3.trans hid1.symm, ht3.trans ht1.symm, hs3.trans hs1.symm⟩

set_option maxRecDepth 400000 in
/-- Witness for C1 at a concrete one-idea backlog document. -/
theorem claim_C1_witness :
    enrich_idea_in_backlog
      (some (String.toList "# Backlog\n\n" ++
      (blkOf (String.toList "007")
        (' ' :: (('G' :: String.toList "reat idea") ++
      (String.toList "\n  - **Score:** " ++ ('8' :: String.toList "5")))) ++
      (String.toList "\n\n" ++ (String.toList "## " ++ String.toList "Archive\n")))))
      (String.toList "idea-" ++ String.toList "007")
      (String.toList "first evidence") (String.toList "srcA")
      (String.toList "2026-01-02") =
      (⟨true, []⟩, some (String.toList "# Backlog\n\n" ++
      (blkOf (String.toList "007")
        ((' ' :: (('G' :: String.toList "reat idea") ++
      (String.toList "\n  - **Score:** " ++ ('8' :: String.toList "5")))) ++
      enrichLine (String.toList "2026-01-02")
      (String.toList "first evidence") (String.toList "srcA")) ++
      (String.toList "\n\n" ++ (String.toList "## " ++ String.toList "Archive\n"))))) ∧
    enrich_idea_in_backlog
      (some (String.toList "# Backlog\n\n" ++
      (blkOf (String.toList "007")
        ((' ' :: (('G' :: String.toList "reat idea") ++
      (String.toList "\n  - **Score:** " ++ ('8' :: String.toList "5")))) ++
      enrichLine (String.toList "2026-01-02")
      (String.toList "first evidence") (String.toList "srcA")) ++
      (String.toList "\n\n" ++ (String.toList "## " ++ String.toList "Archive\n")))))
      (String.toList "idea-" ++ String.toList "007")
      (String.toList "second evidence") (String.toList "srcB")
      (String.toList "2026-01-03") =
      (⟨true, []⟩, some (String.toList "# Backlog\n\n" ++
      (blkOf (String.toList "007")
        (((' ' :: (('G' :: String.toList "reat idea") ++
      (String.toList "\n  - **Score:** " ++ ('8' :: String.toList "5")))) ++
      enrichLine (String.toList "2026-01-02")
      (String.toList "first evidence") (String.toList "srcA")) ++
      enrichLine (String.toList "2026-01-03")
      (String.toList "second evidence") (String.toList "srcB")) ++
      (String.toList "\n\n" ++ (String.toList "## " ++ String.toList "Archive\n"))))) ∧
    ∃ rec1 rec3,
      (parse_backlog_file
        (some (String.toList "# Backlog\n\n" ++
      (blkOf (String.toList "007")
        (' ' :: (('G' :: String.toList "reat idea") ++
      (String.toList "\n  - **Score:** " ++ ('8' :: String.toList "5")))) ++
      (String.toList "\n\n" ++ (String.toList "## " ++ String.toList "Archive\n")))))
        (String.toList "2026-01-04")).head? = some rec1 ∧
      (parse_backlog_file
        (some (String.toList "# Backlog\n\n" ++
      (blkOf (String.toList "007")
        (((' ' :: (('G' :: String.toList "reat idea") ++
      (String.toList "\n  - **Score:** " ++ ('8' :: String.toList "5")))) ++
      enrichLine (String.toList "2026-01-02")
      (String.toList "first evidence") (String.toList "srcA")) ++
      enrichLine (String.toList "2026-01-03")
      (String.toList "second evidence") (String.toList "srcB")) ++
      (String.toList "\n\n" ++ (String.toList "## " ++ String.toList "Archive\n")))))
        (String.toList "2026-01-04")).head? = some rec3 ∧
      rec1.id = String.toList "idea-" ++ String.toList "007" ∧
      rec3.id = rec1.id ∧ rec3.title = rec1.title ∧
      rec3.score = rec1.score := by
  exact claim_C1_append_only (String.toList "# Backlog\n\n")
    (String.toList "007") 'G' (String.toList "reat idea") '8'
    (String.toList "5") (String.toList "Archive\n")
    (String.toList "first evidence") (String.toList "srcA")
    (String.toList "2026-01-02") (String.toList "second evidence")
    (String.toList "srcB") (String.toList "2026-01-03")
    (String.toList "2026-01-04")
    (' ' :: (('G' :: String.toList "reat idea") ++
      (String.toList "\n  - **Score:** " ++ ('8' :: String.toList "5"))))
    (String.toList "# Backlog\n\n" ++
      (blkOf (String.toList "007")
        (' ' :: (('G' :: String.toList "reat idea") ++
      (String.toList "\n  - **Score:** " ++ ('8' :: String.toList "5")))) ++
      (String.toList "\n\n" ++ (String.toList "## " ++ String.toList "Archive\n"))))
    (String.toList "# Backlog\n\n" ++
      (blkOf (String.toList "007")
        ((' ' :: (('G' :: String.toList "reat idea") ++
      (String.toList "\n  - **Score:** " ++ ('8' :: String.toList "5")))) ++
      enrichLine (String.toList "2026-01-02")
      (String.toList "first evidence") (String.toList "srcA")) ++
      (String.toList "\n\n" ++ (String.toList "## " ++ String.toList "Archive\n"))))
    (String.toList "# Backlog\n\n" ++
      (blkOf (String.toList "007")
        (((' ' :: (('G' :: String.toList "reat idea") ++
      (String.toList "\n  - **Score:** " ++ ('8' :: String.toList "5")))) ++
      enrichLine (String.toList "2026-01-02")
      (String.toList "first evidence") (String.toList "srcA")) ++
      enrichLine (String.toList "2026-01-03")
      (String.toList "second evidence") (String.toList "srcB")) ++
      (String.toList "\n\n" ++ (String.toList "## " ++ String.toList "Archive\n"))))
    rfl rfl rfl rfl (by decide) (by decide) (by decide) (by decide)
    (by decide) (by decide) (by decide) (by decide) (by decide)
    (by decide) (by decide) (by decide) (by decide)

/-! ## `mark_idea_implemented` -/

/-- The lookahead `(?=\n-\s*\*\*\[idea-|\n###|\n##|$)` of the
idea-block pattern of `mark_idea_implemented`; `$` without
`re.MULTILINE` matches at the end of the string or just before a final
newline. -/
def miBndB (s : Str) : Bool :=
  s.isEmpty || s = [Char.ofNat 10] ||
  (match s with
   | c :: r =>
     c = Char.ofNat 10 &&
       ((match r with
         | c2 :: r2 => c2 = '-' &&
             (String.toList "**[idea-").isPrefixOf (r2.drop (leadingWS r2))
         | [] => false) ||
        (String.toList "###").isPrefixOf r ||
        (String.toList "##").isPrefixOf r)
   | [] => false)

/-- The lookahead as a match function for `scanFirst`. -/
def miBndAt (s : Str) : Option Unit := if miBndB s then some () else none

/-- The idea-block pattern
`-\s*\*\*\[ID\]\*\*.*?(?=\n-\s*\*\*\[idea-|\n###|\n##|$)` (DOTALL)
matched at the start of `s`: the marker, then the lazy `.*?` runs to the
earliest lookahead position (the empty suffix always qualifies).
Returns the match length. -/
def miMatchAt (id : Str) (s : Str) : Option Nat :=
  match markerAt id s with
  | none => none
  | some mlen =>
    match scanFirst miBndAt (s.drop mlen) with
    | none => none
    | some (q, _) => some (mlen + q)

/-- Closing half `.*?\*\s*\n` of the archive placeholder after its
opening `*`: the lazy `.*?` (no DOTALL — it cannot cross a newline)
extends to each following `*` in turn until `\s*\n` matches after it.
Returns the consumed length. -/
def miPlacGo : Nat → Str → Option Nat
  | 0, _ => none
  | fuel + 1, r =>
    match r with
    | [] => none
    | c :: t =>
      if c = Char.ofNat 10 then none
      else if c = '*' then
        match wsThenNl t with
        | some k => some (1 + k)
        | none => (miPlacGo fuel t).map (fun k => 1 + k)
      else (miPlacGo fuel t).map (fun k => 1 + k)

/-- The optional archive placeholder `(?:\s*\*.*?\*\s*\n)?` matched at
the start of `s`; `none` when the group cannot match. -/
def miPlacAt (s : Str) : Option Nat :=
  let w := leadingWS s
  match s.drop w with
  | c :: t =>
    if c = '*' then (miPlacGo (t.length + 1) t).map (fun k => w + 1 + k)
    else none
  | [] => none

/-- The archive-section pattern
`(## Archive \(Implemented\)\s*\n(?:\s*\*.*?\*\s*\n)?)` matched at the
start of `s`: the heading literal, whitespace up to and including its
last newline, then the optional italic placeholder line.  Returns the
match length. -/
def archAt (s : Str) : Option Nat :=
  if (String.toList "## Archive (Implemented)").isPrefixOf s then
    match wsThenNl (s.drop 24) with
    | none => none
    | some w => some (24 + w + ((miPlacAt ((s.drop 24).drop w)).getD 0))
  else none

/-- `mark_idea_implemented(idea_id, implementation_date)`: parse, reject
an unknown or already-implemented id, cut the idea block out of the
document, and insert an archive entry line after the Archive heading
(appending a fresh Archive section when the heading is absent).  `today`
stands for `datetime.now().strftime('%Y-%m-%d')`; Python's
`implementation_date or ...` also replaces an empty string. -/
def mark_idea_implemented (file : Option Str)
    (idea_id : Str) (implementation_date : Option Str) (today : Str) :
    OpResult × Option Str :=
  match file with
  | none =>
    (⟨false, String.toList "Dex backlog file does not exist"⟩, none)
  | some content =>
    let ideas := parse_backlog_file (some content) today
    match ideas.find? (fun i => decide (i.id = idea_id)) with
    | none =>
      (⟨false, String.toList "Idea " ++ idea_id ++
        String.toList " not found"⟩, some content)
    | some idea =>
      if idea.status = String.toList "implemented" then
        (⟨false, String.toList "Idea " ++ idea_id ++
          String.toList " is already marked as implemented"⟩,
         some content)
      else
        match scanFirst (miMatchAt idea_id) content with
        | none =>
          (⟨false, String.toList "Could not find idea block for " ++
            idea_id⟩, some content)
        | some (st, len) =>
          let new_content := content.take st ++ content.drop (st + len)
          let impl_date :=
            match implementation_date with
            | some d => if d.isEmpty then today else d
            | none => today
          let archive_entry :=
            String.toList "- **[" ++ idea_id ++ String.toList "]** " ++
            idea.title ++ String.toList " - *Implemented: " ++
            impl_date ++ String.toList "*" ++ [Char.ofNat 10]
          match scanFirst archAt new_content with
          | some (q, k) =>
            (⟨true, []⟩, some (new_content.take (q + k) ++
              Char.ofNat 10 :: (archive_entry ++
                new_content.drop (q + k))))
          | none =>
            (⟨true, []⟩, some (new_content ++
              String.toList "\n## Archive (Implemented)\n\n" ++
              archive_entry))

theorem miMatchAt_none_of_head (id : Str) (c : Char) (t : Str)
    (h : ¬ c = '-') : miMatchAt id (c :: t) = none := by
  unfold miMatchAt
  rw [markerAt_none_of_head id c t h]

theorem archAt_none_of_head (c : Char) (t : Str)
    (h : ¬ c = '#') : archAt (c :: t) = none := by
  unfold archAt
  rw [if_neg (by
    rw [show String.toList "## Archive (Implemented)" =
      '#' :: String.toList "# Archive (Implemented)" from rfl]
    simp only [List.isPrefixOf, Bool.and_eq_true, beq_iff_eq]
    intro hx
    exact h hx.1.symm)]

theorem miMatchAt_shaped (dgt mid tail2 : Str) (q : Nat)
    (hnbm : noHitB miBndAt mid tail2 = true)
    (hsc : scanFirst miBndAt tail2 = some (q, ())) :
    miMatchAt (String.toList "idea-" ++ dgt) (blkOf dgt mid ++ tail2) =
      some (13 + dgt.length + (q + mid.length)) := by
  unfold miMatchAt
  rw [show blkOf dgt mid ++ tail2 =
    String.toList "- **[idea-" ++ dgt ++ String.toList "]**" ++
      (mid ++ tail2) from by
    unfold blkOf
    simp [List.append_assoc]]
  rw [markerAt_shaped dgt (mid ++ tail2)]
  dsimp only
  have hdrop : (String.toList "- **[idea-" ++ dgt ++
      String.toList "]**" ++ (mid ++ tail2)).drop (13 + dgt.length) =
      mid ++ tail2 := by
    apply List.drop_left'
    simp [List.length_append]
    omega
  rw [hdrop]
  rw [scanFirst_append miBndAt mid tail2 hnbm, hsc]
  rfl

theorem parse_arch_head (pre2 dgt : Str) (tc : Char) (ttl today : Str)
    (h1 : pre2.all (fun c => !(c = '-')) = true)
    (h3 : dgt.length = 3) (hdig : dgt.all isPyDigit = true)
    (hw : isPyWS tc = false)
    (hnl : (tc :: ttl).all (fun c => !(c = Char.ofNat 10)) = true) :
    ∃ rec rest, parse_backlog_file (some (pre2 ++
        (String.toList "- **[idea-" ++ dgt ++ String.toList "]** " ++
          (tc :: ttl) ++ [Char.ofNat 10]))) today = rec :: rest ∧
      rec.id = String.toList "idea-" ++ dgt ∧
      rec.status = (if strContains pre2
          (String.toList "Archive (Implemented)")
        then String.toList "implemented"
        else String.toList "active") := by
  unfold parse_backlog_file
  simp only [parseLoop]
  rw [List.drop_zero]
  have hnohit : noHitB ideaMatchAt pre2
      (String.toList "- **[idea-" ++ dgt ++ String.toList "]** " ++
        (tc :: ttl) ++ [Char.ofNat 10]) = true :=
    noHitB_headchar _ '-' (fun c t hc => ideaMatchAt_none_of_head c t hc)
      pre2 _ h1
  rw [scanFirst_append _ pre2 _ hnohit]
  rw [show String.toList "- **[idea-" ++ dgt ++ String.toList "]** " ++
      (tc :: ttl) ++ [Char.ofNat 10] =
    '-' :: (String.toList " **[idea-" ++ dgt ++ String.toList "]** " ++
      (tc :: ttl) ++ [Char.ofNat 10]) from rfl]
  rw [scanFirst_cons_some _ _ _ _ (show ideaMatchAt _ =
      some (String.toList "idea-" ++ dgt, tc :: ttl,
        18 + (tc :: ttl).length) from by
    rw [show ('-' :: (String.toList " **[idea-" ++ dgt ++
        String.toList "]** " ++ (tc :: ttl) ++ [Char.ofNat 10])) =
      String.toList "- **[idea-" ++ dgt ++ String.toList "]** " ++
        (tc :: ttl) ++ (Char.ofNat 10 :: []) from rfl]
    exact ideaMatchAt_shaped dgt tc ttl [] h3 hdig hw hnl)]
  rw [show Option.map
      (fun p : Nat × Str × Str × Nat => (p.1 + pre2.length, p.2))
      (some (0, String.toList "idea-" ++ dgt, tc :: ttl,
        18 + (tc :: ttl).length)) =
    some (0 + pre2.length, String.toList "idea-" ++ dgt, tc :: ttl,
      18 + (tc :: ttl).length) from rfl]
  dsimp only
  rw [show List.drop (0 + (0 + pre2.length) + (18 + (tc :: ttl).length))
      (pre2 ++ '-' :: (String.toList " **[idea-" ++ dgt ++
        String.toList "]** " ++ (tc :: ttl) ++ [Char.ofNat 10])) =
    ([] : Str) from by
    apply List.drop_eq_nil_of_le
    simp [List.length_append, h3]
    omega]
  rw [show scanFirst parseBndAt ([] : Str) = none from rfl]
  dsimp only
  refine ⟨_, _, rfl, rfl, ?_⟩
  dsimp only
  simp only [Nat.zero_add]
  rw [List.take_left]

/-- C5: idempotence of mark-implemented.  For a backlog document made of
a preamble free of entry markers and section headings, a single active
idea entry (id `idea-`dgt, title, score line) and an empty Archive
(Implemented) section, the first `mark_idea_implemented` call succeeds
and moves the entry to a single archive line under the Archive heading
(the resulting document contains the id exactly once, after the
heading), and the second call on the result fails with the
already-marked-as-implemented error, leaving the document unchanged. -/
theorem claim_C5_mark_idempotent (pre dgt : Str) (tc : Char) (ttl : Str)
    (sc : Char) (sdt : Str) (idate : Option Str) (today : Str)
    (impl mid doc1 doc2 : Str)
    (himpl_eq : impl = (match idate with
      | some d => if d.isEmpty then today else d
      | none => today))
    (hmid : mid = ' ' :: ((tc :: ttl) ++
      (String.toList "\n  - **Score:** " ++ (sc :: sdt))))
    (hdoc : doc1 = pre ++ (blkOf dgt mid ++
      String.toList "\n\n## Archive (Implemented)\n"))
    (hdoc2 : doc2 = pre ++ (String.toList "\n## Archive (Implemented)\n"
      ++ (Char.ofNat 10 :: (String.toList "- **[idea-" ++ dgt ++
        String.toList "]** " ++ ((tc :: ttl) ++
          (String.toList " - *Implemented: " ++
            (impl ++ String.toList "*\n")))))))
    (hpre1 : pre.all (fun c => !(c = '-')) = true)
    (hpre2 : pre.all (fun c => !(c = '#')) = true)
    (hnA : strContains pre (String.toList "Archive (Implemented)") =
      false)
    (h3 : dgt.length = 3) (hdig : dgt.all isPyDigit = true)
    (hw : isPyWS tc = false)
    (hnl : (tc :: ttl).all (fun c => !(c = Char.ofNat 10)) = true)
    (hstrip : pyStrip (tc :: ttl) = tc :: ttl)
    (hsd : (sc :: sdt).all isPyDigit = true)
    (himplnl : impl.all (fun c => !(c = Char.ofNat 10)) = true)
    (hnbm : noHitB miBndAt mid
      (String.toList "\n\n## Archive (Implemented)\n") = true)
    (hm1 : noHitB parseBndAt
      (String.toList "  - **Score:** " ++ (sc :: sdt))
      (String.toList "\n\n## " ++
        String.toList "Archive (Implemented)\n") = true) :
    mark_idea_implemented (some doc1) (String.toList "idea-" ++ dgt)
      idate today = (⟨true, []⟩, some doc2) ∧
    mark_idea_implemented (some doc2) (String.toList "idea-" ++ dgt)
      idate today =
    (⟨false, String.toList "Idea " ++ (String.toList "idea-" ++ dgt) ++
      String.toList " is already marked as implemented"⟩, some doc2) := by
  obtain ⟨rec1, rest1, hp1, hid1, ht1, hs1, hst1⟩ :=
    parse_head_shaped pre dgt tc ttl sc sdt []
      (String.toList "Archive (Implemented)\n") today hpre1 h3 hdig hw
      hnl hsd (by rw [List.append_nil]; exact hm1) (by decide)
  have hshape1 : pre ++
      (String.toList "- **[idea-" ++ dgt ++ String.toList "]** " ++
        (tc :: ttl) ++ (Char.ofNat 10 ::
          ((String.toList "  - **Score:** " ++ ((sc :: sdt) ++ []))
            ++ (String.toList "\n\n## " ++
              String.toList "Archive (Implemented)\n")))) = doc1 := by
    rw [hdoc, hmid]
    simp only [blkOf, List.append_assoc, List.append_nil,
      List.cons_append]
    rfl
  rw [hshape1] at hp1
  have hst1a : rec1.status = String.toList "active" := by
    rw [hst1, if_neg]
    rw [hnA]
    simp
  have hms : scanFirst (miMatchAt (String.toList "idea-" ++ dgt)) doc1 =
      some (pre.length, 13 + dgt.length + (1 + mid.length)) := by
    rw [hdoc]
    rw [scanFirst_append _ pre _ (noHitB_headchar _ '-'
      (fun c t hc => miMatchAt_none_of_head _ c t hc) pre _ hpre1)]
    rw [show blkOf dgt mid ++
        String.toList "\n\n## Archive (Implemented)\n" =
      '-' :: (String.toList " **[idea-" ++ dgt ++ String.toList "]**" ++
        mid ++ String.toList "\n\n## Archive (Implemented)\n") from rfl]
    rw [scanFirst_cons_some _ _ _ _ (show miMatchAt _ _ =
        some (13 + dgt.length + (1 + mid.length)) from by
      rw [show ('-' :: (String.toList " **[idea-" ++ dgt ++
          String.toList "]**" ++ mid ++
          String.toList "\n\n## Archive (Implemented)\n")) =
        blkOf dgt mid ++ String.toList "\n\n## Archive (Implemented)\n"
        from rfl]
      exact miMatchAt_shaped dgt mid _ 1 hnbm (by decide))]
    simp
  constructor
  · simp only [mark_idea_implemented]
    rw [hp1]
    rw [show List.find?
        (fun i => decide (i.id = String.toList "idea-" ++ dgt))
        (rec1 :: rest1) = some rec1 from by
      simp [List.find?_cons, hid1]]
    dsimp only
    rw [hst1a, if_neg (by decide)]
    rw [hms]
    dsimp only
    rw [← himpl_eq]
    rw [ht1, hstrip]
    rw [hdoc]
    rw [List.take_left pre (blkOf dgt mid ++
      String.toList "\n\n## Archive (Implemented)\n")]
    rw [show pre ++ (blkOf dgt mid ++
        String.toList "\n\n## Archive (Implemented)\n") =
      (pre ++ (blkOf dgt mid ++ [Char.ofNat 10])) ++
        String.toList "\n## Archive (Implemented)\n" from by
      simp only [List.append_assoc]
      rfl]
    rw [List.drop_left' (show
        (pre ++ (blkOf dgt mid ++ [Char.ofNat 10])).length =
        pre.length + (13 + dgt.length + (1 + mid.length)) from by
      simp [List.length_append, blkOf_length]
      omega)]
    have harch : scanFirst archAt
        (pre ++ String.toList "\n## Archive (Implemented)\n") =
        some (1 + pre.length, 25) := by
      rw [scanFirst_append _ pre _ (noHitB_headchar _ '#'
        (fun c t hc => archAt_none_of_head c t hc) pre _ hpre2)]
      rw [show scanFirst archAt
        (String.toList "\n## Archive (Implemented)\n") =
        some (1, 25) from by decide]
      rfl
    rw [harch]
    dsimp only
    rw [show (pre ++ String.toList "\n## Archive (Implemented)\n").take
        (1 + pre.length + 25) =
        pre ++ String.toList "\n## Archive (Implemented)\n" from by
      rw [show 1 + pre.length + 25 =
        (pre ++ String.toList "\n## Archive (Implemented)\n").length
        from by
        simp [List.length_append]
        omega]
      exact List.take_length _]
    rw [show (pre ++ String.toList "\n## Archive (Implemented)\n").drop
        (1 + pre.length + 25) = ([] : Str) from by
      apply List.drop_eq_nil_of_le
      simp [List.length_append]
      omega]
    rw [hdoc2]
    simp only [List.append_assoc, List.append_nil]
    rfl
  · have hshape2 : (pre ++ String.toList "\n## Archive (Implemented)\n\n")
        ++ (String.toList "- **[idea-" ++ dgt ++ String.toList "]** " ++
          (tc :: (ttl ++ (String.toList " - *Implemented: " ++
            (impl ++ String.toList "*")))) ++ [Char.ofNat 10]) =
        doc2 := by
      rw [hdoc2]
      simp only [List.append_assoc, List.cons_append]
      rfl
    obtain ⟨rec2, rest2, hp2, hid2, hst2⟩ :=
      parse_arch_head (pre ++ String.toList "\n## Archive (Implemented)\n\n")
        dgt tc (ttl ++ (String.toList " - *Implemented: " ++
          (impl ++ String.toList "*"))) today
        (by rw [List.all_append, hpre1]; decide) h3 hdig hw
        (by
          simp only [List.all_cons, List.all_append,
            Bool.and_eq_true] at hnl ⊢
          exact ⟨hnl.1, hnl.2, by decide, himplnl, by decide⟩)
    rw [hshape2] at hp2
    have hst2a : rec2.status = String.toList "implemented" := by
      rw [hst2, if_pos (strContains_append_right _ _ _ (by decide))]
    simp only [mark_idea_implemented]
    rw [hp2]
    rw [show List.find?
        (fun i => decide (i.id = String.toList "idea-" ++ dgt))
        (rec2 :: rest2) = some rec2 from by
      simp [List.find?_cons, hid2]]
    dsimp only
    rw [hst2a, if_pos rfl]

set_option maxRecDepth 400000 in
/-- Witness for C5 at a concrete one-idea backlog document with an
empty Archive section. -/
theorem claim_C5_witness :
    mark_idea_implemented
      (some (String.toList "Backlog\n\n" ++
      (blkOf (String.toList "007")
        (' ' :: (('G' :: String.toList "reat idea") ++
      (String.toList "\n  - **Score:** " ++ ('8' :: String.toList "5")))) ++
      String.toList "\n\n## Archive (Implemented)\n")))
      (String.toList "idea-" ++ String.toList "007")
      (some (String.toList "2026-02-01")) (String.toList "2026-02-02") =
      (⟨true, []⟩, some (String.toList "Backlog\n\n" ++
      (String.toList "\n## Archive (Implemented)\n" ++
      (Char.ofNat 10 :: (String.toList "- **[idea-" ++ String.toList "007" ++
        String.toList "]** " ++ (('G' :: String.toList "reat idea") ++
          (String.toList " - *Implemented: " ++
            (String.toList "2026-02-01" ++ String.toList "*\n")))))))) ∧
    mark_idea_implemented
      (some (String.toList "Backlog\n\n" ++
      (String.toList "\n## Archive (Implemented)\n" ++
      (Char.ofNat 10 :: (String.toList "- **[idea-" ++ String.toList "007" ++
        String.toList "]** " ++ (('G' :: String.toList "reat idea") ++
          (String.toList " - *Implemented: " ++
            (String.toList "2026-02-01" ++ String.toList "*\n"))))))))
      (String.toList "idea-" ++ String.toList "007")
      (some (String.toList "2026-02-01")) (String.toList "2026-02-02") =
      (⟨false, String.toList "Idea " ++
        (String.toList "idea-" ++ String.toList "007") ++
        String.toList " is already marked as implemented"⟩,
       some (String.toList "Backlog\n\n" ++
      (String.toList "\n## Archive (Implemented)\n" ++
      (Char.ofNat 10 :: (String.toList "- **[idea-" ++ String.toList "007" ++
        String.toList "]** " ++ (('G' :: String.toList "reat idea") ++
          (String.toList " - *Implemented: " ++
            (String.toList "2026-02-01" ++ String.toList "*\n")))))))) := by
  exact claim_C5_mark_idempotent (String.toList "Backlog\n\n")
    (String.toList "007") 'G' (String.toList "reat idea") '8'
    (String.toList "5") (some (String.toList "2026-02-01"))
    (String.toList "2026-02-02") (String.toList "2026-02-01")
    (' ' :: (('G' :: String.toList "reat idea") ++
      (String.toList "\n  - **Score:** " ++ ('8' :: String.toList "5"))))
    (String.toList "Backlog\n\n" ++
      (blkOf (String.toList "007")
        (' ' :: (('G' :: String.toList "reat idea") ++
      (String.toList "\n  - **Score:** " ++ ('8' :: String.toList "5")))) ++
      String.toList "\n\n## Archive (Implemented)\n"))
    (String.toList "Backlog\n\n" ++
      (String.toList "\n## Archive (Implemented)\n" ++
      (Char.ofNat 10 :: (String.toList "- **[idea-" ++ String.toList "007" ++
        String.toList "]** " ++ (('G' :: String.toList "reat idea") ++
          (String.toList " - *Implemented: " ++
            (String.toList "2026-02-01" ++ String.toList "*\n")))))))
    rfl rfl rfl rfl (by decide) (by decide) (by decide) (by decide)
    (by decide) (by decide) (by decide) (by decide) (by decide)
    (by decide) (by decide) (by decide)

end Dex





